import Mathlib

/-!
# Position-sensitive ROI Align (CPU kernels): embedding and verification

Shallow embedding of `horch/csrc/cpu/PSROIAlign_cpu.cpp`.

Modelling conventions

* The element type `T` of the kernels is modelled by the rationals `ℚ`
  (exact arithmetic: no rounding, no NaN, no infinities).
* C `int` values are modelled by `Int`.  In the kernels as embedded first
  (`PSROIAlignForward`, `PSROIAlignBackward` and their parts) integer results
  are exact, without wrap-around; these definitions serve the statements about
  computed values.  The section on 32-bit `int` gives the index arithmetic of
  both kernels again with every `int` result reduced to 32 bits; the statements
  about indices, the averaging denominator and array bounds are made for those
  definitions, which are proved to agree with the exact ones when no index
  computation overflows.
* A raw pointer `T *p` is modelled by the memory it addresses, a total map
  `Int → ℚ` from element offsets to values; `p + k` is an index shift.  A
  store `p[k] = v` is `Function.update`.  Reads and writes outside the
  allocated extent are undefined behaviour in the source; the model simply
  reads or updates the map at that offset.
* `for (int i = 0; i < n; i++)` is `forLoop n`, a left fold over `0 .. n-1`.
-/

set_option autoImplicit false

namespace PSROIAlign

/-! ## Basic C constructs -/

/-- The loop `for (int i = 0; i < n; i++) st = body i st`. -/
def forLoop {σ : Type} (n : Int) (body : Int → σ → σ) (st : σ) : σ :=
  (List.range n.toNat).foldl (fun s (i : ℕ) => body (i : Int) s) st

/-- Conversion of a scalar to `int` (`(int)y`, `int b = offset_rois[0]`):
truncation toward zero. -/
def toInt (q : ℚ) : Int := if 0 ≤ q then ⌊q⌋ else ⌈q⌉

/-- The function `ceil` of the C library: the result is again a scalar. -/
def cCeil (q : ℚ) : ℚ := ((⌈q⌉ : Int) : ℚ)

/-- `template <class T> inline void add(T *address, const T &val)`
(lines 245-247): `*address += val`. -/
def add (mem : Int → ℚ) (address : Int) (val : ℚ) : Int → ℚ :=
  Function.update mem address (mem address + val)

/-! ## `PreCalc` and `pre_calc_for_bilinear_interpolate` (lines 5-103) -/

/-- `template <typename T> struct PreCalc` (lines 5-14). -/
structure PreCalc where
  pos1 : Int
  pos2 : Int
  pos3 : Int
  pos4 : Int
  w1 : ℚ
  w2 : ℚ
  w3 : ℚ
  w4 : ℚ
deriving DecidableEq

/-- A value-initialised `PreCalc` (the elements of a freshly sized
`std::vector<PreCalc<T>>`). -/
def PreCalc.zero : PreCalc :=
  { pos1 := 0, pos2 := 0, pos3 := 0, pos4 := 0, w1 := 0, w2 := 0, w3 := 0, w4 := 0 }

/-- Body of the innermost loop of `pre_calc_for_bilinear_interpolate`
(lines 35-95): the record stored for the sample coordinate `(yy, xx)`.
The three assignments of the branch `y_low >= height - 1` (to `y_high`,
`y_low` and `y`) are written as three conditionals on that same test. -/
def pre_calc_sample (height width : Int) (yy xx : ℚ) : PreCalc :=
  let x := xx
  let y := yy
  if y < -1 ∨ y > (height : ℚ) ∨ x < -1 ∨ x > (width : ℚ) then
    { pos1 := 0, pos2 := 0, pos3 := 0, pos4 := 0, w1 := 0, w2 := 0, w3 := 0, w4 := 0 }
  else
    let y := if y ≤ 0 then 0 else y
    let x := if x ≤ 0 then 0 else x
    let y_low0 := toInt y
    let x_low0 := toInt x
    let y_high := if y_low0 ≥ height - 1 then height - 1 else y_low0 + 1
    let y_low := if y_low0 ≥ height - 1 then height - 1 else y_low0
    let y := if y_low0 ≥ height - 1 then ((height - 1 : Int) : ℚ) else y
    let x_high := if x_low0 ≥ width - 1 then width - 1 else x_low0 + 1
    let x_low := if x_low0 ≥ width - 1 then width - 1 else x_low0
    let x := if x_low0 ≥ width - 1 then ((width - 1 : Int) : ℚ) else x
    let ly := y - (y_low : ℚ)
    let lx := x - (x_low : ℚ)
    let hy := 1 - ly
    let hx := 1 - lx
    { pos1 := y_low * width + x_low
      pos2 := y_low * width + x_high
      pos3 := y_high * width + x_low
      pos4 := y_high * width + x_high
      w1 := hy * hx
      w2 := hy * lx
      w3 := ly * hx
      w4 := ly * lx }

/-- `pre_calc_for_bilinear_interpolate` (lines 16-103).  The loop state is the
pair (table, `pre_calc_index`); the function returns the filled table. -/
def pre_calc_for_bilinear_interpolate
    (height width pooled_height pooled_width iy_upper ix_upper : Int)
    (roi_start_h roi_start_w bin_size_h bin_size_w : ℚ)
    (roi_bin_grid_h roi_bin_grid_w : Int)
    (pre_calc : Int → PreCalc) : Int → PreCalc :=
  (forLoop pooled_height (fun ph st =>
    forLoop pooled_width (fun pw st =>
      forLoop iy_upper (fun iy st =>
        let yy := roi_start_h + (ph : ℚ) * bin_size_h +
          ((iy : ℚ) + 1 / 2) * bin_size_h / (roi_bin_grid_h : ℚ)
        forLoop ix_upper (fun ix st =>
          let xx := roi_start_w + (pw : ℚ) * bin_size_w +
            ((ix : ℚ) + 1 / 2) * bin_size_w / (roi_bin_grid_w : ℚ)
          let pc := pre_calc_sample height width yy xx
          (Function.update st.1 st.2 pc, st.2 + 1)) st) st) st)
    (pre_calc, (0 : Int))).1

/-! ## Region geometry shared by the two kernels

Lines 119-149 of `PSROIAlignForward` and lines 266-299 of
`PSROIAlignBackward` compute the same local variables with the same
expressions; each local is one definition here, used by both kernels. -/

/-- `int roi_batch_ind = offset_rois[0]` with `offset_rois = rois + n * 5`. -/
def roi_batch_ind (rois : Int → ℚ) (n : Int) : Int := toInt (rois (n * 5 + 0))

/-- `T roi_start_w = offset_rois[1] * scale_w`. -/
def roi_start_w (rois : Int → ℚ) (scale_w : ℚ) (n : Int) : ℚ := rois (n * 5 + 1) * scale_w

/-- `T roi_start_h = offset_rois[2] * scale_h`. -/
def roi_start_h (rois : Int → ℚ) (scale_h : ℚ) (n : Int) : ℚ := rois (n * 5 + 2) * scale_h

/-- `T roi_end_w = offset_rois[3] * scale_w`. -/
def roi_end_w (rois : Int → ℚ) (scale_w : ℚ) (n : Int) : ℚ := rois (n * 5 + 3) * scale_w

/-- `T roi_end_h = offset_rois[4] * scale_h`. -/
def roi_end_h (rois : Int → ℚ) (scale_h : ℚ) (n : Int) : ℚ := rois (n * 5 + 4) * scale_h

/-- `T roi_width = std::max(roi_end_w - roi_start_w, (T)1.)`. -/
def roi_width (rois : Int → ℚ) (scale_w : ℚ) (n : Int) : ℚ :=
  max (roi_end_w rois scale_w n - roi_start_w rois scale_w n) 1

/-- `T roi_height = std::max(roi_end_h - roi_start_h, (T)1.)`. -/
def roi_height (rois : Int → ℚ) (scale_h : ℚ) (n : Int) : ℚ :=
  max (roi_end_h rois scale_h n - roi_start_h rois scale_h n) 1

/-- `T bin_size_h = static_cast<T>(roi_height) / static_cast<T>(pooled_height)`. -/
def bin_size_h (rois : Int → ℚ) (scale_h : ℚ) (pooled_height n : Int) : ℚ :=
  roi_height rois scale_h n / (pooled_height : ℚ)

/-- `T bin_size_w = static_cast<T>(roi_width) / static_cast<T>(pooled_width)`. -/
def bin_size_w (rois : Int → ℚ) (scale_w : ℚ) (pooled_width n : Int) : ℚ :=
  roi_width rois scale_w n / (pooled_width : ℚ)

/-- `int roi_bin_grid_h = (sampling_ratio > 0) ? sampling_ratio
: ceil(roi_height / pooled_height)`. -/
def roi_bin_grid_h (rois : Int → ℚ) (scale_h : ℚ) (pooled_height sampling_ratio n : Int) : Int :=
  if sampling_ratio > 0 then sampling_ratio
  else toInt (cCeil (roi_height rois scale_h n / (pooled_height : ℚ)))

/-- `int roi_bin_grid_w = (sampling_ratio > 0) ? sampling_ratio
: ceil(roi_width / pooled_width)`. -/
def roi_bin_grid_w (rois : Int → ℚ) (scale_w : ℚ) (pooled_width sampling_ratio n : Int) : Int :=
  if sampling_ratio > 0 then sampling_ratio
  else toInt (cCeil (roi_width rois scale_w n / (pooled_width : ℚ)))

/-! ## `PSROIAlignForward` (lines 105-191) -/

/-- The expression accumulated at lines 176-179 for one table record. -/
def pc_value (offset_input : Int) (input : Int → ℚ) (pc : PreCalc) : ℚ :=
  pc.w1 * input (offset_input + pc.pos1) + pc.w2 * input (offset_input + pc.pos2) +
    pc.w3 * input (offset_input + pc.pos3) + pc.w4 * input (offset_input + pc.pos4)

/-- `PSROIAlignForward` (lines 105-191); returns the `output` buffer. -/
def PSROIAlignForward (nthreads : Int) (input : Int → ℚ) (scale_h scale_w : ℚ)
    (channels height width out_channels pooled_height pooled_width sampling_ratio : Int)
    (rois : Int → ℚ) (output : Int → ℚ) : Int → ℚ :=
  let n_rois := ((nthreads.tdiv out_channels).tdiv pooled_width).tdiv pooled_height
  forLoop n_rois (fun n output =>
    let index_n := n * out_channels * pooled_width * pooled_height
    let rbi := roi_batch_ind rois n
    let start_w := roi_start_w rois scale_w n
    let start_h := roi_start_h rois scale_h n
    let bsh := bin_size_h rois scale_h pooled_height n
    let bsw := bin_size_w rois scale_w pooled_width n
    let gh := roi_bin_grid_h rois scale_h pooled_height sampling_ratio n
    let gw := roi_bin_grid_w rois scale_w pooled_width sampling_ratio n
    let count : ℚ := ((gh * gw : Int) : ℚ)
    let pre_calc := pre_calc_for_bilinear_interpolate height width pooled_height
      pooled_width gh gw start_h start_w bsh bsw gh gw (fun _ => PreCalc.zero)
    forLoop out_channels (fun c output =>
      let c_offset := c * pooled_height * pooled_width
      (forLoop pooled_height (fun ph st =>
        forLoop pooled_width (fun pw st =>
          let offset := c_offset + ph * pooled_width + pw
          let index := index_n + offset
          let offset_input := (rbi * channels + offset) * height * width
          let inner := forLoop gh (fun _ acc =>
            forLoop gw (fun _ acc =>
              let pc := pre_calc acc.2
              (acc.1 + pc_value offset_input input pc, acc.2 + 1)) acc)
            ((0 : ℚ), st.2)
          let output_val := inner.1 / count
          (Function.update st.1 index output_val, inner.2)) st)
        (output, (0 : Int))).1) output) output

/-! ## `bilinear_interpolate_gradient` and `PSROIAlignBackward` (lines 193-337) -/

/-- The eight reference parameters written by `bilinear_interpolate_gradient`. -/
structure BilinearGrad where
  w1 : ℚ
  w2 : ℚ
  w3 : ℚ
  w4 : ℚ
  x_low : Int
  x_high : Int
  y_low : Int
  y_high : Int
deriving DecidableEq

/-- `bilinear_interpolate_gradient` (lines 193-243); the `index` parameter
("for debug only") is unused and omitted. -/
def bilinear_interpolate_gradient (height width : Int) (y x : ℚ) : BilinearGrad :=
  if y < -1 ∨ y > (height : ℚ) ∨ x < -1 ∨ x > (width : ℚ) then
    { w1 := 0, w2 := 0, w3 := 0, w4 := 0, x_low := -1, x_high := -1, y_low := -1, y_high := -1 }
  else
    let y := if y ≤ 0 then 0 else y
    let x := if x ≤ 0 then 0 else x
    let y_low0 := toInt y
    let x_low0 := toInt x
    let y_high := if y_low0 ≥ height - 1 then height - 1 else y_low0 + 1
    let y_low := if y_low0 ≥ height - 1 then height - 1 else y_low0
    let y := if y_low0 ≥ height - 1 then ((height - 1 : Int) : ℚ) else y
    let x_high := if x_low0 ≥ width - 1 then width - 1 else x_low0 + 1
    let x_low := if x_low0 ≥ width - 1 then width - 1 else x_low0
    let x := if x_low0 ≥ width - 1 then ((width - 1 : Int) : ℚ) else x
    let ly := y - (y_low : ℚ)
    let lx := x - (x_low : ℚ)
    let hy := 1 - ly
    let hx := 1 - lx
    { w1 := hy * hx, w2 := hy * lx, w3 := ly * hx, w4 := ly * lx,
      x_low := x_low, x_high := x_high, y_low := y_low, y_high := y_high }

/-- `const T grad_output_this_bin = *(grad_output + output_offset)` with
`output_offset = n * n_stride + c * c_stride + ph * h_stride + pw * w_stride`
(lines 285-287). -/
def grad_output_this_bin (grad_output : Int → ℚ) (n_stride c_stride h_stride w_stride : Int)
    (n c ph pw : Int) : ℚ :=
  grad_output (n * n_stride + c * c_stride + ph * h_stride + pw * w_stride)

/-- `PSROIAlignBackward` (lines 249-337); returns the `grad_input` buffer. -/
def PSROIAlignBackward (nthreads : Int) (grad_output : Int → ℚ) (scale_h scale_w : ℚ)
    (channels height width out_channels pooled_height pooled_width sampling_ratio : Int)
    (grad_input : Int → ℚ) (rois : Int → ℚ)
    (n_stride c_stride h_stride w_stride : Int) : Int → ℚ :=
  forLoop nthreads (fun index grad_input =>
    let pw := index.tmod pooled_width
    let ph := (index.tdiv pooled_width).tmod pooled_height
    let c := ((index.tdiv pooled_width).tdiv pooled_height).tmod out_channels
    let n := ((index.tdiv pooled_width).tdiv pooled_height).tdiv out_channels
    let ic := c * pooled_height * pooled_width + (ph * pooled_width) + pw
    let rbi := roi_batch_ind rois n
    let start_w := roi_start_w rois scale_w n
    let start_h := roi_start_h rois scale_h n
    let bsh := bin_size_h rois scale_h pooled_height n
    let bsw := bin_size_w rois scale_w pooled_width n
    let offset_grad_input := (rbi * channels + ic) * height * width
    let g := grad_output_this_bin grad_output n_stride c_stride h_stride w_stride n c ph pw
    let gh := roi_bin_grid_h rois scale_h pooled_height sampling_ratio n
    let gw := roi_bin_grid_w rois scale_w pooled_width sampling_ratio n
    let count : ℚ := ((gh * gw : Int) : ℚ)
    forLoop gh (fun iy grad_input =>
      let y := start_h + (ph : ℚ) * bsh + ((iy : ℚ) + 1 / 2) * bsh / (gh : ℚ)
      forLoop gw (fun ix grad_input =>
        let x := start_w + (pw : ℚ) * bsw + ((ix : ℚ) + 1 / 2) * bsw / (gw : ℚ)
        let r := bilinear_interpolate_gradient height width y x
        let g1 := g * r.w1 / count
        let g2 := g * r.w2 / count
        let g3 := g * r.w3 / count
        let g4 := g * r.w4 / count
        if r.x_low ≥ 0 ∧ r.x_high ≥ 0 ∧ r.y_low ≥ 0 ∧ r.y_high ≥ 0 then
          add (add (add (add grad_input
            (offset_grad_input + r.y_low * width + r.x_low) g1)
            (offset_grad_input + r.y_low * width + r.x_high) g2)
            (offset_grad_input + r.y_high * width + r.x_low) g3)
            (offset_grad_input + r.y_high * width + r.x_high) g4
        else grad_input) grad_input) grad_input) grad_input

/-! ## The tensor arguments of the entry points

`at::Tensor` belongs to the tensor library, not to this repository.  The part of
its interface used by the two entry points is modelled as a strided view:
the memory seen from the data pointer, the sizes and the strides. -/

/-- Element types of a tensor, as far as the dispatch macro
`AT_DISPATCH_FLOATING_TYPES_AND_HALF` distinguishes them. -/
inductive ScalarType where
  | Half
  | Float
  | Double
  | Long
deriving DecidableEq

/-- The types accepted by `AT_DISPATCH_FLOATING_TYPES_AND_HALF`. -/
def ScalarType.isFloating : ScalarType → Bool
  | .Half => true
  | .Float => true
  | .Double => true
  | .Long => false

/-- A strided tensor view: `data` is the memory addressed from the data pointer
(in elements), `sizes` and `strides` are per axis. -/
structure Tensor where
  data : Int → ℚ
  sizes : List Int
  strides : List Int
  is_cpu : Bool
  scalar_type : ScalarType

/-- `t.numel()`: number of elements. -/
def Tensor.numel (t : Tensor) : Int := t.sizes.prod

/-- `t.stride(d)`. -/
def Tensor.stride (t : Tensor) (d : Nat) : Int := t.strides.getD d 0

/-- Offset from the data pointer of the element with multi-index `idx` in a view
with the given strides. -/
def stridedOffset (idx strides : List Int) : Int := (List.zipWith (· * ·) idx strides).sum

/-- Logical element `t[idx]` of a view. -/
def Tensor.elem (t : Tensor) (idx : List Int) : ℚ := t.data (stridedOffset idx t.strides)

/-- Multi-index of the `flat`-th element in row-major order for the given sizes. -/
def unravel (sizes : List Int) (flat : Int) : List Int :=
  (sizes.foldr (fun s (acc : List Int × Int) => ((acc.2 % s) :: acc.1, acc.2 / s))
    ([], flat)).1

/-- Row-major strides of a shape. -/
def contiguousStrides (sizes : List Int) : List Int :=
  (sizes.foldr (fun s (acc : List Int × Int) => (acc.2 :: acc.1, acc.2 * s)) ([], 1)).1

/-- `t.is_contiguous()`: scanning the axes from the last one, every axis of size
other than 1 must have the stride of a row-major layout; an empty tensor is
contiguous. -/
def Tensor.is_contiguous (t : Tensor) : Bool :=
  if t.numel = 0 then true
  else
    ((List.zip t.sizes t.strides).foldr
      (fun (p : Int × Int) (acc : Bool × Int) =>
        if p.1 ≠ 1 then (if p.2 = acc.2 then (acc.1, acc.2 * p.1) else (false, acc.2))
        else acc)
      (true, 1)).1

/-- `t.contiguous()`: the tensor itself when it is contiguous, otherwise a
row-major copy holding the same logical elements. -/
def Tensor.contiguous (t : Tensor) : Tensor :=
  if t.is_contiguous then t
  else
    { t with
      data := fun flat => t.data (stridedOffset (unravel t.sizes flat) t.strides)
      strides := contiguousStrides t.sizes }

/-- `at::zeros(sizes, like.options())`. -/
def Tensor.zeros (sizes : List Int) (like : Tensor) : Tensor :=
  { data := fun _ => 0
    sizes := sizes
    strides := contiguousStrides sizes
    is_cpu := like.is_cpu
    scalar_type := like.scalar_type }

/-- `at::zeros(sizes, like.options())` as called by the entry points: the
library raises an error for a negative size. -/
def at_zeros (sizes : List Int) (like : Tensor) : Except String Tensor :=
  if sizes.any (fun s => decide (s < 0)) then
    Except.error "Trying to create tensor with negative dimension"
  else Except.ok (Tensor.zeros sizes like)

/-- `t.size(d)`: the library raises an error when the tensor has no axis `d`. -/
def Tensor.size (t : Tensor) (d : Nat) : Except String Int :=
  match t.sizes[d]? with
  | some s => Except.ok s
  | none => Except.error "Dimension out of range"

/-- `PSROIAlign_backward_cpu` (lines 379-416).  `AT_ASSERTM`, `checkAllSameType`,
`at::zeros` and the dispatch macro raise an error, modelled by `Except.error`. -/
def PSROIAlign_backward_cpu (grad rois : Tensor) (scale_h scale_w : ℚ)
    (out_channels pooled_height pooled_width batch_size channels height width
      sampling_ratio : Int) : Except String Tensor :=
  if ¬ grad.is_cpu then Except.error "grad must be a CPU tensor"
  else if ¬ rois.is_cpu then Except.error "rois must be a CPU tensor"
  else if grad.scalar_type ≠ rois.scalar_type then
    Except.error "PSROIAlign_backward_cpu: expected tensors of the same type"
  else
    match at_zeros [batch_size, channels, height, width] grad with
    | Except.error e => Except.error e
    | Except.ok grad_input =>
      if grad.numel = 0 then Except.ok grad_input
      else
        let n_stride := grad.stride 0
        let c_stride := grad.stride 1
        let h_stride := grad.stride 2
        let w_stride := grad.stride 3
        if ¬ grad.scalar_type.isFloating then
          Except.error "PSROIAlign_backward not implemented for this type"
        else
          Except.ok
            { grad_input with
              data := PSROIAlignBackward grad.numel grad.contiguous.data scale_h scale_w
                channels height width out_channels pooled_height pooled_width sampling_ratio
                grad_input.data rois.contiguous.data n_stride c_stride h_stride w_stride }

/-- A non-contiguous upstream gradient: the view `base.transpose(2, 3)` of a
contiguous `base` of shape `[1, 1, 2, 2]` holding `0, 1, 2, 3`.  Its shape is
`[1, 1, 2, 2]`, its strides are `[4, 4, 1, 2]`, and its logical element
`[0, 0, ph, pw]` is `base[0, 0, pw, ph] = 2 * pw + ph`. -/
def transposed_grad : Tensor :=
  { data := fun i => (i : ℚ)
    sizes := [1, 1, 2, 2]
    strides := [4, 4, 1, 2]
    is_cpu := true
    scalar_type := ScalarType.Float }

/-- The region list `[[0, 0, 0, 1, 1]]` as a contiguous tensor of shape `[1, 5]`. -/
def unit_roi : Tensor :=
  { data := fun i => if i = 3 ∨ i = 4 then 1 else 0
    sizes := [1, 5]
    strides := [5, 1]
    is_cpu := true
    scalar_type := ScalarType.Float }

/-! ## Specification-side definitions (written from the specification text) -/

/-- The map `f` on memories overwrites the addresses `lo ≤ a < hi` with values
satisfying `P a` and leaves every other address unchanged. -/
def Fills {α : Type} (f : (Int → α) → (Int → α)) (lo hi : Int) (P : Int → α → Prop) : Prop :=
  ∀ m a, (lo ≤ a → a < hi → P a (f m a)) ∧ (¬ (lo ≤ a ∧ a < hi) → f m a = m a)

/-- Bin loops of `PSROIAlignForward` (lines 162-188) for one output channel `c`,
as a function of the values computed per region. -/
def forward_bins (input : Int → ℚ) (channels height width pooled_height pooled_width : Int)
    (index_n rbi gh gw : Int) (count : ℚ) (pre_calc : Int → PreCalc) (c : Int)
    (output : Int → ℚ) : Int → ℚ :=
  (forLoop pooled_height (fun ph st =>
    forLoop pooled_width (fun pw st =>
      let offset := c * pooled_height * pooled_width + ph * pooled_width + pw
      let index := index_n + offset
      let offset_input := (rbi * channels + offset) * height * width
      let inner := forLoop gh (fun _ acc =>
        forLoop gw (fun _ acc =>
          let pc := pre_calc acc.2
          (acc.1 + pc_value offset_input input pc, acc.2 + 1)) acc)
        ((0 : ℚ), st.2)
      let output_val := inner.1 / count
      (Function.update st.1 index output_val, inner.2)) st)
    (output, (0 : Int))).1

/-- Value written by `PSROIAlignForward` to output element `(n, c, ph, pw)`, in
terms of the records of `pre_calc_sample`. -/
def forward_bin_value (input : Int → ℚ) (scale_h scale_w : ℚ)
    (channels height width pooled_height pooled_width sampling_ratio : Int)
    (rois : Int → ℚ) (n c ph pw : Int) : ℚ :=
  (∑ iy ∈ Finset.range (roi_bin_grid_h rois scale_h pooled_height sampling_ratio n).toNat,
    ∑ ix ∈ Finset.range (roi_bin_grid_w rois scale_w pooled_width sampling_ratio n).toNat,
      pc_value
        ((roi_batch_ind rois n * channels
          + (c * pooled_height * pooled_width + ph * pooled_width + pw)) * height * width)
        input
        (pre_calc_sample height width
          (roi_start_h rois scale_h n + (ph : ℚ) * bin_size_h rois scale_h pooled_height n
            + (((iy : Int) : ℚ) + 1 / 2) * bin_size_h rois scale_h pooled_height n
              / ((roi_bin_grid_h rois scale_h pooled_height sampling_ratio n : Int) : ℚ))
          (roi_start_w rois scale_w n + (pw : ℚ) * bin_size_w rois scale_w pooled_width n
            + (((ix : Int) : ℚ) + 1 / 2) * bin_size_w rois scale_w pooled_width n
              / ((roi_bin_grid_w rois scale_w pooled_width sampling_ratio n : Int) : ℚ))))
    / (((roi_bin_grid_h rois scale_h pooled_height sampling_ratio n
        * roi_bin_grid_w rois scale_w pooled_width sampling_ratio n : Int)) : ℚ)

/-- Pairing of two memories over the first `M` elements. -/
def dot (M : ℕ) (a b : Int → ℚ) : ℚ := ∑ j ∈ Finset.range M, a (j : Int) * b (j : Int)

/-! ## Tensors used as concrete inputs of the entry points -/

/-- A contiguous upstream gradient of shape `[1, 1, 2, 2]` holding `1, 2, 3, 4`. -/
def small_grad : Tensor :=
  { data := fun i => (i : ℚ) + 1
    sizes := [1, 1, 2, 2]
    strides := [4, 4, 2, 1]
    is_cpu := true
    scalar_type := ScalarType.Float }

/-- The `y` coordinate of the sample `iy` of bin row `ph` of region `n`, as both
kernels compute it (lines 26-29 and 302-304). -/
def sample_y (rois : Int → ℚ) (scale_h : ℚ) (pooled_height sampling_ratio n ph iy : Int) : ℚ :=
  roi_start_h rois scale_h n + (ph : ℚ) * bin_size_h rois scale_h pooled_height n
    + ((iy : ℚ) + 1 / 2) * bin_size_h rois scale_h pooled_height n
      / ((roi_bin_grid_h rois scale_h pooled_height sampling_ratio n : Int) : ℚ)

/-- The `x` coordinate of the sample `ix` of bin column `pw` of region `n`, as
both kernels compute it (lines 31-33 and 306-308). -/
def sample_x (rois : Int → ℚ) (scale_w : ℚ) (pooled_width sampling_ratio n pw ix : Int) : ℚ :=
  roi_start_w rois scale_w n + (pw : ℚ) * bin_size_w rois scale_w pooled_width n
    + ((ix : ℚ) + 1 / 2) * bin_size_w rois scale_w pooled_width n
      / ((roi_bin_grid_w rois scale_w pooled_width sampling_ratio n : Int) : ℚ)

/-- The out-of-bounds test of both interpolation routines (lines 39 and 200). -/
def sample_is_empty (height width : Int) (y x : ℚ) : Prop :=
  y < -1 ∨ y > (height : ℚ) ∨ x < -1 ∨ x > (width : ℚ)

instance (height width : Int) (y x : ℚ) : Decidable (sample_is_empty height width y x) := by
  unfold sample_is_empty
  infer_instance

/-- Body of the loop of `PSROIAlignBackward` (lines 259-335): the processing of
the output element with flat index `index`. -/
def backward_element (grad_output : Int → ℚ) (scale_h scale_w : ℚ)
    (channels height width out_channels pooled_height pooled_width sampling_ratio : Int)
    (rois : Int → ℚ) (n_stride c_stride h_stride w_stride : Int)
    (index : Int) (grad_input : Int → ℚ) : Int → ℚ :=
  let pw := index.tmod pooled_width
  let ph := (index.tdiv pooled_width).tmod pooled_height
  let c := ((index.tdiv pooled_width).tdiv pooled_height).tmod out_channels
  let n := ((index.tdiv pooled_width).tdiv pooled_height).tdiv out_channels
  let ic := c * pooled_height * pooled_width + (ph * pooled_width) + pw
  let rbi := roi_batch_ind rois n
  let start_w := roi_start_w rois scale_w n
  let start_h := roi_start_h rois scale_h n
  let bsh := bin_size_h rois scale_h pooled_height n
  let bsw := bin_size_w rois scale_w pooled_width n
  let offset_grad_input := (rbi * channels + ic) * height * width
  let g := grad_output_this_bin grad_output n_stride c_stride h_stride w_stride n c ph pw
  let gh := roi_bin_grid_h rois scale_h pooled_height sampling_ratio n
  let gw := roi_bin_grid_w rois scale_w pooled_width sampling_ratio n
  let count : ℚ := ((gh * gw : Int) : ℚ)
  forLoop gh (fun iy grad_input =>
    let y := start_h + (ph : ℚ) * bsh + ((iy : ℚ) + 1 / 2) * bsh / (gh : ℚ)
    forLoop gw (fun ix grad_input =>
      let x := start_w + (pw : ℚ) * bsw + ((ix : ℚ) + 1 / 2) * bsw / (gw : ℚ)
      let r := bilinear_interpolate_gradient height width y x
      let g1 := g * r.w1 / count
      let g2 := g * r.w2 / count
      let g3 := g * r.w3 / count
      let g4 := g * r.w4 / count
      if r.x_low ≥ 0 ∧ r.x_high ≥ 0 ∧ r.y_low ≥ 0 ∧ r.y_high ≥ 0 then
        add (add (add (add grad_input
          (offset_grad_input + r.y_low * width + r.x_low) g1)
          (offset_grad_input + r.y_low * width + r.x_high) g2)
          (offset_grad_input + r.y_high * width + r.x_low) g3)
          (offset_grad_input + r.y_high * width + r.x_high) g4
      else grad_input) grad_input) grad_input

/-- The map `f` on buffers adds a fixed increment to every buffer. -/
def IsShift (f : (Int → ℚ) → (Int → ℚ)) : Prop :=
  ∃ δ : Int → ℚ, ∀ G : Int → ℚ, f G = fun a => G a + δ a

/-! ## The kernels with a record of their buffer accesses

The same code as above with one more component in every loop state: the list
of the buffer accesses made so far, in program order.  An event carries the
index used and, where the code knows it, the extent of the buffer (the size of
the `pre_calc` vector) or the region `n` being processed.  In this section the
indices are exact integers; the kernels in `int` arithmetic defined further below
are compared with these. -/

/-- One buffer access of a kernel. -/
inductive Access where
  /-- The store `pre_calc[idx] = pc` (lines 50 and 96), the vector having `size` elements. -/
  | pre_calc_write (idx size : Int)
  /-- The load `pc = pre_calc[idx]` (line 175), the vector having `size` elements. -/
  | pre_calc_read (idx size : Int)
  /-- The load `offset_input[pos]` (lines 176-179) for region `n`, at linear index `idx`
  of `input`. -/
  | input_read (n idx : Int)
  /-- The store `output[idx] = output_val` (line 186). -/
  | output_write (idx : Int)
  /-- The update `add(offset_grad_input + ..., g)` (lines 325-332) for region `n`, at
  linear index `idx` of `grad_input`. -/
  | grad_input_write (n idx : Int)
deriving DecidableEq

/-- The function `pre_calc_for_bilinear_interpolate` (lines 16-103) returning the
table and the list of the indices it has written. -/
def pre_calc_for_bilinear_interpolate_traced
    (height width pooled_height pooled_width iy_upper ix_upper : Int)
    (roi_start_h roi_start_w bin_size_h bin_size_w : ℚ)
    (roi_bin_grid_h roi_bin_grid_w : Int)
    (pre_calc : Int → PreCalc) : (Int → PreCalc) × List Int :=
  let r := forLoop pooled_height (fun ph st =>
    forLoop pooled_width (fun pw st =>
      forLoop iy_upper (fun iy st =>
        let yy := roi_start_h + (ph : ℚ) * bin_size_h +
          ((iy : ℚ) + 1 / 2) * bin_size_h / (roi_bin_grid_h : ℚ)
        forLoop ix_upper (fun ix st =>
          let xx := roi_start_w + (pw : ℚ) * bin_size_w +
            ((ix : ℚ) + 1 / 2) * bin_size_w / (roi_bin_grid_w : ℚ)
          let pc := pre_calc_sample height width yy xx
          ((Function.update st.1.1 st.1.2 pc, st.1.2 + 1), st.2 ++ [st.1.2])) st) st) st)
    ((pre_calc, (0 : Int)), ([] : List Int))
  (r.1.1, r.2)

/-- The kernel `PSROIAlignForward` (lines 105-191) returning the `output` buffer
and the list of its accesses to `pre_calc`, `input` and `output`. -/
def PSROIAlignForward_traced (nthreads : Int) (input : Int → ℚ) (scale_h scale_w : ℚ)
    (channels height width out_channels pooled_height pooled_width sampling_ratio : Int)
    (rois : Int → ℚ) (output : Int → ℚ) : (Int → ℚ) × List Access :=
  let n_rois := ((nthreads.tdiv out_channels).tdiv pooled_width).tdiv pooled_height
  forLoop n_rois (fun n st =>
    let index_n := n * out_channels * pooled_width * pooled_height
    let rbi := roi_batch_ind rois n
    let start_w := roi_start_w rois scale_w n
    let start_h := roi_start_h rois scale_h n
    let bsh := bin_size_h rois scale_h pooled_height n
    let bsw := bin_size_w rois scale_w pooled_width n
    let gh := roi_bin_grid_h rois scale_h pooled_height sampling_ratio n
    let gw := roi_bin_grid_w rois scale_w pooled_width sampling_ratio n
    let count : ℚ := ((gh * gw : Int) : ℚ)
    let size := gh * gw * pooled_height * pooled_width
    let pre := pre_calc_for_bilinear_interpolate_traced height width pooled_height
      pooled_width gh gw start_h start_w bsh bsw gh gw (fun _ => PreCalc.zero)
    let pre_calc := pre.1
    forLoop out_channels (fun c st =>
      let c_offset := c * pooled_height * pooled_width
      let r := forLoop pooled_height (fun ph st =>
        forLoop pooled_width (fun pw st =>
          let offset := c_offset + ph * pooled_width + pw
          let index := index_n + offset
          let offset_input := (rbi * channels + offset) * height * width
          let inner := forLoop gh (fun _ acc =>
            forLoop gw (fun _ acc =>
              let pc := pre_calc acc.1.2
              ((acc.1.1 + pc_value offset_input input pc, acc.1.2 + 1),
                acc.2 ++ [Access.pre_calc_read acc.1.2 size,
                  Access.input_read n (offset_input + pc.pos1),
                  Access.input_read n (offset_input + pc.pos2),
                  Access.input_read n (offset_input + pc.pos3),
                  Access.input_read n (offset_input + pc.pos4)])) acc)
            (((0 : ℚ), st.1.2), st.2)
          let output_val := inner.1.1 / count
          ((Function.update st.1.1 index output_val, inner.1.2),
            inner.2 ++ [Access.output_write index])) st)
        ((st.1, (0 : Int)), st.2)
      (r.1.1, r.2))
      (st.1, st.2 ++ pre.2.map (fun i => Access.pre_calc_write i size)))
    (output, ([] : List Access))

/-- The kernel `PSROIAlignBackward` (lines 249-337) returning the `grad_input`
buffer and the list of its accesses to `grad_input`. -/
def PSROIAlignBackward_traced (nthreads : Int) (grad_output : Int → ℚ) (scale_h scale_w : ℚ)
    (channels height width out_channels pooled_height pooled_width sampling_ratio : Int)
    (grad_input : Int → ℚ) (rois : Int → ℚ)
    (n_stride c_stride h_stride w_stride : Int) : (Int → ℚ) × List Access :=
  forLoop nthreads (fun index st =>
    let pw := index.tmod pooled_width
    let ph := (index.tdiv pooled_width).tmod pooled_height
    let c := ((index.tdiv pooled_width).tdiv pooled_height).tmod out_channels
    let n := ((index.tdiv pooled_width).tdiv pooled_height).tdiv out_channels
    let ic := c * pooled_height * pooled_width + (ph * pooled_width) + pw
    let rbi := roi_batch_ind rois n
    let start_w := roi_start_w rois scale_w n
    let start_h := roi_start_h rois scale_h n
    let bsh := bin_size_h rois scale_h pooled_height n
    let bsw := bin_size_w rois scale_w pooled_width n
    let offset_grad_input := (rbi * channels + ic) * height * width
    let g := grad_output_this_bin grad_output n_stride c_stride h_stride w_stride n c ph pw
    let gh := roi_bin_grid_h rois scale_h pooled_height sampling_ratio n
    let gw := roi_bin_grid_w rois scale_w pooled_width sampling_ratio n
    let count : ℚ := ((gh * gw : Int) : ℚ)
    forLoop gh (fun iy st =>
      let y := start_h + (ph : ℚ) * bsh + ((iy : ℚ) + 1 / 2) * bsh / (gh : ℚ)
      forLoop gw (fun ix st =>
        let x := start_w + (pw : ℚ) * bsw + ((ix : ℚ) + 1 / 2) * bsw / (gw : ℚ)
        let r := bilinear_interpolate_gradient height width y x
        let g1 := g * r.w1 / count
        let g2 := g * r.w2 / count
        let g3 := g * r.w3 / count
        let g4 := g * r.w4 / count
        if r.x_low ≥ 0 ∧ r.x_high ≥ 0 ∧ r.y_low ≥ 0 ∧ r.y_high ≥ 0 then
          (add (add (add (add st.1
            (offset_grad_input + r.y_low * width + r.x_low) g1)
            (offset_grad_input + r.y_low * width + r.x_high) g2)
            (offset_grad_input + r.y_high * width + r.x_low) g3)
            (offset_grad_input + r.y_high * width + r.x_high) g4,
            st.2 ++ [Access.grad_input_write n (offset_grad_input + r.y_low * width + r.x_low),
              Access.grad_input_write n (offset_grad_input + r.y_low * width + r.x_high),
              Access.grad_input_write n (offset_grad_input + r.y_high * width + r.x_low),
              Access.grad_input_write n (offset_grad_input + r.y_high * width + r.x_high)])
        else st) st) st)
    (grad_input, ([] : List Access))

/-- An access is inside its buffer: the `pre_calc` vector of the recorded size,
the feature map and the gradient buffer of `M` elements, the output of
`nthreads` elements. -/
def Access.in_bounds (nthreads M : Int) : Access → Prop
  | Access.pre_calc_write idx size => 0 ≤ idx ∧ idx < size
  | Access.pre_calc_read idx size => 0 ≤ idx ∧ idx < size
  | Access.input_read _ idx => 0 ≤ idx ∧ idx < M
  | Access.output_write idx => 0 ≤ idx ∧ idx < nthreads
  | Access.grad_input_write _ idx => 0 ≤ idx ∧ idx < M

/-- Where an access lands: table and output accesses inside their buffer, and an
access to the feature map or the gradient buffer made for region `n < N` inside
one plane `(batch_index(n) * CH + ch)` with `0 ≤ ch < CH`. -/
def Access.located (rois : Int → ℚ) (N CH HW nthreads : Int) : Access → Prop
  | Access.pre_calc_write idx size => 0 ≤ idx ∧ idx < size
  | Access.pre_calc_read idx size => 0 ≤ idx ∧ idx < size
  | Access.input_read n idx => 0 ≤ n ∧ n < N ∧ ∃ ch : Int, 0 ≤ ch ∧ ch < CH ∧
      (roi_batch_ind rois n * CH + ch) * HW ≤ idx ∧
      idx < (roi_batch_ind rois n * CH + ch) * HW + HW
  | Access.output_write idx => 0 ≤ idx ∧ idx < nthreads
  | Access.grad_input_write n idx => 0 ≤ n ∧ n < N ∧ ∃ ch : Int, 0 ≤ ch ∧ ch < CH ∧
      (roi_batch_ind rois n * CH + ch) * HW ≤ idx ∧
      idx < (roi_batch_ind rois n * CH + ch) * HW + HW


/-- The step `f` of an instrumented loop keeps the property `Q` of the recorded
events: if every event recorded before the step has it, so has every event
recorded after the step. -/
def Keeps {σ τ : Type} (Q : τ → Prop) (f : σ × List τ → σ × List τ) : Prop :=
  ∀ st, (∀ e ∈ st.2, Q e) → ∀ e ∈ (f st).2, Q e

/-- The step `f` of an instrumented loop with a running index: started with the
index at `c` it leaves the index at `c + k`, and it keeps the property `Q` of
the recorded events. -/
def Steps {α τ : Type} (Q : τ → Prop) (c k : Int)
    (f : (α × Int) × List τ → (α × Int) × List τ) : Prop :=
  ∀ st, st.1.2 = c → (∀ e ∈ st.2, Q e) → (f st).1.2 = c + k ∧ ∀ e ∈ (f st).2, Q e

/-- The step `f` of an instrumented loop records an event with the property
`p`, and it takes away no event recorded before. -/
def Emits {σ τ : Type} (p : τ → Prop) (f : σ × List τ → σ × List τ) : Prop :=
  ∀ st, (∀ e ∈ st.2, e ∈ (f st).2) ∧ ∃ e ∈ (f st).2, p e

/-- The four positions of a table entry lie inside one plane of the feature
map. -/
def PreCalc.in_plane (height width : Int) (pc : PreCalc) : Prop :=
  (0 ≤ pc.pos1 ∧ pc.pos1 < height * width) ∧ (0 ≤ pc.pos2 ∧ pc.pos2 < height * width) ∧
  (0 ≤ pc.pos3 ∧ pc.pos3 < height * width) ∧ (0 ≤ pc.pos4 ∧ pc.pos4 < height * width)

/-- One region `(1, 0, 0, 1, 1)`: the box `[0, 1] x [0, 1]` on the image with
batch index 1. -/
def second_image_roi : Int → ℚ := fun i => if i = 0 ∨ i = 3 ∨ i = 4 then 1 else 0

/-! ## Extreme pixels of a plane -/

/-- Minimum of the pixels `input[offset + j]`, `j ≤ count`, folded from the first
pixel of the plane; a plane of `count ≥ 1` pixels has the pixels `j < count`. -/
def plane_min (input : Int → ℚ) (offset : Int) (count : ℕ) : ℚ :=
  (List.range count).foldl (fun m (j : ℕ) => min m (input (offset + (j : Int)))) (input offset)

/-- Maximum of the pixels of a plane, folded from its first pixel. -/
def plane_max (input : Int → ℚ) (offset : Int) (count : ℕ) : ℚ :=
  (List.range count).foldl (fun m (j : ℕ) => max m (input (offset + (j : Int)))) (input offset)

/-- A feature map `[1, 1, 2, 2]` holding `1, 2, 3, 4`. -/
def ramp_plane : Int → ℚ := fun j => (j : ℚ) + 1

/-- One region `(0, 0, 0, 1, 1)`: the box `[0, 1] x [0, 1]` on the image with
batch index 0. -/
def corner_roi : Int → ℚ := fun i => if i = 3 ∨ i = 4 then 1 else 0

/-! ## The index arithmetic of the kernels in 32-bit `int`

The source computes every index in the type `int`.  In this section each result
of an `int` addition or multiplication, and each conversion of a scalar to
`int`, is reduced to the 32-bit two's complement range by `wrap32` (signed
overflow is undefined behaviour in C++; the reduction is what the compiled
arithmetic yields).  Three kinds of `int` operations cannot leave the range
for arguments in the range and are left as they are: the loop increments
(`i++` is guarded by `i < n`), quotients and remainders by the positive
dimensions, and inside the interpolation routines `(int)y`, `height - 1` and
`y_low + 1` (there `0 ≤ y ≤ height` and `y_low + 1 ≤ height - 1`).  Pointer
arithmetic `p + k` and subscripts `p[k]` are not reduced: they are computed in
the width of a pointer. -/

/-- Reduction of an integer to the range `[-2^31, 2^31)` of a 32-bit `int`. -/
def wrap32 (x : Int) : Int := (x + 2147483648) % 4294967296 - 2147483648

/-- Product of two `int` values. -/
def mul32 (a b : Int) : Int := wrap32 (a * b)

/-- Sum of two `int` values. -/
def add32 (a b : Int) : Int := wrap32 (a + b)

/-- The grid height `int roi_bin_grid_h = (sampling_ratio > 0) ? sampling_ratio
: ceil(roi_height / pooled_height)` (lines 140-143 and 290-293) as an `int`. -/
def roi_bin_grid_h32 (rois : Int → ℚ) (scale_h : ℚ) (pooled_height sampling_ratio n : Int) :
    Int :=
  if sampling_ratio > 0 then sampling_ratio
  else wrap32 (toInt (cCeil (roi_height rois scale_h n / (pooled_height : ℚ))))

/-- The grid width `int roi_bin_grid_w` (lines 144-146 and 294-296) as an `int`. -/
def roi_bin_grid_w32 (rois : Int → ℚ) (scale_w : ℚ) (pooled_width sampling_ratio n : Int) :
    Int :=
  if sampling_ratio > 0 then sampling_ratio
  else wrap32 (toInt (cCeil (roi_width rois scale_w n / (pooled_width : ℚ))))

/-- Body of the innermost loop of `pre_calc_for_bilinear_interpolate`
(lines 35-95) with the positions `y_low * width + x_low` (lines 88-91) computed
in `int`. -/
def pre_calc_sample32 (height width : Int) (yy xx : ℚ) : PreCalc :=
  let x := xx
  let y := yy
  if y < -1 ∨ y > (height : ℚ) ∨ x < -1 ∨ x > (width : ℚ) then
    { pos1 := 0, pos2 := 0, pos3 := 0, pos4 := 0, w1 := 0, w2 := 0, w3 := 0, w4 := 0 }
  else
    let y := if y ≤ 0 then 0 else y
    let x := if x ≤ 0 then 0 else x
    let y_low0 := toInt y
    let x_low0 := toInt x
    let y_high := if y_low0 ≥ height - 1 then height - 1 else y_low0 + 1
    let y_low := if y_low0 ≥ height - 1 then height - 1 else y_low0
    let y := if y_low0 ≥ height - 1 then ((height - 1 : Int) : ℚ) else y
    let x_high := if x_low0 ≥ width - 1 then width - 1 else x_low0 + 1
    let x_low := if x_low0 ≥ width - 1 then width - 1 else x_low0
    let x := if x_low0 ≥ width - 1 then ((width - 1 : Int) : ℚ) else x
    let ly := y - (y_low : ℚ)
    let lx := x - (x_low : ℚ)
    let hy := 1 - ly
    let hx := 1 - lx
    { pos1 := add32 (mul32 y_low width) x_low
      pos2 := add32 (mul32 y_low width) x_high
      pos3 := add32 (mul32 y_high width) x_low
      pos4 := add32 (mul32 y_high width) x_high
      w1 := hy * hx
      w2 := hy * lx
      w3 := ly * hx
      w4 := ly * lx }

/-- The function `pre_calc_for_bilinear_interpolate` (lines 16-103) in `int`
arithmetic, returning the table and the list of the indices it has written. -/
def pre_calc_for_bilinear_interpolate_traced32
    (height width pooled_height pooled_width iy_upper ix_upper : Int)
    (roi_start_h roi_start_w bin_size_h bin_size_w : ℚ)
    (roi_bin_grid_h roi_bin_grid_w : Int)
    (pre_calc : Int → PreCalc) : (Int → PreCalc) × List Int :=
  let r := forLoop pooled_height (fun ph st =>
    forLoop pooled_width (fun pw st =>
      forLoop iy_upper (fun iy st =>
        let yy := roi_start_h + (ph : ℚ) * bin_size_h +
          ((iy : ℚ) + 1 / 2) * bin_size_h / (roi_bin_grid_h : ℚ)
        forLoop ix_upper (fun ix st =>
          let xx := roi_start_w + (pw : ℚ) * bin_size_w +
            ((ix : ℚ) + 1 / 2) * bin_size_w / (roi_bin_grid_w : ℚ)
          let pc := pre_calc_sample32 height width yy xx
          ((Function.update st.1.1 st.1.2 pc, add32 st.1.2 1), st.2 ++ [st.1.2])) st) st) st)
    ((pre_calc, (0 : Int)), ([] : List Int))
  (r.1.1, r.2)

/-- The kernel `PSROIAlignForward` (lines 105-191) in `int` arithmetic, returning
the `output` buffer and the list of its accesses to `pre_calc`, `input` and
`output`.  The region is read through `offset_rois = rois + n * 5` (line 119);
the size of the `pre_calc` vector is the `int` product of line 153. -/
def PSROIAlignForward_traced32 (nthreads : Int) (input : Int → ℚ) (scale_h scale_w : ℚ)
    (channels height width out_channels pooled_height pooled_width sampling_ratio : Int)
    (rois : Int → ℚ) (output : Int → ℚ) : (Int → ℚ) × List Access :=
  let n_rois := ((nthreads.tdiv out_channels).tdiv pooled_width).tdiv pooled_height
  forLoop n_rois (fun n st =>
    let index_n := mul32 (mul32 (mul32 n out_channels) pooled_width) pooled_height
    let offset_rois : Int → ℚ := fun i => rois (mul32 n 5 + i)
    let rbi := wrap32 (roi_batch_ind offset_rois 0)
    let start_w := roi_start_w offset_rois scale_w 0
    let start_h := roi_start_h offset_rois scale_h 0
    let bsh := bin_size_h offset_rois scale_h pooled_height 0
    let bsw := bin_size_w offset_rois scale_w pooled_width 0
    let gh := roi_bin_grid_h32 offset_rois scale_h pooled_height sampling_ratio 0
    let gw := roi_bin_grid_w32 offset_rois scale_w pooled_width sampling_ratio 0
    let count : ℚ := ((mul32 gh gw : Int) : ℚ)
    let size := mul32 (mul32 (mul32 gh gw) pooled_height) pooled_width
    let pre := pre_calc_for_bilinear_interpolate_traced32 height width pooled_height
      pooled_width gh gw start_h start_w bsh bsw gh gw (fun _ => PreCalc.zero)
    let pre_calc := pre.1
    forLoop out_channels (fun c st =>
      let c_offset := mul32 (mul32 c pooled_height) pooled_width
      let r := forLoop pooled_height (fun ph st =>
        forLoop pooled_width (fun pw st =>
          let offset := add32 (add32 c_offset (mul32 ph pooled_width)) pw
          let index := add32 index_n offset
          let offset_input := mul32 (mul32 (add32 (mul32 rbi channels) offset) height) width
          let inner := forLoop gh (fun _ acc =>
            forLoop gw (fun _ acc =>
              let pc := pre_calc acc.1.2
              ((acc.1.1 + pc_value offset_input input pc, add32 acc.1.2 1),
                acc.2 ++ [Access.pre_calc_read acc.1.2 size,
                  Access.input_read n (offset_input + pc.pos1),
                  Access.input_read n (offset_input + pc.pos2),
                  Access.input_read n (offset_input + pc.pos3),
                  Access.input_read n (offset_input + pc.pos4)])) acc)
            (((0 : ℚ), st.1.2), st.2)
          let output_val := inner.1.1 / count
          ((Function.update st.1.1 index output_val, inner.1.2),
            inner.2 ++ [Access.output_write index])) st)
        ((st.1, (0 : Int)), st.2)
      (r.1.1, r.2))
      (st.1, st.2 ++ pre.2.map (fun i => Access.pre_calc_write i size)))
    (output, ([] : List Access))

/-- The value `grad_output_this_bin = *(grad_output + output_offset)` with the
`int` sum `output_offset` of lines 285-286. -/
def grad_output_this_bin32 (grad_output : Int → ℚ) (n_stride c_stride h_stride w_stride : Int)
    (n c ph pw : Int) : ℚ :=
  grad_output (add32 (add32 (add32 (mul32 n n_stride) (mul32 c c_stride)) (mul32 ph h_stride))
    (mul32 pw w_stride))

/-- The kernel `PSROIAlignBackward` (lines 249-337) in `int` arithmetic, returning
the `grad_input` buffer and the list of its accesses to `grad_input`.  In
`offset_grad_input + y_low * width + x_low` (lines 325-332) only the product is
an `int`; the two additions move a pointer. -/
def PSROIAlignBackward_traced32 (nthreads : Int) (grad_output : Int → ℚ) (scale_h scale_w : ℚ)
    (channels height width out_channels pooled_height pooled_width sampling_ratio : Int)
    (grad_input : Int → ℚ) (rois : Int → ℚ)
    (n_stride c_stride h_stride w_stride : Int) : (Int → ℚ) × List Access :=
  forLoop nthreads (fun index st =>
    let pw := index.tmod pooled_width
    let ph := (index.tdiv pooled_width).tmod pooled_height
    let c := ((index.tdiv pooled_width).tdiv pooled_height).tmod out_channels
    let n := ((index.tdiv pooled_width).tdiv pooled_height).tdiv out_channels
    let ic := add32 (add32 (mul32 (mul32 c pooled_height) pooled_width) (mul32 ph pooled_width)) pw
    let offset_rois : Int → ℚ := fun i => rois (mul32 n 5 + i)
    let rbi := wrap32 (roi_batch_ind offset_rois 0)
    let start_w := roi_start_w offset_rois scale_w 0
    let start_h := roi_start_h offset_rois scale_h 0
    let bsh := bin_size_h offset_rois scale_h pooled_height 0
    let bsw := bin_size_w offset_rois scale_w pooled_width 0
    let offset_grad_input := mul32 (mul32 (add32 (mul32 rbi channels) ic) height) width
    let g := grad_output_this_bin32 grad_output n_stride c_stride h_stride w_stride n c ph pw
    let gh := roi_bin_grid_h32 offset_rois scale_h pooled_height sampling_ratio 0
    let gw := roi_bin_grid_w32 offset_rois scale_w pooled_width sampling_ratio 0
    let count : ℚ := ((mul32 gh gw : Int) : ℚ)
    forLoop gh (fun iy st =>
      let y := start_h + (ph : ℚ) * bsh + ((iy : ℚ) + 1 / 2) * bsh / (gh : ℚ)
      forLoop gw (fun ix st =>
        let x := start_w + (pw : ℚ) * bsw + ((ix : ℚ) + 1 / 2) * bsw / (gw : ℚ)
        let r := bilinear_interpolate_gradient height width y x
        let g1 := g * r.w1 / count
        let g2 := g * r.w2 / count
        let g3 := g * r.w3 / count
        let g4 := g * r.w4 / count
        if r.x_low ≥ 0 ∧ r.x_high ≥ 0 ∧ r.y_low ≥ 0 ∧ r.y_high ≥ 0 then
          (add (add (add (add st.1
            (offset_grad_input + mul32 r.y_low width + r.x_low) g1)
            (offset_grad_input + mul32 r.y_low width + r.x_high) g2)
            (offset_grad_input + mul32 r.y_high width + r.x_low) g3)
            (offset_grad_input + mul32 r.y_high width + r.x_high) g4,
            st.2 ++ [Access.grad_input_write n
                (offset_grad_input + mul32 r.y_low width + r.x_low),
              Access.grad_input_write n (offset_grad_input + mul32 r.y_low width + r.x_high),
              Access.grad_input_write n (offset_grad_input + mul32 r.y_high width + r.x_low),
              Access.grad_input_write n
                (offset_grad_input + mul32 r.y_high width + r.x_high)])
        else st) st) st)
    (grad_input, ([] : List Access))

/-- The steps `f` and `g` of two instrumented loops with a running index agree
on every state whose index is `c`, and leave the index at `c + k`. -/
def Agrees {α τ : Type} (c k : Int) (f g : (α × Int) × τ → (α × Int) × τ) : Prop :=
  ∀ st, st.1.2 = c → f st = g st ∧ (g st).1.2 = c + k

/-- One region `(0, 65535, 65535, 65536, 65536)`: the last pixel of a feature
map of 65536 x 65536 pixels, on the image with batch index 0. -/
def last_pixel_roi : Int → ℚ :=
  fun i => if i = 1 ∨ i = 2 then 65535 else if i = 3 ∨ i = 4 then 65536 else 0

theorem forLoop_zero {σ : Type} (body : Int → σ → σ) (s : σ) :
    forLoop 0 body s = s := by
  simp [forLoop]

theorem forLoop_succ {σ : Type} (n : ℕ) (body : Int → σ → σ) (s : σ) :
    forLoop ((n + 1 : ℕ) : Int) body s = body (n : Int) (forLoop (n : Int) body s) := by
  simp only [forLoop, Int.toNat_ofNat, List.range_succ, List.foldl_append, List.foldl_cons,
    List.foldl_nil]

theorem forLoop_toNat {σ : Type} (n : Int) (body : Int → σ → σ) (s : σ) :
    forLoop n body s = forLoop ((n.toNat : ℕ) : Int) body s := by
  simp only [forLoop, Int.toNat_ofNat]

theorem forLoop_congr {σ : Type} (n : ℕ) (body body' : Int → σ → σ)
    (h : ∀ i : ℕ, i < n → ∀ s, body (i : Int) s = body' (i : Int) s) (s : σ) :
    forLoop (n : Int) body s = forLoop (n : Int) body' s := by
  induction n with
  | zero => simp [forLoop_zero]
  | succ k ih =>
    rw [forLoop_succ, forLoop_succ, ih (fun i hi => h i (Nat.lt_succ_of_lt hi)),
      h k (Nat.lt_succ_self k)]

/-- A loop that threads a counter advanced by a fixed amount `k` per iteration
is the same loop with the counter computed from the loop variable. -/
theorem forLoop_counter {σ : Type} (n : ℕ) (k : Int) (body : Int → σ × Int → σ × Int)
    (g : Int → Int → σ → σ)
    (hb : ∀ i : ℕ, i < n → ∀ s idx, body (i : Int) (s, idx) = (g (i : Int) idx s, idx + k))
    (s : σ) (idx : Int) :
    forLoop (n : Int) body (s, idx)
      = (forLoop (n : Int) (fun i s => g i (idx + i * k) s) s, idx + (n : Int) * k) := by
  induction n with
  | zero => simp [forLoop_zero]
  | succ m ih =>
    rw [forLoop_succ, forLoop_succ, ih (fun i hi => hb i (Nat.lt_succ_of_lt hi)),
      hb m (Nat.lt_succ_self m)]
    congr 1
    push_cast
    ring

/-- An accumulating loop computes a finite sum. -/
theorem forLoop_sum (n : ℕ) (f : Int → ℚ) (a : ℚ) :
    forLoop (n : Int) (fun i acc => acc + f i) a = a + ∑ i ∈ Finset.range n, f (i : Int) := by
  induction n with
  | zero => simp [forLoop_zero]
  | succ m ih =>
    rw [forLoop_succ, ih, Finset.sum_range_succ]
    ring

theorem Fills_update {α : Type} (a0 : Int) (v : (Int → α) → α) (P : Int → α → Prop)
    (hP : ∀ m, P a0 (v m)) :
    Fills (fun m => Function.update m a0 (v m)) a0 (a0 + 1) P := by
  intro m a
  constructor
  · intro h1 h2
    have : a = a0 := by omega
    subst this
    simpa using hP m
  · intro h
    have : a ≠ a0 := by
      intro e
      apply h
      omega
    simp [Function.update_noteq this]

/-- A loop whose `i`-th iteration fills the `i`-th block of width `k` fills the
union of the blocks. -/
theorem Fills_forLoop {α : Type} (n : ℕ) (k : Int) (hk : 0 ≤ k) (base : Int)
    (body : Int → (Int → α) → (Int → α)) (P : Int → Int → α → Prop)
    (hb : ∀ i : ℕ, i < n →
      Fills (body (i : Int)) (base + (i : Int) * k) (base + ((i : Int) + 1) * k) (P (i : Int))) :
    Fills (forLoop (n : Int) body) base (base + (n : Int) * k)
      (fun a v => ∀ i : ℕ, i < n → base + (i : Int) * k ≤ a → a < base + ((i : Int) + 1) * k →
        P (i : Int) a v) := by
  induction n with
  | zero =>
    intro m a
    simp [forLoop_zero]
  | succ j ih =>
    have ih' := ih (fun i hi => hb i (Nat.lt_succ_of_lt hi))
    have hj := hb j (Nat.lt_succ_self j)
    intro m a
    rw [forLoop_succ]
    have hjk : (0 : Int) ≤ (j : Int) * k := mul_nonneg (Int.natCast_nonneg j) hk
    by_cases hin : base + (j : Int) * k ≤ a ∧ a < base + ((j : Int) + 1) * k
    · constructor
      · intro _ _ i hi h1 h2
        have hij : i = j := by
          by_contra hne
          have hlt : i < j := by omega
          have h3 : ((i : Int) + 1) * k ≤ (j : Int) * k :=
            mul_le_mul_of_nonneg_right (by exact_mod_cast hlt) hk
          omega
        subst hij
        exact (hj _ a).1 hin.1 hin.2
      · intro hout
        exfalso
        apply hout
        push_cast
        constructor
        · omega
        · exact hin.2
    · rw [(hj _ a).2 hin]
      constructor
      · intro _ _ i hi h1 h2
        have hij : i < j := by
          rcases Nat.lt_succ_iff_lt_or_eq.mp hi with h | h
          · exact h
          · subst h
            exact absurd ⟨h1, h2⟩ hin
        have h3 : ((i : Int) + 1) * k ≤ (j : Int) * k :=
          mul_le_mul_of_nonneg_right (by exact_mod_cast hij) hk
        exact (ih' m a).1 (by nlinarith [mul_nonneg (Int.natCast_nonneg i) hk])
          (by omega) i hij h1 h2
      · intro hout
        apply (ih' m a).2
        intro hc
        apply hout
        push_cast
        constructor
        · exact hc.1
        · nlinarith [hc.2]

/-! ## Facts about scalar conversions and single samples -/

theorem toInt_intCast (n : Int) : toInt (n : ℚ) = n := by
  unfold toInt
  split_ifs <;> simp

theorem toInt_cCeil (q : ℚ) : toInt (cCeil q) = ⌈q⌉ := toInt_intCast _

theorem toInt_of_nonneg (q : ℚ) (h : 0 ≤ q) : toInt q = ⌊q⌋ := by
  simp [toInt, h]

theorem toInt_clamp_nonneg (q : ℚ) : 0 ≤ toInt (if q ≤ 0 then 0 else q) := by
  split_ifs with h
  · simp [toInt]
  · rw [toInt_of_nonneg _ (le_of_lt (not_le.mp h))]
    exact Int.floor_nonneg.mpr (le_of_lt (not_le.mp h))

theorem pre_calc_sample_of_empty (height width : Int) (y x : ℚ)
    (h : y < -1 ∨ y > (height : ℚ) ∨ x < -1 ∨ x > (width : ℚ)) :
    pre_calc_sample height width y x = PreCalc.zero := by
  simp only [pre_calc_sample, if_pos h, PreCalc.zero]

theorem bilinear_interpolate_gradient_of_empty (height width : Int) (y x : ℚ)
    (h : y < -1 ∨ y > (height : ℚ) ∨ x < -1 ∨ x > (width : ℚ)) :
    bilinear_interpolate_gradient height width y x =
      { w1 := 0, w2 := 0, w3 := 0, w4 := 0, x_low := -1, x_high := -1, y_low := -1,
        y_high := -1 } := by
  simp only [bilinear_interpolate_gradient, if_pos h]

theorem pre_calc_sample_weight_sum (height width : Int) (y x : ℚ)
    (h : ¬ (y < -1 ∨ y > (height : ℚ) ∨ x < -1 ∨ x > (width : ℚ))) :
    (pre_calc_sample height width y x).w1 + (pre_calc_sample height width y x).w2 +
      (pre_calc_sample height width y x).w3 + (pre_calc_sample height width y x).w4 = 1 := by
  simp only [pre_calc_sample, if_neg h]
  ring

theorem bilinear_interpolate_gradient_weight_sum (height width : Int) (y x : ℚ)
    (h : ¬ (y < -1 ∨ y > (height : ℚ) ∨ x < -1 ∨ x > (width : ℚ))) :
    (bilinear_interpolate_gradient height width y x).w1 +
      (bilinear_interpolate_gradient height width y x).w2 +
      (bilinear_interpolate_gradient height width y x).w3 +
      (bilinear_interpolate_gradient height width y x).w4 = 1 := by
  simp only [bilinear_interpolate_gradient, if_neg h]
  ring

/-- For a sample that is not out of bounds the backward helper returns the
weights stored by the forward precomputation, and the stored positions are the
linear offsets of the four corners it returns. -/
theorem pre_calc_sample_eq_gradient (height width : Int) (y x : ℚ)
    (h : ¬ (y < -1 ∨ y > (height : ℚ) ∨ x < -1 ∨ x > (width : ℚ))) :
    (pre_calc_sample height width y x).w1 = (bilinear_interpolate_gradient height width y x).w1 ∧
    (pre_calc_sample height width y x).w2 = (bilinear_interpolate_gradient height width y x).w2 ∧
    (pre_calc_sample height width y x).w3 = (bilinear_interpolate_gradient height width y x).w3 ∧
    (pre_calc_sample height width y x).w4 = (bilinear_interpolate_gradient height width y x).w4 ∧
    (pre_calc_sample height width y x).pos1 =
      (bilinear_interpolate_gradient height width y x).y_low * width +
        (bilinear_interpolate_gradient height width y x).x_low ∧
    (pre_calc_sample height width y x).pos2 =
      (bilinear_interpolate_gradient height width y x).y_low * width +
        (bilinear_interpolate_gradient height width y x).x_high ∧
    (pre_calc_sample height width y x).pos3 =
      (bilinear_interpolate_gradient height width y x).y_high * width +
        (bilinear_interpolate_gradient height width y x).x_low ∧
    (pre_calc_sample height width y x).pos4 =
      (bilinear_interpolate_gradient height width y x).y_high * width +
        (bilinear_interpolate_gradient height width y x).x_high := by
  simp only [pre_calc_sample, bilinear_interpolate_gradient, if_neg h, and_self]

/-- Corner indices returned by the backward helper for a sample that is not out
of bounds lie inside the plane. -/
theorem bilinear_interpolate_gradient_bounds (height width : Int) (hH : 1 ≤ height)
    (hW : 1 ≤ width) (y x : ℚ)
    (h : ¬ (y < -1 ∨ y > (height : ℚ) ∨ x < -1 ∨ x > (width : ℚ))) :
    0 ≤ (bilinear_interpolate_gradient height width y x).y_low ∧
    (bilinear_interpolate_gradient height width y x).y_low ≤ height - 1 ∧
    0 ≤ (bilinear_interpolate_gradient height width y x).y_high ∧
    (bilinear_interpolate_gradient height width y x).y_high ≤ height - 1 ∧
    0 ≤ (bilinear_interpolate_gradient height width y x).x_low ∧
    (bilinear_interpolate_gradient height width y x).x_low ≤ width - 1 ∧
    0 ≤ (bilinear_interpolate_gradient height width y x).x_high ∧
    (bilinear_interpolate_gradient height width y x).x_high ≤ width - 1 := by
  have hy := toInt_clamp_nonneg y
  have hx := toInt_clamp_nonneg x
  simp only [bilinear_interpolate_gradient, if_neg h]
  generalize toInt (if y ≤ 0 then 0 else y) = a at hy ⊢
  generalize toInt (if x ≤ 0 then 0 else x) = b at hx ⊢
  refine ⟨?_, ?_, ?_, ?_, ?_, ?_, ?_, ?_⟩ <;> split_ifs <;> omega

theorem toInt_clamp_last (d : Int) (hd : 1 ≤ d) (y : ℚ) (h1 : (d : ℚ) - 1 ≤ y)
    (h2 : y < (d : ℚ)) : toInt (if y ≤ 0 then 0 else y) = d - 1 := by
  have hd' : (1 : ℚ) ≤ (d : ℚ) := by exact_mod_cast hd
  have hy0 : 0 ≤ y := by linarith
  have hc : (if y ≤ 0 then 0 else y) = y := by
    split_ifs with h
    · linarith
    · rfl
  rw [hc, toInt_of_nonneg y hy0, Int.floor_eq_iff]
  push_cast
  constructor <;> linarith

theorem roi_height_ge_one (rois : Int → ℚ) (scale_h : ℚ) (n : Int) :
    1 ≤ roi_height rois scale_h n := le_max_right _ _

theorem roi_width_ge_one (rois : Int → ℚ) (scale_w : ℚ) (n : Int) :
    1 ≤ roi_width rois scale_w n := le_max_right _ _

theorem roi_bin_grid_h_pos (rois : Int → ℚ) (scale_h : ℚ) (pooled_height sampling_ratio n : Int)
    (hPH : 1 ≤ pooled_height) :
    1 ≤ roi_bin_grid_h rois scale_h pooled_height sampling_ratio n := by
  unfold roi_bin_grid_h
  split_ifs with h
  · omega
  · rw [toInt_cCeil]
    have h1 := roi_height_ge_one rois scale_h n
    have h2 : (0 : ℚ) < (pooled_height : ℚ) := by exact_mod_cast (by omega : 0 < pooled_height)
    have h3 : 0 < roi_height rois scale_h n / (pooled_height : ℚ) := div_pos (by linarith) h2
    have := Int.ceil_pos.mpr h3
    omega

theorem roi_bin_grid_w_pos (rois : Int → ℚ) (scale_w : ℚ) (pooled_width sampling_ratio n : Int)
    (hPW : 1 ≤ pooled_width) :
    1 ≤ roi_bin_grid_w rois scale_w pooled_width sampling_ratio n := by
  unfold roi_bin_grid_w
  split_ifs with h
  · omega
  · rw [toInt_cCeil]
    have h1 := roi_width_ge_one rois scale_w n
    have h2 : (0 : ℚ) < (pooled_width : ℚ) := by exact_mod_cast (by omega : 0 < pooled_width)
    have h3 : 0 < roi_width rois scale_w n / (pooled_width : ℚ) := div_pos (by linarith) h2
    have := Int.ceil_pos.mpr h3
    omega

/-! ## Claims about single samples and region geometry -/

/-- C4. Out-of-bounds policy of `pre_calc_for_bilinear_interpolate`: the record
stored for a sample coordinate `(y, x)` has all four weights equal to 0 exactly
when `y < -1` or `y > height` or `x < -1` or `x > width`, and in that case the
four stored positions are the placeholder 0.  It holds for every `height` and
`width`, in particular for those that are at least 1. -/
theorem pre_calc_sample_empty_iff (height width : Int) (y x : ℚ) :
    (((pre_calc_sample height width y x).w1 = 0 ∧ (pre_calc_sample height width y x).w2 = 0 ∧
        (pre_calc_sample height width y x).w3 = 0 ∧ (pre_calc_sample height width y x).w4 = 0) ↔
      (y < -1 ∨ y > (height : ℚ) ∨ x < -1 ∨ x > (width : ℚ))) ∧
    ((y < -1 ∨ y > (height : ℚ) ∨ x < -1 ∨ x > (width : ℚ)) →
      (pre_calc_sample height width y x).pos1 = 0 ∧ (pre_calc_sample height width y x).pos2 = 0 ∧
        (pre_calc_sample height width y x).pos3 = 0 ∧
        (pre_calc_sample height width y x).pos4 = 0) := by
  constructor
  · constructor
    · intro hz
      by_contra hne
      have hs := pre_calc_sample_weight_sum height width y x hne
      rw [hz.1, hz.2.1, hz.2.2.1, hz.2.2.2] at hs
      norm_num at hs
    · intro he
      rw [pre_calc_sample_of_empty height width y x he]
      exact ⟨rfl, rfl, rfl, rfl⟩
  · intro he
    rw [pre_calc_sample_of_empty height width y x he]
    exact ⟨rfl, rfl, rfl, rfl⟩

/-- C5 (claim as stated fails). In a 2 x 2 plane the samples `(y, x) = (-1, 1/2)`
and `(y, x) = (2, 1/2)`, whose `y` is exactly `-1` resp. exactly `height`, are
not empty: both functions return the weights `1/2, 1/2, 0, 0` on row 0 resp.
row 1, so the weight `w1` is not 0. -/
theorem boundary_sample_not_empty :
    pre_calc_sample 2 2 (-1) (1 / 2) =
      { pos1 := 0, pos2 := 1, pos3 := 2, pos4 := 3, w1 := 1 / 2, w2 := 1 / 2, w3 := 0, w4 := 0 } ∧
    bilinear_interpolate_gradient 2 2 (-1) (1 / 2) =
      { w1 := 1 / 2, w2 := 1 / 2, w3 := 0, w4 := 0, x_low := 0, x_high := 1, y_low := 0,
        y_high := 1 } ∧
    pre_calc_sample 2 2 2 (1 / 2) =
      { pos1 := 2, pos2 := 3, pos3 := 2, pos4 := 3, w1 := 1 / 2, w2 := 1 / 2, w3 := 0, w4 := 0 } ∧
    bilinear_interpolate_gradient 2 2 2 (1 / 2) =
      { w1 := 1 / 2, w2 := 1 / 2, w3 := 0, w4 := 0, x_low := 0, x_high := 1, y_low := 1,
        y_high := 1 } ∧
    (pre_calc_sample 2 2 (-1) (1 / 2)).w1 ≠ 0 ∧
    (bilinear_interpolate_gradient 2 2 (-1) (1 / 2)).w1 ≠ 0 ∧
    (pre_calc_sample 2 2 2 (1 / 2)).w1 ≠ 0 ∧
    (bilinear_interpolate_gradient 2 2 2 (1 / 2)).w1 ≠ 0 := by
  norm_num [pre_calc_sample, bilinear_interpolate_gradient, toInt]

/-- C5 (amended). For `height, width ≥ 1`, a sample whose two coordinates lie in
the closed ranges `-1 ≤ y ≤ height` and `-1 ≤ x ≤ width` is not empty in either
function, also when a coordinate is exactly `-1`, `height` or `width`: the four
weights sum to 1.  A `y` that is exactly `-1` or exactly `height` is clamped
onto an edge row (`w3 = w4 = 0`), an `x` that is exactly `-1` or exactly
`width` onto an edge column (`w2 = w4 = 0`). -/
theorem boundary_sample_clamped (height width : Int) (hH : 1 ≤ height) (hW : 1 ≤ width)
    (y x : ℚ) (hy1 : -1 ≤ y) (hy2 : y ≤ (height : ℚ)) (hx1 : -1 ≤ x) (hx2 : x ≤ (width : ℚ)) :
    (pre_calc_sample height width y x).w1 + (pre_calc_sample height width y x).w2 +
      (pre_calc_sample height width y x).w3 + (pre_calc_sample height width y x).w4 = 1 ∧
    (bilinear_interpolate_gradient height width y x).w1 +
      (bilinear_interpolate_gradient height width y x).w2 +
      (bilinear_interpolate_gradient height width y x).w3 +
      (bilinear_interpolate_gradient height width y x).w4 = 1 ∧
    ((y = -1 ∨ y = (height : ℚ)) →
      (pre_calc_sample height width y x).w3 = 0 ∧ (pre_calc_sample height width y x).w4 = 0 ∧
      (bilinear_interpolate_gradient height width y x).w3 = 0 ∧
      (bilinear_interpolate_gradient height width y x).w4 = 0) ∧
    ((x = -1 ∨ x = (width : ℚ)) →
      (pre_calc_sample height width y x).w2 = 0 ∧ (pre_calc_sample height width y x).w4 = 0 ∧
      (bilinear_interpolate_gradient height width y x).w2 = 0 ∧
      (bilinear_interpolate_gradient height width y x).w4 = 0) := by
  have hne : ¬ (y < -1 ∨ y > (height : ℚ) ∨ x < -1 ∨ x > (width : ℚ)) := by
    push_neg
    exact ⟨hy1, hy2, hx1, hx2⟩
  have hH' : (1 : ℚ) ≤ (height : ℚ) := by exact_mod_cast hH
  have hW' : (1 : ℚ) ≤ (width : ℚ) := by exact_mod_cast hW
  have eq := pre_calc_sample_eq_gradient height width y x hne
  refine ⟨pre_calc_sample_weight_sum height width y x hne,
    bilinear_interpolate_gradient_weight_sum height width y x hne, ?_, ?_⟩
  · intro hb
    have key : (bilinear_interpolate_gradient height width y x).w3 = 0 ∧
        (bilinear_interpolate_gradient height width y x).w4 = 0 := by
      simp only [bilinear_interpolate_gradient, if_neg hne]
      rcases hb with hb | hb
      · subst hb
        have h0 : toInt (if (-1 : ℚ) ≤ 0 then 0 else -1) = 0 := by norm_num [toInt]
        rw [h0]
        by_cases hc : (0 : Int) ≥ height - 1
        · simp [hc]
        · simp [hc]
      · subst hb
        have h0 : toInt (if (height : ℚ) ≤ 0 then 0 else (height : ℚ)) = height := by
          rw [if_neg (by linarith), toInt_intCast]
        rw [h0]
        simp
    exact ⟨eq.2.2.1 ▸ key.1, eq.2.2.2.1 ▸ key.2, key.1, key.2⟩
  · intro hb
    have key : (bilinear_interpolate_gradient height width y x).w2 = 0 ∧
        (bilinear_interpolate_gradient height width y x).w4 = 0 := by
      simp only [bilinear_interpolate_gradient, if_neg hne]
      rcases hb with hb | hb
      · subst hb
        have h0 : toInt (if (-1 : ℚ) ≤ 0 then 0 else -1) = 0 := by norm_num [toInt]
        rw [h0]
        by_cases hc : (0 : Int) ≥ width - 1
        · simp [hc]
        · simp [hc]
      · subst hb
        have h0 : toInt (if (width : ℚ) ≤ 0 then 0 else (width : ℚ)) = width := by
          rw [if_neg (by linarith), toInt_intCast]
        rw [h0]
        simp
    exact ⟨eq.2.1 ▸ key.1, eq.2.2.2.1 ▸ key.2, key.1, key.2⟩

theorem boundary_sample_clamped_witness :
    (pre_calc_sample 4 4 (-1) 4).w1 + (pre_calc_sample 4 4 (-1) 4).w2 +
      (pre_calc_sample 4 4 (-1) 4).w3 + (pre_calc_sample 4 4 (-1) 4).w4 = 1 ∧
    (bilinear_interpolate_gradient 4 4 (-1) 4).w1 +
      (bilinear_interpolate_gradient 4 4 (-1) 4).w2 +
      (bilinear_interpolate_gradient 4 4 (-1) 4).w3 +
      (bilinear_interpolate_gradient 4 4 (-1) 4).w4 = 1 ∧
    (((-1 : ℚ) = -1 ∨ (-1 : ℚ) = ((4 : Int) : ℚ)) →
      (pre_calc_sample 4 4 (-1) 4).w3 = 0 ∧ (pre_calc_sample 4 4 (-1) 4).w4 = 0 ∧
      (bilinear_interpolate_gradient 4 4 (-1) 4).w3 = 0 ∧
      (bilinear_interpolate_gradient 4 4 (-1) 4).w4 = 0) ∧
    (((4 : ℚ) = -1 ∨ (4 : ℚ) = ((4 : Int) : ℚ)) →
      (pre_calc_sample 4 4 (-1) 4).w2 = 0 ∧ (pre_calc_sample 4 4 (-1) 4).w4 = 0 ∧
      (bilinear_interpolate_gradient 4 4 (-1) 4).w2 = 0 ∧
      (bilinear_interpolate_gradient 4 4 (-1) 4).w4 = 0) :=
  boundary_sample_clamped 4 4 (by norm_num) (by norm_num) (-1) 4 (by norm_num) (by norm_num)
    (by norm_num) (by norm_num)

/-- C6. Last-row clamping: for `height, width ≥ 1`, `-1 ≤ x ≤ width` and
`height - 1 ≤ y < height` the sample is not empty, both row indices are
`height - 1` (the helper returns `y_low = y_high = height - 1`; the stored
positions of the high row equal those of the low row and lie in the last row of
the plane), and the vertical fraction is 0: `w3 = w4 = 0` and `w1 + w2 = 1`.
Symmetrically for `-1 ≤ y ≤ height` and `width - 1 ≤ x < width`: both column
indices are `width - 1`, `w2 = w4 = 0` and `w1 + w3 = 1`. -/
theorem last_row_clamping (height width : Int) (hH : 1 ≤ height) (hW : 1 ≤ width) (y x : ℚ) :
    ((height : ℚ) - 1 ≤ y → y < (height : ℚ) → -1 ≤ x → x ≤ (width : ℚ) →
      ¬ ((pre_calc_sample height width y x).w1 = 0 ∧ (pre_calc_sample height width y x).w2 = 0 ∧
        (pre_calc_sample height width y x).w3 = 0 ∧ (pre_calc_sample height width y x).w4 = 0) ∧
      (bilinear_interpolate_gradient height width y x).y_low = height - 1 ∧
      (bilinear_interpolate_gradient height width y x).y_high = height - 1 ∧
      (pre_calc_sample height width y x).pos3 = (pre_calc_sample height width y x).pos1 ∧
      (pre_calc_sample height width y x).pos4 = (pre_calc_sample height width y x).pos2 ∧
      (height - 1) * width ≤ (pre_calc_sample height width y x).pos1 ∧
      (pre_calc_sample height width y x).pos1 < height * width ∧
      (height - 1) * width ≤ (pre_calc_sample height width y x).pos2 ∧
      (pre_calc_sample height width y x).pos2 < height * width ∧
      (pre_calc_sample height width y x).w3 = 0 ∧ (pre_calc_sample height width y x).w4 = 0 ∧
      (pre_calc_sample height width y x).w1 + (pre_calc_sample height width y x).w2 = 1) ∧
    ((width : ℚ) - 1 ≤ x → x < (width : ℚ) → -1 ≤ y → y ≤ (height : ℚ) →
      ¬ ((pre_calc_sample height width y x).w1 = 0 ∧ (pre_calc_sample height width y x).w2 = 0 ∧
        (pre_calc_sample height width y x).w3 = 0 ∧ (pre_calc_sample height width y x).w4 = 0) ∧
      (bilinear_interpolate_gradient height width y x).x_low = width - 1 ∧
      (bilinear_interpolate_gradient height width y x).x_high = width - 1 ∧
      (pre_calc_sample height width y x).pos2 = (pre_calc_sample height width y x).pos1 ∧
      (pre_calc_sample height width y x).pos4 = (pre_calc_sample height width y x).pos3 ∧
      (pre_calc_sample height width y x).pos1 % width = width - 1 ∧
      (pre_calc_sample height width y x).pos3 % width = width - 1 ∧
      (pre_calc_sample height width y x).w2 = 0 ∧ (pre_calc_sample height width y x).w4 = 0 ∧
      (pre_calc_sample height width y x).w1 + (pre_calc_sample height width y x).w3 = 1) := by
  have hH' : (1 : ℚ) ≤ (height : ℚ) := by exact_mod_cast hH
  have hW' : (1 : ℚ) ≤ (width : ℚ) := by exact_mod_cast hW
  constructor
  · intro h1 h2 h3 h4
    have hne : ¬ (y < -1 ∨ y > (height : ℚ) ∨ x < -1 ∨ x > (width : ℚ)) := by
      push_neg
      exact ⟨by linarith, by linarith, h3, h4⟩
    have hsum := pre_calc_sample_weight_sum height width y x hne
    have eq := pre_calc_sample_eq_gradient height width y x hne
    have bd := bilinear_interpolate_gradient_bounds height width hH hW y x hne
    have hlast := toInt_clamp_last height hH y h1 h2
    have hyl : (bilinear_interpolate_gradient height width y x).y_low = height - 1 := by
      simp only [bilinear_interpolate_gradient, if_neg hne, hlast, ge_iff_le, le_refl, if_true]
    have hyh : (bilinear_interpolate_gradient height width y x).y_high = height - 1 := by
      simp only [bilinear_interpolate_gradient, if_neg hne, hlast, ge_iff_le, le_refl, if_true]
    have hw3 : (pre_calc_sample height width y x).w3 = 0 := by
      simp only [pre_calc_sample, if_neg hne, hlast, ge_iff_le, le_refl, if_true]
      simp
    have hw4 : (pre_calc_sample height width y x).w4 = 0 := by
      simp only [pre_calc_sample, if_neg hne, hlast, ge_iff_le, le_refl, if_true]
      simp
    have hs12 : (pre_calc_sample height width y x).w1 + (pre_calc_sample height width y x).w2
        = 1 := by
      rw [hw3, hw4] at hsum
      linarith
    refine ⟨?_, hyl, hyh, ?_, ?_, ?_, ?_, ?_, ?_, hw3, hw4, hs12⟩
    · rintro ⟨a, b, -, -⟩
      rw [a, b] at hs12
      norm_num at hs12
    · rw [eq.2.2.2.2.2.2.1, eq.2.2.2.2.1, hyl, hyh]
    · rw [eq.2.2.2.2.2.2.2, eq.2.2.2.2.2.1, hyl, hyh]
    · rw [eq.2.2.2.2.1, hyl]
      linarith [bd.2.2.2.2.1]
    · rw [eq.2.2.2.2.1, hyl]
      linarith [bd.2.2.2.2.2.1]
    · rw [eq.2.2.2.2.2.1, hyl]
      linarith [bd.2.2.2.2.2.2.1]
    · rw [eq.2.2.2.2.2.1, hyl]
      linarith [bd.2.2.2.2.2.2.2]
  · intro h1 h2 h3 h4
    have hne : ¬ (y < -1 ∨ y > (height : ℚ) ∨ x < -1 ∨ x > (width : ℚ)) := by
      push_neg
      exact ⟨h3, h4, by linarith, by linarith⟩
    have hsum := pre_calc_sample_weight_sum height width y x hne
    have eq := pre_calc_sample_eq_gradient height width y x hne
    have bd := bilinear_interpolate_gradient_bounds height width hH hW y x hne
    have hlast := toInt_clamp_last width hW x h1 h2
    have hxl : (bilinear_interpolate_gradient height width y x).x_low = width - 1 := by
      simp only [bilinear_interpolate_gradient, if_neg hne, hlast, ge_iff_le, le_refl, if_true]
    have hxh : (bilinear_interpolate_gradient height width y x).x_high = width - 1 := by
      simp only [bilinear_interpolate_gradient, if_neg hne, hlast, ge_iff_le, le_refl, if_true]
    have hw2 : (pre_calc_sample height width y x).w2 = 0 := by
      simp only [pre_calc_sample, if_neg hne, hlast, ge_iff_le, le_refl, if_true]
      simp
    have hw4 : (pre_calc_sample height width y x).w4 = 0 := by
      simp only [pre_calc_sample, if_neg hne, hlast, ge_iff_le, le_refl, if_true]
      simp
    have hs13 : (pre_calc_sample height width y x).w1 + (pre_calc_sample height width y x).w3
        = 1 := by
      rw [hw2, hw4] at hsum
      linarith
    have hmod : ∀ r : Int, (r * width + (width - 1)) % width = width - 1 := by
      intro r
      rw [add_comm, Int.add_mul_emod_self]
      exact Int.emod_eq_of_lt (by omega) (by omega)
    refine ⟨?_, hxl, hxh, ?_, ?_, ?_, ?_, hw2, hw4, hs13⟩
    · rintro ⟨a, -, c, -⟩
      rw [a, c] at hs13
      norm_num at hs13
    · rw [eq.2.2.2.2.2.1, eq.2.2.2.2.1, hxl, hxh]
    · rw [eq.2.2.2.2.2.2.2, eq.2.2.2.2.2.2.1, hxl, hxh]
    · rw [eq.2.2.2.2.1, hxl]
      exact hmod _
    · rw [eq.2.2.2.2.2.2.1, hxl]
      exact hmod _

theorem last_row_clamping_witness :
    (bilinear_interpolate_gradient 4 4 (4 - 1 / 1000000) 1).y_low = 4 - 1 ∧
    (bilinear_interpolate_gradient 4 4 (4 - 1 / 1000000) 1).y_high = 4 - 1 ∧
    (pre_calc_sample 4 4 (4 - 1 / 1000000) 1).w3 = 0 ∧
    (pre_calc_sample 4 4 (4 - 1 / 1000000) 1).w4 = 0 ∧
    (pre_calc_sample 4 4 (4 - 1 / 1000000) 1).w1 +
      (pre_calc_sample 4 4 (4 - 1 / 1000000) 1).w2 = 1 :=
  have h := (last_row_clamping 4 4 (by norm_num) (by norm_num) (4 - 1 / 1000000) 1).1
    (by norm_num) (by norm_num) (by norm_num) (by norm_num)
  ⟨h.2.1, h.2.2.1, h.2.2.2.2.2.2.2.2.2.1, h.2.2.2.2.2.2.2.2.2.2.1, h.2.2.2.2.2.2.2.2.2.2.2⟩

/-- C8. Degenerate-box policy: for non-negative scale factors the spans used by
both kernels are `roi_width = max(x2*scale_w - x1*scale_w, 1)` and
`roi_height = max(y2*scale_h - y1*scale_h, 1)`, both are at least 1, the width
is exactly 1 when `x2 ≤ x1` and the height is exactly 1 when `y2 ≤ y1`.  (The
kernels are total functions without an error result.) -/
theorem degenerate_box_policy (rois : Int → ℚ) (scale_h scale_w : ℚ) (n : Int)
    (hsh : 0 ≤ scale_h) (hsw : 0 ≤ scale_w) :
    roi_width rois scale_w n = max (rois (n * 5 + 3) * scale_w - rois (n * 5 + 1) * scale_w) 1 ∧
    roi_height rois scale_h n = max (rois (n * 5 + 4) * scale_h - rois (n * 5 + 2) * scale_h) 1 ∧
    1 ≤ roi_width rois scale_w n ∧
    1 ≤ roi_height rois scale_h n ∧
    (rois (n * 5 + 3) ≤ rois (n * 5 + 1) → roi_width rois scale_w n = 1) ∧
    (rois (n * 5 + 4) ≤ rois (n * 5 + 2) → roi_height rois scale_h n = 1) := by
  refine ⟨rfl, rfl, roi_width_ge_one rois scale_w n, roi_height_ge_one rois scale_h n, ?_, ?_⟩
  · intro h
    unfold roi_width roi_end_w roi_start_w
    apply max_eq_right
    have := mul_le_mul_of_nonneg_right h hsw
    linarith
  · intro h
    unfold roi_height roi_end_h roi_start_h
    apply max_eq_right
    have := mul_le_mul_of_nonneg_right h hsh
    linarith

theorem degenerate_box_policy_witness :
    roi_width (fun i => if i = 1 then 7 else if i = 3 then 2 else 0) (1 / 2) 0
      = max ((fun i : Int => if i = 1 then (7 : ℚ) else if i = 3 then 2 else 0) (0 * 5 + 3) * (1 / 2)
          - (fun i : Int => if i = 1 then (7 : ℚ) else if i = 3 then 2 else 0) (0 * 5 + 1) * (1 / 2)) 1 ∧
    roi_width (fun i => if i = 1 then 7 else if i = 3 then 2 else 0) (1 / 2) 0 = 1 :=
  have h := degenerate_box_policy (fun i => if i = 1 then 7 else if i = 3 then 2 else 0)
    (1 / 2) (1 / 2) 0 (by norm_num) (by norm_num)
  ⟨h.1, h.2.2.2.2.1 (by norm_num)⟩

/-! ## The loop nests of the forward kernel in closed form -/

theorem Fills_bounds {α : Type} {f : (Int → α) → (Int → α)} {lo hi lo' hi' : Int}
    {P : Int → α → Prop} (h : Fills f lo hi P) (h1 : lo = lo') (h2 : hi = hi') :
    Fills f lo' hi' P := by
  subst h1
  subst h2
  exact h

/-- Position of a digit string in a mixed-radix block. -/
theorem digit_lt (i n j k : ℕ) (hi : i < n) (hj : j < k) : i * k + j < n * k := by
  have h1 : (i + 1) * k ≤ n * k := Nat.mul_le_mul_right k hi
  have h2 : (i + 1) * k = i * k + k := by ring
  omega

/-- The precomputation loops with the running index replaced by its value. -/
theorem pre_calc_loops_eq (height width : Int) (PH PW gh gw : ℕ)
    (start_h start_w bsh bsw : ℚ) (g1 g2 : Int) (tbl : Int → PreCalc) :
    pre_calc_for_bilinear_interpolate height width PH PW gh gw start_h start_w bsh bsw g1 g2 tbl
      = forLoop (PH : Int) (fun ph t =>
          forLoop (PW : Int) (fun pw t =>
            forLoop (gh : Int) (fun iy t =>
              forLoop (gw : Int) (fun ix t =>
                Function.update t
                  (0 + ph * ((PW : Int) * ((gh : Int) * ((gw : Int) * 1)))
                    + pw * ((gh : Int) * ((gw : Int) * 1)) + iy * ((gw : Int) * 1) + ix * 1)
                  (pre_calc_sample height width
                    (start_h + (ph : ℚ) * bsh + ((iy : ℚ) + 1 / 2) * bsh / (g1 : ℚ))
                    (start_w + (pw : ℚ) * bsw + ((ix : ℚ) + 1 / 2) * bsw / (g2 : ℚ)))) t) t) t)
          tbl := by
  unfold pre_calc_for_bilinear_interpolate
  rw [forLoop_counter PH ((PW : Int) * ((gh : Int) * ((gw : Int) * 1))) _
    (fun ph idx t =>
      forLoop (PW : Int) (fun pw t =>
        forLoop (gh : Int) (fun iy t =>
          forLoop (gw : Int) (fun ix t =>
            Function.update t
              (idx + pw * ((gh : Int) * ((gw : Int) * 1)) + iy * ((gw : Int) * 1) + ix * 1)
              (pre_calc_sample height width
                (start_h + (ph : ℚ) * bsh + ((iy : ℚ) + 1 / 2) * bsh / (g1 : ℚ))
                (start_w + (pw : ℚ) * bsw + ((ix : ℚ) + 1 / 2) * bsw / (g2 : ℚ)))) t) t) t)]
  intro ph _ t idx
  rw [forLoop_counter PW ((gh : Int) * ((gw : Int) * 1)) _
    (fun pw idx t =>
        forLoop (gh : Int) (fun iy t =>
          forLoop (gw : Int) (fun ix t =>
            Function.update t
              (idx + iy * ((gw : Int) * 1) + ix * 1)
              (pre_calc_sample height width
                (start_h + ((ph : Int) : ℚ) * bsh + (((iy : Int) : ℚ) + 1 / 2) * bsh / (g1 : ℚ))
                (start_w + ((pw : Int) : ℚ) * bsw + ((ix : ℚ) + 1 / 2) * bsw / (g2 : ℚ)))) t) t)]
  intro pw _ t idx
  rw [forLoop_counter gh ((gw : Int) * 1) _
    (fun iy idx t =>
          forLoop (gw : Int) (fun ix t =>
            Function.update t
              (idx + ix * 1)
              (pre_calc_sample height width
                (start_h + ((ph : Int) : ℚ) * bsh + (((iy : Int) : ℚ) + 1 / 2) * bsh / (g1 : ℚ))
                (start_w + ((pw : Int) : ℚ) * bsw + ((ix : ℚ) + 1 / 2) * bsw / (g2 : ℚ)))) t)]
  intro iy _ t idx
  rw [forLoop_counter gw 1 _
    (fun ix idx t =>
            Function.update t idx
              (pre_calc_sample height width
                (start_h + ((ph : Int) : ℚ) * bsh + (((iy : Int) : ℚ) + 1 / 2) * bsh / (g1 : ℚ))
                (start_w + ((pw : Int) : ℚ) * bsw + ((ix : ℚ) + 1 / 2) * bsw / (g2 : ℚ))))]
  intro ix _ t idx
  rfl

/-- Four nested loops storing `S a b c d` at the row-major address of
`(a, b, c, d)`: afterwards each such address holds its value. -/
theorem nested_update_lookup {α : Type} (n1 n2 n3 n4 : ℕ) (K1 K2 K3 : Int)
    (hK3 : K3 = (n4 : Int)) (hK2 : K2 = (n3 : Int) * K3) (hK1 : K1 = (n2 : Int) * K2)
    (addr : Int → Int → Int → Int → Int)
    (haddr : ∀ a b c d : Int, addr a b c d = a * K1 + b * K2 + c * K3 + d)
    (S : Int → Int → Int → Int → α) (t : Int → α) (i1 i2 i3 i4 : ℕ)
    (h1 : i1 < n1) (h2 : i2 < n2) (h3 : i3 < n3) (h4 : i4 < n4) :
    forLoop (n1 : Int) (fun a t =>
      forLoop (n2 : Int) (fun b t =>
        forLoop (n3 : Int) (fun c t =>
          forLoop (n4 : Int) (fun d t =>
            Function.update t (addr a b c d) (S a b c d)) t) t) t) t
      (addr i1 i2 i3 i4) = S i1 i2 i3 i4 := by
  have k3 : (0 : Int) ≤ K3 := by rw [hK3]; positivity
  have k2 : (0 : Int) ≤ K2 := by rw [hK2]; positivity
  have k1 : (0 : Int) ≤ K1 := by rw [hK1]; positivity
  have F4 : ∀ (a b c : Int) (d : ℕ),
      Fills (fun t : Int → α => Function.update t (addr a b c d) (S a b c d))
        (a * K1 + b * K2 + c * K3 + (d : Int) * 1) (a * K1 + b * K2 + c * K3 + ((d : Int) + 1) * 1)
        (fun _ v => v = S a b c d) :=
    fun a b c d => Fills_bounds (Fills_update _ (fun _ => S a b c d) _ (fun _ => rfl))
      (by rw [haddr]; ring) (by rw [haddr]; ring)
  let P3 : Int → Int → Int → Int → α → Prop := fun a b c x v =>
    ∀ d : ℕ, d < n4 → a * K1 + b * K2 + c * K3 + (d : Int) * 1 ≤ x →
      x < a * K1 + b * K2 + c * K3 + ((d : Int) + 1) * 1 → v = S a b c d
  let P2 : Int → Int → Int → α → Prop := fun a b x v =>
    ∀ c : ℕ, c < n3 → a * K1 + b * K2 + (c : Int) * K3 ≤ x →
      x < a * K1 + b * K2 + ((c : Int) + 1) * K3 → P3 a b c x v
  let P1 : Int → Int → α → Prop := fun a x v =>
    ∀ b : ℕ, b < n2 → a * K1 + (b : Int) * K2 ≤ x →
      x < a * K1 + ((b : Int) + 1) * K2 → P2 a b x v
  have F3 : ∀ (a b : Int) (c : ℕ),
      Fills (forLoop (n4 : Int) (fun d t => Function.update t (addr a b c d) (S a b c d)))
        (a * K1 + b * K2 + (c : Int) * K3) (a * K1 + b * K2 + ((c : Int) + 1) * K3)
        (P3 a b c) :=
    fun a b c => Fills_bounds
      (Fills_forLoop n4 1 (by norm_num) (a * K1 + b * K2 + (c : Int) * K3)
        (fun d t => Function.update t (addr a b c d) (S a b c d)) (fun d _ v => v = S a b c d)
        (fun d _ => F4 a b c d))
      rfl (by rw [hK3]; ring)
  have F2 : ∀ (a : Int) (b : ℕ),
      Fills (forLoop (n3 : Int) (fun c t =>
          forLoop (n4 : Int) (fun d t => Function.update t (addr a b c d) (S a b c d)) t))
        (a * K1 + (b : Int) * K2) (a * K1 + ((b : Int) + 1) * K2) (P2 a b) :=
    fun a b => Fills_bounds
      (Fills_forLoop n3 K3 k3 (a * K1 + (b : Int) * K2)
        (fun c t =>
          forLoop (n4 : Int) (fun d t => Function.update t (addr a b c d) (S a b c d)) t)
        (fun c => P3 a b c) (fun c _ => F3 a b c))
      rfl (by rw [hK2]; ring)
  have F1 : ∀ (a : ℕ),
      Fills (forLoop (n2 : Int) (fun b t => forLoop (n3 : Int) (fun c t =>
          forLoop (n4 : Int) (fun d t => Function.update t (addr a b c d) (S a b c d)) t) t))
        (0 + (a : Int) * K1) (0 + ((a : Int) + 1) * K1) (P1 a) :=
    fun a => Fills_bounds
      (Fills_forLoop n2 K2 k2 ((a : Int) * K1)
        (fun b t => forLoop (n3 : Int) (fun c t =>
          forLoop (n4 : Int) (fun d t => Function.update t (addr a b c d) (S a b c d)) t) t)
        (fun b => P2 a b) (fun b _ => F2 a b))
      (by ring) (by rw [hK1]; ring)
  have F0 := Fills_forLoop n1 K1 k1 0
    (fun a t => forLoop (n2 : Int) (fun b t => forLoop (n3 : Int) (fun c t =>
          forLoop (n4 : Int) (fun d t => Function.update t (addr a b c d) (S a b c d)) t) t) t)
    (fun a => P1 a) (fun a _ => F1 a)
  have e4 : ((i4 : Int)) < n4 := by exact_mod_cast h4
  have e3 : ((i3 : Int)) * n4 + i4 < (n3 : Int) * n4 := by
    exact_mod_cast digit_lt i3 n3 i4 n4 h3 h4
  have e2 : ((i2 : Int)) * ((n3 : Int) * n4) + ((i3 : Int) * n4 + i4)
      < (n2 : Int) * ((n3 : Int) * n4) := by
    exact_mod_cast digit_lt i2 n2 (i3 * n4 + i4) (n3 * n4) h2 (digit_lt i3 n3 i4 n4 h3 h4)
  have e1 : ((i1 : Int)) * ((n2 : Int) * ((n3 : Int) * n4))
      + ((i2 : Int) * ((n3 : Int) * n4) + ((i3 : Int) * n4 + i4))
      < (n1 : Int) * ((n2 : Int) * ((n3 : Int) * n4)) := by
    exact_mod_cast digit_lt i1 n1 (i2 * (n3 * n4) + (i3 * n4 + i4)) (n2 * (n3 * n4)) h1
      (digit_lt i2 n2 (i3 * n4 + i4) (n3 * n4) h2 (digit_lt i3 n3 i4 n4 h3 h4))
  have p4 : (0 : Int) ≤ i4 := Int.natCast_nonneg _
  have p3 : (0 : Int) ≤ (i3 : Int) * n4 := by positivity
  have p2 : (0 : Int) ≤ (i2 : Int) * ((n3 : Int) * n4) := by positivity
  have p1 : (0 : Int) ≤ (i1 : Int) * ((n2 : Int) * ((n3 : Int) * n4)) := by positivity
  have hA : addr i1 i2 i3 i4 = (i1 : Int) * ((n2 : Int) * ((n3 : Int) * n4))
      + ((i2 : Int) * ((n3 : Int) * n4) + ((i3 : Int) * n4 + i4)) := by
    rw [haddr, hK1, hK2, hK3]
    ring
  have G := (F0 t (addr i1 i2 i3 i4)).1
  rw [hK1, hK2, hK3] at G
  have G1 := G (by rw [hA]; linarith) (by rw [hA]; linarith) i1 h1 (by rw [hA]; linarith)
    (by rw [hA]; linarith)
  have G2 := G1 i2 h2 (by rw [hA, hK1, hK2, hK3]; linarith) (by rw [hA, hK1, hK2, hK3]; linarith)
  have G3 := G2 i3 h3 (by rw [hA, hK1, hK2, hK3]; linarith) (by rw [hA, hK1, hK2, hK3]; linarith)
  exact G3 i4 h4 (by rw [hA, hK1, hK2, hK3]; linarith) (by rw [hA, hK1, hK2, hK3]; linarith)

theorem PSROIAlignForward_eq_bins (nthreads : Int) (input : Int → ℚ) (scale_h scale_w : ℚ)
    (channels height width out_channels pooled_height pooled_width sampling_ratio : Int)
    (rois : Int → ℚ) (output : Int → ℚ) :
    PSROIAlignForward nthreads input scale_h scale_w channels height width out_channels
        pooled_height pooled_width sampling_ratio rois output
      = forLoop (((nthreads.tdiv out_channels).tdiv pooled_width).tdiv pooled_height)
          (fun n output => forLoop out_channels (fun c output =>
            forward_bins input channels height width pooled_height pooled_width
              (n * out_channels * pooled_width * pooled_height) (roi_batch_ind rois n)
              (roi_bin_grid_h rois scale_h pooled_height sampling_ratio n)
              (roi_bin_grid_w rois scale_w pooled_width sampling_ratio n)
              (((roi_bin_grid_h rois scale_h pooled_height sampling_ratio n
                * roi_bin_grid_w rois scale_w pooled_width sampling_ratio n : Int)) : ℚ)
              (pre_calc_for_bilinear_interpolate height width pooled_height pooled_width
                (roi_bin_grid_h rois scale_h pooled_height sampling_ratio n)
                (roi_bin_grid_w rois scale_w pooled_width sampling_ratio n)
                (roi_start_h rois scale_h n) (roi_start_w rois scale_w n)
                (bin_size_h rois scale_h pooled_height n) (bin_size_w rois scale_w pooled_width n)
                (roi_bin_grid_h rois scale_h pooled_height sampling_ratio n)
                (roi_bin_grid_w rois scale_w pooled_width sampling_ratio n)
                (fun _ => PreCalc.zero))
              c output) output) output := rfl

/-- The two sampling loops of the forward kernel, reading the table through the
running index, accumulate the double sum of the consumed records. -/
theorem forward_inner_loops (gh gw : ℕ) (v : PreCalc → ℚ) (tbl : Int → PreCalc) (a0 : ℚ)
    (idx : Int) :
    forLoop (gh : Int) (fun _ acc =>
        forLoop (gw : Int) (fun _ acc => (acc.1 + v (tbl acc.2), acc.2 + 1)) acc) (a0, idx)
      = (a0 + ∑ iy ∈ Finset.range gh, ∑ ix ∈ Finset.range gw,
            v (tbl (idx + (iy : Int) * ((gw : Int) * 1) + (ix : Int) * 1)),
          idx + (gh : Int) * ((gw : Int) * 1)) := by
  have L : ∀ (acc : ℚ) (idx : Int),
      forLoop (gw : Int) (fun _ acc => (acc.1 + v (tbl acc.2), acc.2 + 1)) (acc, idx)
        = (acc + ∑ ix ∈ Finset.range gw, v (tbl (idx + (ix : Int) * 1)), idx + (gw : Int) * 1) := by
    intro acc idx
    rw [forLoop_counter gw 1 _ (fun _ idx acc => acc + v (tbl idx)) (fun _ _ _ _ => rfl),
      forLoop_sum gw (fun ix => v (tbl (idx + ix * 1)))]
  rw [forLoop_counter gh ((gw : Int) * 1) _
    (fun _ idx acc => acc + ∑ ix ∈ Finset.range gw, v (tbl (idx + (ix : Int) * 1)))
    (fun _ _ s idx => L s idx),
    forLoop_sum gh (fun iy => ∑ ix ∈ Finset.range gw,
      v (tbl (idx + iy * ((gw : Int) * 1) + (ix : Int) * 1)))]

/-- The bin loops of the forward kernel with the running table index replaced
by its value. -/
theorem forward_bins_eq (input : Int → ℚ) (channels height width : Int) (PH PW gh gw : ℕ)
    (index_n rbi : Int) (count : ℚ) (tbl : Int → PreCalc) (c : Int) (out : Int → ℚ) :
    forward_bins input channels height width PH PW index_n rbi gh gw count tbl c out
      = forLoop (PH : Int) (fun ph out =>
          forLoop (PW : Int) (fun pw out =>
            Function.update out (index_n + (c * (PH : Int) * (PW : Int) + ph * (PW : Int) + pw))
              ((0 + ∑ iy ∈ Finset.range gh, ∑ ix ∈ Finset.range gw,
                pc_value ((rbi * channels + (c * (PH : Int) * (PW : Int) + ph * (PW : Int) + pw))
                    * height * width) input
                  (tbl (0 + ph * ((PW : Int) * ((gh : Int) * ((gw : Int) * 1)))
                    + pw * ((gh : Int) * ((gw : Int) * 1))
                    + (iy : Int) * ((gw : Int) * 1) + (ix : Int) * 1))) / count)) out) out := by
  unfold forward_bins
  rw [forLoop_counter PH ((PW : Int) * ((gh : Int) * ((gw : Int) * 1))) _
    (fun ph idx out =>
      forLoop (PW : Int) (fun pw out =>
        Function.update out (index_n + (c * (PH : Int) * (PW : Int) + ph * (PW : Int) + pw))
          ((0 + ∑ iy ∈ Finset.range gh, ∑ ix ∈ Finset.range gw,
            pc_value ((rbi * channels + (c * (PH : Int) * (PW : Int) + ph * (PW : Int) + pw))
                * height * width) input
              (tbl (idx + pw * ((gh : Int) * ((gw : Int) * 1))
                + (iy : Int) * ((gw : Int) * 1) + (ix : Int) * 1))) / count)) out)]
  intro ph _ s idx
  rw [forLoop_counter PW ((gh : Int) * ((gw : Int) * 1)) _
    (fun pw idx out =>
        Function.update out (index_n + (c * (PH : Int) * (PW : Int) + (ph : Int) * (PW : Int) + pw))
          ((0 + ∑ iy ∈ Finset.range gh, ∑ ix ∈ Finset.range gw,
            pc_value ((rbi * channels + (c * (PH : Int) * (PW : Int) + (ph : Int) * (PW : Int) + pw))
                * height * width) input
              (tbl (idx + (iy : Int) * ((gw : Int) * 1) + (ix : Int) * 1))) / count))]
  intro pw _ s idx
  simp only [forward_inner_loops]

/-- Entry of the table built by `pre_calc_for_bilinear_interpolate` at the
row-major index of the sample `(ph, pw, iy, ix)`. -/
theorem pre_calc_table_entry (height width : Int) (PH PW gh gw : ℕ)
    (start_h start_w bsh bsw : ℚ) (g1 g2 : Int) (tbl : Int → PreCalc) (ph pw iy ix : ℕ)
    (hph : ph < PH) (hpw : pw < PW) (hiy : iy < gh) (hix : ix < gw) (a : Int)
    (ha : a = ((((ph : Int) * PW + pw) * gh + iy) * gw + ix)) :
    pre_calc_for_bilinear_interpolate height width PH PW gh gw start_h start_w bsh bsw g1 g2 tbl a
      = pre_calc_sample height width
          (start_h + ((ph : Int) : ℚ) * bsh + (((iy : Int) : ℚ) + 1 / 2) * bsh / (g1 : ℚ))
          (start_w + ((pw : Int) : ℚ) * bsw + (((ix : Int) : ℚ) + 1 / 2) * bsw / (g2 : ℚ)) := by
  rw [pre_calc_loops_eq]
  have h := nested_update_lookup PH PW gh gw ((PW : Int) * ((gh : Int) * (gw : Int)))
    ((gh : Int) * (gw : Int)) (gw : Int) rfl rfl rfl
    (fun ph pw iy ix => 0 + ph * ((PW : Int) * ((gh : Int) * ((gw : Int) * 1)))
                    + pw * ((gh : Int) * ((gw : Int) * 1)) + iy * ((gw : Int) * 1) + ix * 1)
    (fun _ _ _ _ => by ring)
    (fun ph pw iy ix => pre_calc_sample height width
          (start_h + (ph : ℚ) * bsh + ((iy : ℚ) + 1 / 2) * bsh / (g1 : ℚ))
          (start_w + (pw : ℚ) * bsw + ((ix : ℚ) + 1 / 2) * bsw / (g2 : ℚ)))
    tbl ph pw iy ix hph hpw hiy hix
  have e : a = 0 + (ph : Int) * ((PW : Int) * ((gh : Int) * ((gw : Int) * 1)))
      + (pw : Int) * ((gh : Int) * ((gw : Int) * 1)) + (iy : Int) * ((gw : Int) * 1)
      + (ix : Int) * 1 := by
    rw [ha]
    ring
  rw [e]
  exact h

theorem n_rois_eq (N C PH PW : ℕ) (hC : 1 ≤ C) (hPH : 1 ≤ PH) (hPW : 1 ≤ PW) :
    ((((N : Int) * C * PH * PW).tdiv (C : Int)).tdiv (PW : Int)).tdiv (PH : Int) = N := by
  have c0 : (C : Int) ≠ 0 := by omega
  have p0 : (PH : Int) ≠ 0 := by omega
  have w0 : (PW : Int) ≠ 0 := by omega
  have h1 : ((N : Int) * C * PH * PW).tdiv (C : Int) = (N : Int) * PH * PW := by
    rw [Int.tdiv_eq_ediv (by positivity) (by positivity),
      show (N : Int) * C * PH * PW = (C : Int) * ((N : Int) * PH * PW) by ring,
      Int.mul_ediv_cancel_left _ c0]
  have h2 : ((N : Int) * PH * PW).tdiv (PW : Int) = (N : Int) * PH := by
    rw [Int.tdiv_eq_ediv (by positivity) (by positivity), Int.mul_ediv_cancel _ w0]
  have h3 : ((N : Int) * PH).tdiv (PH : Int) = (N : Int) := by
    rw [Int.tdiv_eq_ediv (by positivity) (by positivity), Int.mul_ediv_cancel _ p0]
  rw [h1, h2, h3]

/-- Closed form of the forward kernel: the value found at the row-major index
of the output element `(n, c, ph, pw)`. -/
theorem forward_output_eq (N C PH PW : ℕ) (hC : 1 ≤ C) (hPH : 1 ≤ PH) (hPW : 1 ≤ PW)
    (input : Int → ℚ) (scale_h scale_w : ℚ) (channels height width sampling_ratio : Int)
    (rois : Int → ℚ) (out0 : Int → ℚ) (n c ph pw : ℕ)
    (hn : n < N) (hc : c < C) (hph : ph < PH) (hpw : pw < PW) :
    PSROIAlignForward ((N : Int) * C * PH * PW) input scale_h scale_w channels height width
        C PH PW sampling_ratio rois out0 ((((n : Int) * C + c) * PH + ph) * PW + pw)
      = forward_bin_value input scale_h scale_w channels height width PH PW sampling_ratio
          rois n c ph pw := by
  rw [PSROIAlignForward_eq_bins, n_rois_eq N C PH PW hC hPH hPW]
  refine Eq.trans (congrFun (forLoop_congr N _
    (fun (n : Int) (out : Int → ℚ) => forLoop (C : Int) (fun c out =>
      forLoop (PH : Int) (fun ph out =>
        forLoop (PW : Int) (fun pw out =>
          Function.update out
            (n * C * PW * PH + (c * (PH : Int) * (PW : Int) + ph * (PW : Int) + pw))
            (forward_bin_value input scale_h scale_w channels height width PH PW
              sampling_ratio rois n c ph pw)) out) out) out) ?_ out0) _) ?_
  · intro n' _ s
    obtain ⟨gh, hgh⟩ : ∃ k : ℕ, roi_bin_grid_h rois scale_h PH sampling_ratio n' = k :=
      ⟨_, (Int.toNat_of_nonneg (by
        have := roi_bin_grid_h_pos rois scale_h PH sampling_ratio n' (by exact_mod_cast hPH)
        omega)).symm⟩
    obtain ⟨gw, hgw⟩ : ∃ k : ℕ, roi_bin_grid_w rois scale_w PW sampling_ratio n' = k :=
      ⟨_, (Int.toNat_of_nonneg (by
        have := roi_bin_grid_w_pos rois scale_w PW sampling_ratio n' (by exact_mod_cast hPW)
        omega)).symm⟩
    dsimp only
    apply forLoop_congr
    intro c' _ s1
    rw [hgh, hgw, forward_bins_eq]
    apply forLoop_congr
    intro ph' hph' s2
    apply forLoop_congr
    intro pw' hpw' s3
    refine congrArg (Function.update s3 _) ?_
    unfold forward_bin_value
    rw [hgh, hgw]
    simp only [Int.toNat_ofNat, zero_add]
    refine congrArg (fun z => z / _) ?_
    apply Finset.sum_congr rfl
    intro iy hiy
    apply Finset.sum_congr rfl
    intro ix hix
    rw [pre_calc_table_entry height width PH PW gh gw _ _ _ _ _ _ _ ph' pw' iy ix hph' hpw'
      (Finset.mem_range.mp hiy) (Finset.mem_range.mp hix) _ (by ring)]
  · have e : ((((n : Int) * C + c) * PH + ph) * PW + pw)
        = (n : Int) * C * PW * PH + ((c : Int) * (PH : Int) * (PW : Int) + (ph : Int) * (PW : Int)
            + (pw : Int)) := by ring
    rw [e]
    exact nested_update_lookup N C PH PW ((C : Int) * ((PH : Int) * (PW : Int)))
      ((PH : Int) * (PW : Int)) (PW : Int) rfl rfl rfl
      (fun n c ph pw => n * (C : Int) * PW * PH + (c * (PH : Int) * (PW : Int) + ph * (PW : Int) + pw))
      (fun _ _ _ _ => by ring)
      (fun n c ph pw => forward_bin_value input scale_h scale_w channels height width PH PW
        sampling_ratio rois n c ph pw)
      out0 n c ph pw hn hc hph hpw


/-! ## The backward kernel paired with a direction -/

theorem dot_add (M : ℕ) (buf d : Int → ℚ) (address : Int) (val : ℚ)
    (h0 : 0 ≤ address) (h1 : address < M) :
    dot M (add buf address val) d = dot M buf d + val * d address := by
  lift address to ℕ using h0
  have hk : address < M := by exact_mod_cast h1
  unfold dot add
  have hpt : ∀ j : ℕ, Function.update buf (address : Int) (buf address + val) (j : Int) * d j
      = buf j * d j + (if j = address then val * d (address : Int) else 0) := by
    intro j
    by_cases e : j = address
    · subst e
      simp only [Function.update_same, if_true]
      ring
    · have e' : (j : Int) ≠ (address : Int) := by exact_mod_cast e
      simp only [Function.update_noteq e', if_neg e, add_zero]
  simp only [hpt, Finset.sum_add_distrib, Finset.sum_ite_eq', Finset.mem_range, hk, if_true]

theorem dot_forLoop (M : ℕ) (d : Int → ℚ) (n : ℕ) (body : Int → (Int → ℚ) → (Int → ℚ))
    (f : ℕ → ℚ) (h : ∀ i : ℕ, i < n → ∀ G, dot M (body (i : Int) G) d = dot M G d + f i)
    (G : Int → ℚ) :
    dot M (forLoop (n : Int) body G) d = dot M G d + ∑ i ∈ Finset.range n, f i := by
  induction n with
  | zero => simp [forLoop_zero]
  | succ m ih =>
    rw [forLoop_succ, h m (Nat.lt_succ_self m), ih (fun i hi => h i (Nat.lt_succ_of_lt hi)),
      Finset.sum_range_succ]
    ring

/-- Decoding of a flat output index by the divisions and remainders of the
backward kernel. -/
theorem decode_index (N C PH PW : ℕ) (hC : 1 ≤ C) (hPH : 1 ≤ PH) (hPW : 1 ≤ PW) (index : ℕ)
    (hidx : index < N * C * PH * PW) :
    (index : Int).tmod (PW : Int) = ((index % PW : ℕ) : Int) ∧
    ((index : Int).tdiv (PW : Int)).tmod (PH : Int) = ((index / PW % PH : ℕ) : Int) ∧
    (((index : Int).tdiv (PW : Int)).tdiv (PH : Int)).tmod (C : Int)
      = ((index / PW / PH % C : ℕ) : Int) ∧
    (((index : Int).tdiv (PW : Int)).tdiv (PH : Int)).tdiv (C : Int)
      = ((index / PW / PH / C : ℕ) : Int) ∧
    index % PW < PW ∧ index / PW % PH < PH ∧ index / PW / PH % C < C ∧
    index / PW / PH / C < N ∧
    ((((index / PW / PH / C : ℕ) : Int) * C + ((index / PW / PH % C : ℕ) : Int)) * PH
      + ((index / PW % PH : ℕ) : Int)) * PW + ((index % PW : ℕ) : Int) = (index : Int) := by
  have e1 : (index : Int).tdiv (PW : Int) = ((index / PW : ℕ) : Int) := by
    rw [Int.tdiv_eq_ediv (by positivity) (by positivity)]
    norm_cast
  have e2 : ((index / PW : ℕ) : Int).tdiv (PH : Int) = ((index / PW / PH : ℕ) : Int) := by
    rw [Int.tdiv_eq_ediv (by positivity) (by positivity)]
    norm_cast
  have e3 : ((index / PW / PH : ℕ) : Int).tdiv (C : Int) = ((index / PW / PH / C : ℕ) : Int) := by
    rw [Int.tdiv_eq_ediv (by positivity) (by positivity)]
    norm_cast
  refine ⟨?_, ?_, ?_, ?_, Nat.mod_lt _ (by omega), Nat.mod_lt _ (by omega),
    Nat.mod_lt _ (by omega), ?_, ?_⟩
  · rw [Int.tmod_eq_emod (by positivity) (by positivity)]
    norm_cast
  · rw [e1, Int.tmod_eq_emod (by positivity) (by positivity)]
    norm_cast
  · rw [e1, e2, Int.tmod_eq_emod (by positivity) (by positivity)]
    norm_cast
  · rw [e1, e2, e3]
  · rw [Nat.div_lt_iff_lt_mul (by omega), Nat.div_lt_iff_lt_mul (by omega),
      Nat.div_lt_iff_lt_mul (by omega)]
    exact hidx
  · have a1 := Nat.div_add_mod index PW
    have a2 := Nat.div_add_mod (index / PW) PH
    have a3 := Nat.div_add_mod (index / PW / PH) C
    have : ((index / PW / PH / C * C + index / PW / PH % C) * PH + index / PW % PH) * PW
        + index % PW = index := by
      rw [mul_comm (index / PW / PH / C) C, a3, mul_comm (index / PW / PH) PH, a2,
        mul_comm (index / PW) PW, a1]
    exact_mod_cast this

theorem pc_value_zero (off : Int) (input : Int → ℚ) : pc_value off input PreCalc.zero = 0 := by
  simp [pc_value, PreCalc.zero]

/-- Effect of the scatter-add of one sample on the pairing with `d`. -/
theorem backward_sample_dot (M : ℕ) (d G : Int → ℚ) (height width : Int) (hH : 1 ≤ height)
    (hW : 1 ≤ width) (off : Int) (hoff0 : 0 ≤ off) (hoffM : off + height * width ≤ M)
    (g count y x : ℚ) :
    dot M
      (if (bilinear_interpolate_gradient height width y x).x_low ≥ 0 ∧
          (bilinear_interpolate_gradient height width y x).x_high ≥ 0 ∧
          (bilinear_interpolate_gradient height width y x).y_low ≥ 0 ∧
          (bilinear_interpolate_gradient height width y x).y_high ≥ 0 then
        add (add (add (add G
          (off + (bilinear_interpolate_gradient height width y x).y_low * width
            + (bilinear_interpolate_gradient height width y x).x_low)
          (g * (bilinear_interpolate_gradient height width y x).w1 / count))
          (off + (bilinear_interpolate_gradient height width y x).y_low * width
            + (bilinear_interpolate_gradient height width y x).x_high)
          (g * (bilinear_interpolate_gradient height width y x).w2 / count))
          (off + (bilinear_interpolate_gradient height width y x).y_high * width
            + (bilinear_interpolate_gradient height width y x).x_low)
          (g * (bilinear_interpolate_gradient height width y x).w3 / count))
          (off + (bilinear_interpolate_gradient height width y x).y_high * width
            + (bilinear_interpolate_gradient height width y x).x_high)
          (g * (bilinear_interpolate_gradient height width y x).w4 / count)
      else G) d
      = dot M G d + g * pc_value off d (pre_calc_sample height width y x) / count := by
  by_cases he : y < -1 ∨ y > (height : ℚ) ∨ x < -1 ∨ x > (width : ℚ)
  · rw [bilinear_interpolate_gradient_of_empty height width y x he,
      pre_calc_sample_of_empty height width y x he, pc_value_zero]
    simp
  · obtain ⟨b1, b2, b3, b4, b5, b6, b7, b8⟩ :=
      bilinear_interpolate_gradient_bounds height width hH hW y x he
    obtain ⟨q1, q2, q3, q4, q5, q6, q7, q8⟩ := pre_calc_sample_eq_gradient height width y x he
    generalize bilinear_interpolate_gradient height width y x = r at *
    rw [if_pos ⟨b5, b7, b1, b3⟩]
    have hw0 : (0 : Int) ≤ width := by omega
    have m1 : r.y_low * width ≤ (height - 1) * width := mul_le_mul_of_nonneg_right b2 hw0
    have m2 : r.y_high * width ≤ (height - 1) * width := mul_le_mul_of_nonneg_right b4 hw0
    have m3 : 0 ≤ r.y_low * width := mul_nonneg b1 hw0
    have m4 : 0 ≤ r.y_high * width := mul_nonneg b3 hw0
    have m5 : (height - 1) * width = height * width - width := by ring
    rw [dot_add M _ d _ _ (by omega) (by omega), dot_add M _ d _ _ (by omega) (by omega),
      dot_add M _ d _ _ (by omega) (by omega), dot_add M _ d _ _ (by omega) (by omega)]
    unfold pc_value
    rw [q1, q2, q3, q4, q5, q6, q7, q8]
    simp only [add_assoc]
    ring

/-- Pairing of the gradient buffer produced by the backward kernel with a
direction `d`: every output element contributes its upstream gradient times the
forward bin value of `d`. -/
theorem backward_dot (B N C PH PW H W : ℕ) (hC : 1 ≤ C) (hPH : 1 ≤ PH) (hPW : 1 ≤ PW)
    (hH : 1 ≤ H) (hW : 1 ≤ W) (g d : Int → ℚ) (scale_h scale_w : ℚ) (sampling_ratio : Int)
    (rois : Int → ℚ) (n_stride c_stride h_stride w_stride : Int) (G0 : Int → ℚ)
    (hbatch : ∀ n : ℕ, n < N → 0 ≤ roi_batch_ind rois n ∧ roi_batch_ind rois n < B) :
    dot (B * (C * PH * PW) * H * W)
        (PSROIAlignBackward ((N * C * PH * PW : ℕ) : Int) g scale_h scale_w
          ((C * PH * PW : ℕ) : Int) H W C PH PW sampling_ratio G0 rois
          n_stride c_stride h_stride w_stride) d
      = dot (B * (C * PH * PW) * H * W) G0 d
        + ∑ index ∈ Finset.range (N * C * PH * PW),
            grad_output_this_bin g n_stride c_stride h_stride w_stride
                ((index / PW / PH / C : ℕ) : Int) ((index / PW / PH % C : ℕ) : Int)
                ((index / PW % PH : ℕ) : Int) ((index % PW : ℕ) : Int)
              * forward_bin_value d scale_h scale_w ((C * PH * PW : ℕ) : Int) H W PH PW
                  sampling_ratio rois
                  ((index / PW / PH / C : ℕ) : Int) ((index / PW / PH % C : ℕ) : Int)
                  ((index / PW % PH : ℕ) : Int) ((index % PW : ℕ) : Int) := by
  unfold PSROIAlignBackward
  refine dot_forLoop _ d _ _ _ ?_ G0
  intro index hidx G
  obtain ⟨d1, d2, d3, d4, r1, r2, r3, r4, -⟩ := decode_index N C PH PW hC hPH hPW index hidx
  dsimp only
  rw [d1, d2, d3, d4]
  obtain ⟨hb0, hb1⟩ := hbatch _ r4
  generalize index / PW / PH / C = n at *
  generalize index / PW / PH % C = c at *
  generalize index / PW % PH = ph at *
  generalize index % PW = pw at *
  obtain ⟨gh, hgh⟩ : ∃ k : ℕ, roi_bin_grid_h rois scale_h PH sampling_ratio n = k :=
    ⟨_, (Int.toNat_of_nonneg (by
      have := roi_bin_grid_h_pos rois scale_h PH sampling_ratio n (by exact_mod_cast hPH)
      omega)).symm⟩
  obtain ⟨gw, hgw⟩ : ∃ k : ℕ, roi_bin_grid_w rois scale_w PW sampling_ratio n = k :=
    ⟨_, (Int.toNat_of_nonneg (by
      have := roi_bin_grid_w_pos rois scale_w PW sampling_ratio n (by exact_mod_cast hPW)
      omega)).symm⟩
  unfold forward_bin_value
  rw [hgh, hgw]
  simp only [Int.toNat_ofNat]
  -- address bounds of the plane written by this output element
  have hic : (c : Int) * PH * PW + (ph : Int) * PW + pw < ((C * PH * PW : ℕ) : Int) := by
    have := digit_lt c C (ph * PW + pw) (PH * PW) r3 (digit_lt ph PH pw PW r2 r1)
    have h' : ((c * (PH * PW) + (ph * PW + pw) : ℕ) : Int) < ((C * (PH * PW) : ℕ) : Int) := by
      exact_mod_cast this
    push_cast at h' ⊢
    linarith
  have hic0 : (0 : Int) ≤ (c : Int) * PH * PW + (ph : Int) * PW + pw := by positivity
  have hoff0 : (0 : Int) ≤ (roi_batch_ind rois n * ((C * PH * PW : ℕ) : Int)
      + ((c : Int) * PH * PW + (ph : Int) * PW + pw)) * H * W := by
    have : (0 : Int) ≤ roi_batch_ind rois n * ((C * PH * PW : ℕ) : Int) :=
      mul_nonneg hb0 (Int.natCast_nonneg _)
    positivity
  have hoffM : (roi_batch_ind rois n * ((C * PH * PW : ℕ) : Int)
      + ((c : Int) * PH * PW + (ph : Int) * PW + pw)) * H * W + (H : Int) * W
      ≤ ((B * (C * PH * PW) * H * W : ℕ) : Int) := by
    have h1 : roi_batch_ind rois n * ((C * PH * PW : ℕ) : Int)
        + ((c : Int) * PH * PW + (ph : Int) * PW + pw) + 1 ≤ (B : Int) * ((C * PH * PW : ℕ) : Int) := by
      have : (roi_batch_ind rois n + 1) * ((C * PH * PW : ℕ) : Int)
          ≤ (B : Int) * ((C * PH * PW : ℕ) : Int) :=
        mul_le_mul_of_nonneg_right (by omega) (Int.natCast_nonneg _)
      linarith
    have h2 : (0 : Int) ≤ (H : Int) * W := by positivity
    have h3 := mul_le_mul_of_nonneg_right h1 h2
    push_cast at h3 ⊢
    linarith
  refine (dot_forLoop _ d gh _
    (fun iy => ∑ ix ∈ Finset.range gw,
      grad_output_this_bin g n_stride c_stride h_stride w_stride n c ph pw
        * pc_value ((roi_batch_ind rois n * ((C * PH * PW : ℕ) : Int)
            + ((c : Int) * PH * PW + (ph : Int) * PW + pw)) * H * W) d
          (pre_calc_sample H W
            (roi_start_h rois scale_h n + ((ph : Int) : ℚ) * bin_size_h rois scale_h PH n
              + (((iy : Int) : ℚ) + 1 / 2) * bin_size_h rois scale_h PH n / ((gh : Int) : ℚ))
            (roi_start_w rois scale_w n + ((pw : Int) : ℚ) * bin_size_w rois scale_w PW n
              + (((ix : Int) : ℚ) + 1 / 2) * bin_size_w rois scale_w PW n / ((gw : Int) : ℚ)))
        / (((gh : Int) * (gw : Int) : Int) : ℚ)) ?_ G).trans ?_
  · intro iy _ G1
    dsimp only
    refine dot_forLoop _ d gw _ _ ?_ G1
    intro ix _ G2
    dsimp only
    exact backward_sample_dot _ d G2 H W (by exact_mod_cast hH) (by exact_mod_cast hW) _
      hoff0 hoffM _ _ _ _
  · congr 1
    rw [Finset.sum_div, Finset.mul_sum]
    apply Finset.sum_congr rfl
    intro iy _
    rw [Finset.sum_div, Finset.mul_sum]
    apply Finset.sum_congr rfl
    intro ix _
    rw [mul_div_assoc]

theorem pc_value_linear (off : Int) (x d : Int → ℚ) (eps : ℚ) (pc : PreCalc) :
    pc_value off (fun j => x j + eps * d j) pc = pc_value off x pc + eps * pc_value off d pc := by
  unfold pc_value
  ring

/-- The forward bin value is linear in the feature map. -/
theorem forward_bin_value_linear (x d : Int → ℚ) (eps : ℚ) (scale_h scale_w : ℚ)
    (channels height width pooled_height pooled_width sampling_ratio : Int)
    (rois : Int → ℚ) (n c ph pw : Int) :
    forward_bin_value (fun j => x j + eps * d j) scale_h scale_w channels height width
        pooled_height pooled_width sampling_ratio rois n c ph pw
      = forward_bin_value x scale_h scale_w channels height width
          pooled_height pooled_width sampling_ratio rois n c ph pw
        + eps * forward_bin_value d scale_h scale_w channels height width
          pooled_height pooled_width sampling_ratio rois n c ph pw := by
  unfold forward_bin_value
  simp only [pc_value_linear, Finset.sum_add_distrib, ← Finset.mul_sum]
  ring

theorem dot_zero (M : ℕ) (d : Int → ℚ) : dot M (fun _ => 0) d = 0 := by
  simp [dot]

/-- C1. Over exact arithmetic `PSROIAlignBackward` is the adjoint of
`PSROIAlignForward`: for feature maps `x`, `d` of shape `[B, C*PH*PW, H, W]`
with `H, W, C, PH, PW ≥ 1`, regions with batch index in `[0, B)`, a contiguous
upstream gradient `g` of shape `[N, C, PH, PW]`, any sampling ratio, any scale
factors and any `eps ≠ 0`, the sum over the output elements of
`g * (forward(x + eps*d) - forward(x)) / eps` equals the sum over the feature-map
elements of `backward(g) * d`, the backward pass starting from a zero buffer. -/
theorem PSROIAlignBackward_adjoint (B N C PH PW H W : ℕ) (hC : 1 ≤ C) (hPH : 1 ≤ PH)
    (hPW : 1 ≤ PW) (hH : 1 ≤ H) (hW : 1 ≤ W) (x d g : Int → ℚ) (rois : Int → ℚ)
    (sampling_ratio : Int) (scale_h scale_w eps : ℚ) (heps : eps ≠ 0)
    (hbatch : ∀ n : ℕ, n < N → 0 ≤ roi_batch_ind rois n ∧ roi_batch_ind rois n < B)
    (out1 out2 : Int → ℚ) :
    ∑ i ∈ Finset.range (N * C * PH * PW),
        g (i : Int) *
          (PSROIAlignForward ((N : Int) * C * PH * PW) (fun j => x j + eps * d j) scale_h scale_w
              ((C : Int) * PH * PW) H W C PH PW sampling_ratio rois out1 (i : Int)
            - PSROIAlignForward ((N : Int) * C * PH * PW) x scale_h scale_w
              ((C : Int) * PH * PW) H W C PH PW sampling_ratio rois out2 (i : Int)) / eps
      = ∑ j ∈ Finset.range (B * (C * PH * PW) * H * W),
          PSROIAlignBackward ((N : Int) * C * PH * PW) g scale_h scale_w
              ((C : Int) * PH * PW) H W C PH PW sampling_ratio (fun _ => 0) rois
              ((C : Int) * PH * PW) ((PH : Int) * PW) (PW : Int) 1 (j : Int) * d (j : Int) := by
  have hN : (N : Int) * C * PH * PW = ((N * C * PH * PW : ℕ) : Int) := by push_cast; ring
  have hCH : (C : Int) * PH * PW = ((C * PH * PW : ℕ) : Int) := by push_cast; ring
  have hbw := backward_dot B N C PH PW H W hC hPH hPW hH hW g d scale_h scale_w sampling_ratio
    rois ((C : Int) * PH * PW) ((PH : Int) * PW) (PW : Int) 1 (fun _ => 0) hbatch
  rw [dot_zero, zero_add, ← hN, ← hCH] at hbw
  unfold dot at hbw
  rw [hbw]
  apply Finset.sum_congr rfl
  intro i hi
  obtain ⟨-, -, -, -, r1, r2, r3, r4, henc⟩ :=
    decode_index N C PH PW hC hPH hPW i (Finset.mem_range.mp hi)
  have f1 := forward_output_eq N C PH PW hC hPH hPW (fun j => x j + eps * d j) scale_h scale_w
    ((C : Int) * PH * PW) H W sampling_ratio rois out1 _ _ _ _ r4 r3 r2 r1
  have f2 := forward_output_eq N C PH PW hC hPH hPW x scale_h scale_w
    ((C : Int) * PH * PW) H W sampling_ratio rois out2 _ _ _ _ r4 r3 r2 r1
  rw [henc] at f1 f2
  rw [f1, f2, forward_bin_value_linear]
  have hg : grad_output_this_bin g ((C : Int) * PH * PW) ((PH : Int) * PW) (PW : Int) 1
      ((i / PW / PH / C : ℕ) : Int) ((i / PW / PH % C : ℕ) : Int)
      ((i / PW % PH : ℕ) : Int) ((i % PW : ℕ) : Int) = g (i : Int) := by
    unfold grad_output_this_bin
    congr 1
    rw [← henc]
    ring
  rw [hg]
  field_simp
  ring

theorem PSROIAlignBackward_adjoint_witness :
    ∑ i ∈ Finset.range (1 * 1 * 1 * 1),
        (fun _ : Int => (1 : ℚ)) (i : Int) *
          (PSROIAlignForward (((1 : ℕ) : Int) * (1 : ℕ) * (1 : ℕ) * (1 : ℕ))
              (fun j => (fun _ : Int => (0 : ℚ)) j + 1 * (fun _ : Int => (1 : ℚ)) j) 1 1
              (((1 : ℕ) : Int) * (1 : ℕ) * (1 : ℕ)) (1 : ℕ) (1 : ℕ) (1 : ℕ) (1 : ℕ) (1 : ℕ) 0
              (fun _ => 0) (fun _ => 0) (i : Int)
            - PSROIAlignForward (((1 : ℕ) : Int) * (1 : ℕ) * (1 : ℕ) * (1 : ℕ))
              (fun _ : Int => (0 : ℚ)) 1 1
              (((1 : ℕ) : Int) * (1 : ℕ) * (1 : ℕ)) (1 : ℕ) (1 : ℕ) (1 : ℕ) (1 : ℕ) (1 : ℕ) 0
              (fun _ => 0) (fun _ => 0) (i : Int)) / 1
      = ∑ j ∈ Finset.range (1 * (1 * 1 * 1) * 1 * 1),
          PSROIAlignBackward (((1 : ℕ) : Int) * (1 : ℕ) * (1 : ℕ) * (1 : ℕ))
              (fun _ : Int => (1 : ℚ)) 1 1
              (((1 : ℕ) : Int) * (1 : ℕ) * (1 : ℕ)) (1 : ℕ) (1 : ℕ) (1 : ℕ) (1 : ℕ) (1 : ℕ) 0
              (fun _ => 0) (fun _ => 0)
              (((1 : ℕ) : Int) * (1 : ℕ) * (1 : ℕ)) (((1 : ℕ) : Int) * (1 : ℕ)) ((1 : ℕ) : Int) 1
              (j : Int) * (fun _ : Int => (1 : ℚ)) (j : Int) :=
  PSROIAlignBackward_adjoint 1 1 1 1 1 1 1 (by norm_num) (by norm_num) (by norm_num)
    (by norm_num) (by norm_num) (fun _ => 0) (fun _ => 1) (fun _ => 1) (fun _ => 0) 0 1 1 1
    (by norm_num) (fun n _ => by norm_num [roi_batch_ind, toInt]) (fun _ => 0) (fun _ => 0)


/-! ## Position sensitivity, the worked example and the refinement -/

/-- C7. End-to-end example: feature map of shape `[1, 4, 4, 4]`, one output
channel, a 2 x 2 pooled grid, `sampling_ratio = 1`, both scales 1 and the single
region `[0, 0, 0, 4, 4]`.  The sampling grid is 1 x 1, the only sample of bin
`(ph, pw)` is the bin centre `(y, x) = (2*ph + 1, 2*pw + 1)`, and
`output[0, 0, ph, pw] = input[0, 2*ph + pw, 2*ph + 1, 2*pw + 1]`. -/
theorem forward_end_to_end (input rois out0 : Int → ℚ) (h0 : rois 0 = 0) (h1 : rois 1 = 0)
    (h2 : rois 2 = 0) (h3 : rois 3 = 4) (h4 : rois 4 = 4) :
    roi_bin_grid_h rois 1 2 1 0 = 1 ∧ roi_bin_grid_w rois 1 2 1 0 = 1 ∧
    ∀ ph pw : ℕ, ph < 2 → pw < 2 →
      roi_start_h rois 1 0 + ((ph : Int) : ℚ) * bin_size_h rois 1 2 0
          + ((((0 : ℕ) : Int) : ℚ) + 1 / 2) * bin_size_h rois 1 2 0
            / ((roi_bin_grid_h rois 1 2 1 0 : Int) : ℚ) = 2 * (ph : ℚ) + 1 ∧
      roi_start_w rois 1 0 + ((pw : Int) : ℚ) * bin_size_w rois 1 2 0
          + ((((0 : ℕ) : Int) : ℚ) + 1 / 2) * bin_size_w rois 1 2 0
            / ((roi_bin_grid_w rois 1 2 1 0 : Int) : ℚ) = 2 * (pw : ℚ) + 1 ∧
      PSROIAlignForward 4 input 1 1 4 4 4 1 2 2 1 rois out0 ((ph : Int) * 2 + pw)
        = input (((0 * 4 + (2 * (ph : Int) + pw)) * 4 + (2 * (ph : Int) + 1)) * 4
            + (2 * (pw : Int) + 1)) := by
  have hgh : roi_bin_grid_h rois 1 2 1 0 = 1 := by simp [roi_bin_grid_h]
  have hgw : roi_bin_grid_w rois 1 2 1 0 = 1 := by simp [roi_bin_grid_w]
  have hsh : roi_start_h rois 1 0 = 0 := by simp [roi_start_h, h2]
  have hsw : roi_start_w rois 1 0 = 0 := by simp [roi_start_w, h1]
  have hbh : bin_size_h rois 1 2 0 = 2 := by
    norm_num [bin_size_h, roi_height, roi_end_h, roi_start_h, h2, h4]
  have hbw : bin_size_w rois 1 2 0 = 2 := by
    norm_num [bin_size_w, roi_width, roi_end_w, roi_start_w, h1, h3]
  have hb : roi_batch_ind rois 0 = 0 := by simp [roi_batch_ind, h0, toInt]
  refine ⟨hgh, hgw, ?_⟩
  intro ph pw hph hpw
  refine ⟨?_, ?_, ?_⟩
  · rw [hsh, hbh, hgh]
    push_cast
    ring
  · rw [hsw, hbw, hgw]
    push_cast
    ring
  · have key := forward_output_eq 1 1 2 2 (by norm_num) (by norm_num) (by norm_num) input 1 1 4 4
      4 1 rois out0 0 0 ph pw (by norm_num) (by norm_num) hph hpw
    have e1 : (((1 : ℕ) : Int) * ((1 : ℕ) : Int) * ((2 : ℕ) : Int) * ((2 : ℕ) : Int)) = 4 := by
      norm_num
    have e2 : ((((0 : ℕ) : Int) * ((1 : ℕ) : Int) + ((0 : ℕ) : Int)) * ((2 : ℕ) : Int)
        + (ph : Int)) * ((2 : ℕ) : Int) + (pw : Int) = (ph : Int) * 2 + pw := by
      push_cast
      ring
    rw [e1, e2] at key
    simp only [Nat.cast_one, Nat.cast_ofNat] at key
    rw [key]
    unfold forward_bin_value
    simp only [Nat.cast_zero, hgh, hgw, hsh, hsw, hbh, hbw, hb, Int.toNat_one, Finset.range_one,
      Finset.sum_singleton]
    have hph' : ph = 0 ∨ ph = 1 := by omega
    have hpw' : pw = 0 ∨ pw = 1 := by omega
    rcases hph' with rfl | rfl <;> rcases hpw' with rfl | rfl <;>
      norm_num [pc_value, pre_calc_sample, toInt]

theorem forward_end_to_end_witness :
    PSROIAlignForward 4 (fun j => (j : ℚ)) 1 1 4 4 4 1 2 2 1
        (fun i => if i = 3 ∨ i = 4 then 4 else 0) (fun _ => 0) (((1 : ℕ) : Int) * 2 + (0 : ℕ))
      = (fun j : Int => (j : ℚ)) (((0 * 4 + (2 * ((1 : ℕ) : Int) + (0 : ℕ))) * 4
          + (2 * ((1 : ℕ) : Int) + 1)) * 4 + (2 * ((0 : ℕ) : Int) + 1)) :=
  ((forward_end_to_end (fun j => (j : ℚ)) (fun i => if i = 3 ∨ i = 4 then 4 else 0) (fun _ => 0)
    (by norm_num) (by norm_num) (by norm_num) (by norm_num) (by norm_num)).2.2 1 0 (by norm_num)
    (by norm_num)).2.2

theorem transposed_grad_contiguous_data (i : Int) :
    transposed_grad.contiguous.data i = (((i / 2 % 2 : Int) : ℚ) + 2 * ((i % 2 : Int) : ℚ)) := by
  simp [Tensor.contiguous, Tensor.is_contiguous, Tensor.numel, transposed_grad, unravel,
    stridedOffset]
  ring

theorem unit_roi_contiguous_data : unit_roi.contiguous.data = unit_roi.data := by
  simp [Tensor.contiguous, Tensor.is_contiguous, Tensor.numel, unit_roi]

set_option maxHeartbeats 1000000 in
/-- C10 (the code departs from the claim). For the transposed, non-contiguous
upstream gradient `transposed_grad` (shape `[1, 1, 2, 2]`, strides `[4, 4, 1, 2]`)
the logical element `grad[0, 0, 0, 1]` is 2, but the kernel is handed the data of
`grad.contiguous()` together with the strides of the original view, so the value
it uses as `grad_output_this_bin` for the output element `(0, 0, 0, 1)` is 1, and
with a 1 x 1 feature map of 4 channels and the region `[0, 0, 0, 1, 1]` the
gradient returned for channel 1 is 1 instead of 2. -/
theorem backward_cpu_strided_grad_mismatch :
    transposed_grad.is_contiguous = false ∧
    transposed_grad.elem [0, 0, 0, 1] = 2 ∧
    grad_output_this_bin transposed_grad.contiguous.data (transposed_grad.stride 0)
      (transposed_grad.stride 1) (transposed_grad.stride 2) (transposed_grad.stride 3)
      0 0 0 1 = 1 ∧
    ∃ t : Tensor, PSROIAlign_backward_cpu transposed_grad unit_roi 1 1 1 2 2 1 4 1 1 1
        = Except.ok t ∧ t.data 1 = 1 := by
  refine ⟨by decide, ?_, ?_, ?_⟩
  · norm_num [Tensor.elem, stridedOffset, transposed_grad]
  · rw [grad_output_this_bin, transposed_grad_contiguous_data]
    norm_num [Tensor.stride, transposed_grad]
  · refine ⟨_, rfl, ?_⟩
    have hc : transposed_grad.contiguous.data
        = fun i => (((i / 2 % 2 : Int) : ℚ) + 2 * ((i % 2 : Int) : ℚ)) :=
      funext transposed_grad_contiguous_data
    simp only [unit_roi_contiguous_data, hc]
    norm_num [transposed_grad, unit_roi, Tensor.numel, Tensor.stride, Tensor.zeros,
      PSROIAlignBackward, forLoop, List.range, List.range.loop, grad_output_this_bin,
      roi_batch_ind, roi_start_h, roi_start_w, roi_end_h, roi_end_w, roi_height, roi_width,
      bin_size_h, bin_size_w, roi_bin_grid_h, roi_bin_grid_w, bilinear_interpolate_gradient,
      toInt, add, Function.update, Int.tdiv, Int.tmod]

/-! ## The entry points: error reporting and empty inputs -/

theorem small_grad_contiguous_data : small_grad.contiguous.data = small_grad.data := by
  simp [Tensor.contiguous, Tensor.is_contiguous, Tensor.numel, small_grad]

set_option maxHeartbeats 1000000 in
/-- C12 (the code departs from the claim). `PSROIAlign_backward_cpu` called with
`channels = 1`, `out_channels = 1`, `pooled_height = pooled_width = 2` (so
`channels ≠ out_channels * pooled_height * pooled_width`), a contiguous gradient
of shape `[1, 1, 2, 2]` holding `1, 2, 3, 4`, the region `[0, 0, 0, 1, 1]` and a
1 x 1 feature map of batch size 1 reports no error: it returns a gradient buffer
of shape `[1, 1, 1, 1]`, and the kernel has stored the value 4 at offset 3, past
the single element of that buffer. -/
theorem backward_cpu_channel_mismatch_accepted :
    (1 : Int) ≠ 1 * 2 * 2 ∧
    ∃ t : Tensor, PSROIAlign_backward_cpu small_grad unit_roi 1 1 1 2 2 1 1 1 1 1
        = Except.ok t ∧ t.sizes = [1, 1, 1, 1] ∧ t.data 3 = 4 := by
  refine ⟨by norm_num, _, rfl, rfl, ?_⟩
  simp only [unit_roi_contiguous_data, small_grad_contiguous_data]
  norm_num [small_grad, unit_roi, Tensor.numel, Tensor.stride, Tensor.zeros,
    PSROIAlignBackward, forLoop, List.range, List.range.loop, grad_output_this_bin,
    roi_batch_ind, roi_start_h, roi_start_w, roi_end_h, roi_end_w, roi_height, roi_width,
    bin_size_h, bin_size_w, roi_bin_grid_h, roi_bin_grid_w, bilinear_interpolate_gradient,
    toInt, add, Function.update, Int.tdiv, Int.tmod]

/-- C15. The backward helper applies the boundary and clamping policy of the
forward precomputation.  For `height, width ≥ 1` and a sample `(y, x)`: if the
sample is not out of bounds, `bilinear_interpolate_gradient` returns the weights
stored by `pre_calc_for_bilinear_interpolate`, its four indices are `≥ 0` and
`y_low*width + x_low = pos1`, `y_low*width + x_high = pos2`,
`y_high*width + x_low = pos3`, `y_high*width + x_high = pos4`; if the sample is
out of bounds both give four zero weights and the helper returns `-1` for all
four indices.  Hence the guard of the backward kernel holds exactly for the
samples that are not empty. -/
theorem gradient_helper_same_policy (height width : Int) (hH : 1 ≤ height) (hW : 1 ≤ width)
    (y x : ℚ) :
    (¬ (y < -1 ∨ y > (height : ℚ) ∨ x < -1 ∨ x > (width : ℚ)) →
      (bilinear_interpolate_gradient height width y x).w1 = (pre_calc_sample height width y x).w1 ∧
      (bilinear_interpolate_gradient height width y x).w2 = (pre_calc_sample height width y x).w2 ∧
      (bilinear_interpolate_gradient height width y x).w3 = (pre_calc_sample height width y x).w3 ∧
      (bilinear_interpolate_gradient height width y x).w4 = (pre_calc_sample height width y x).w4 ∧
      (bilinear_interpolate_gradient height width y x).y_low * width
        + (bilinear_interpolate_gradient height width y x).x_low
        = (pre_calc_sample height width y x).pos1 ∧
      (bilinear_interpolate_gradient height width y x).y_low * width
        + (bilinear_interpolate_gradient height width y x).x_high
        = (pre_calc_sample height width y x).pos2 ∧
      (bilinear_interpolate_gradient height width y x).y_high * width
        + (bilinear_interpolate_gradient height width y x).x_low
        = (pre_calc_sample height width y x).pos3 ∧
      (bilinear_interpolate_gradient height width y x).y_high * width
        + (bilinear_interpolate_gradient height width y x).x_high
        = (pre_calc_sample height width y x).pos4 ∧
      0 ≤ (bilinear_interpolate_gradient height width y x).x_low ∧
      0 ≤ (bilinear_interpolate_gradient height width y x).x_high ∧
      0 ≤ (bilinear_interpolate_gradient height width y x).y_low ∧
      0 ≤ (bilinear_interpolate_gradient height width y x).y_high) ∧
    ((y < -1 ∨ y > (height : ℚ) ∨ x < -1 ∨ x > (width : ℚ)) →
      (pre_calc_sample height width y x).w1 = 0 ∧ (pre_calc_sample height width y x).w2 = 0 ∧
      (pre_calc_sample height width y x).w3 = 0 ∧ (pre_calc_sample height width y x).w4 = 0 ∧
      (bilinear_interpolate_gradient height width y x).w1 = 0 ∧
      (bilinear_interpolate_gradient height width y x).w2 = 0 ∧
      (bilinear_interpolate_gradient height width y x).w3 = 0 ∧
      (bilinear_interpolate_gradient height width y x).w4 = 0 ∧
      (bilinear_interpolate_gradient height width y x).x_low = -1 ∧
      (bilinear_interpolate_gradient height width y x).x_high = -1 ∧
      (bilinear_interpolate_gradient height width y x).y_low = -1 ∧
      (bilinear_interpolate_gradient height width y x).y_high = -1) ∧
    (((bilinear_interpolate_gradient height width y x).x_low ≥ 0 ∧
        (bilinear_interpolate_gradient height width y x).x_high ≥ 0 ∧
        (bilinear_interpolate_gradient height width y x).y_low ≥ 0 ∧
        (bilinear_interpolate_gradient height width y x).y_high ≥ 0) ↔
      ¬ (y < -1 ∨ y > (height : ℚ) ∨ x < -1 ∨ x > (width : ℚ))) := by
  have hin : ¬ (y < -1 ∨ y > (height : ℚ) ∨ x < -1 ∨ x > (width : ℚ)) →
      0 ≤ (bilinear_interpolate_gradient height width y x).x_low ∧
      0 ≤ (bilinear_interpolate_gradient height width y x).x_high ∧
      0 ≤ (bilinear_interpolate_gradient height width y x).y_low ∧
      0 ≤ (bilinear_interpolate_gradient height width y x).y_high := by
    intro h
    obtain ⟨b1, -, b3, -, b5, -, b7, -⟩ :=
      bilinear_interpolate_gradient_bounds height width hH hW y x h
    exact ⟨b5, b7, b1, b3⟩
  refine ⟨?_, ?_, ?_⟩
  · intro h
    obtain ⟨q1, q2, q3, q4, q5, q6, q7, q8⟩ := pre_calc_sample_eq_gradient height width y x h
    obtain ⟨c1, c2, c3, c4⟩ := hin h
    exact ⟨q1.symm, q2.symm, q3.symm, q4.symm, q5.symm, q6.symm, q7.symm, q8.symm,
      c1, c2, c3, c4⟩
  · intro h
    rw [pre_calc_sample_of_empty height width y x h,
      bilinear_interpolate_gradient_of_empty height width y x h]
    exact ⟨rfl, rfl, rfl, rfl, rfl, rfl, rfl, rfl, rfl, rfl, rfl, rfl⟩
  · constructor
    · intro hg he
      rw [bilinear_interpolate_gradient_of_empty height width y x he] at hg
      have := hg.1
      norm_num at this
    · intro h
      obtain ⟨c1, c2, c3, c4⟩ := hin h
      exact ⟨c1, c2, c3, c4⟩

theorem gradient_helper_same_policy_witness :
    ((bilinear_interpolate_gradient 4 4 (5 / 2) (7 / 2)).x_low ≥ 0 ∧
        (bilinear_interpolate_gradient 4 4 (5 / 2) (7 / 2)).x_high ≥ 0 ∧
        (bilinear_interpolate_gradient 4 4 (5 / 2) (7 / 2)).y_low ≥ 0 ∧
        (bilinear_interpolate_gradient 4 4 (5 / 2) (7 / 2)).y_high ≥ 0) ↔
      ¬ ((5 / 2 : ℚ) < -1 ∨ (5 / 2 : ℚ) > ((4 : Int) : ℚ) ∨ (7 / 2 : ℚ) < -1
        ∨ (7 / 2 : ℚ) > ((4 : Int) : ℚ)) :=
  (gradient_helper_same_policy 4 4 (by norm_num) (by norm_num) (5 / 2) (7 / 2)).2.2

/-- The fractional offset along one axis after clamping lies in `[0, 1)`. -/
theorem clamped_fraction_bounds (d : Int) (c : ℚ) (hc : 0 ≤ c) :
    0 ≤ (if toInt c ≥ d - 1 then ((d - 1 : Int) : ℚ) else c)
        - (((if toInt c ≥ d - 1 then d - 1 else toInt c : Int)) : ℚ) ∧
    (if toInt c ≥ d - 1 then ((d - 1 : Int) : ℚ) else c)
        - (((if toInt c ≥ d - 1 then d - 1 else toInt c : Int)) : ℚ) < 1 := by
  split_ifs with h
  · simp
  · rw [toInt_of_nonneg c hc]
    constructor
    · linarith [Int.floor_le c]
    · linarith [Int.lt_floor_add_one c]

/-- C18. Partition of unity of the bilinear weights: for a sample that is not out
of bounds there are fractions `ly, lx` in `[0, 1)` such that both
`pre_calc_for_bilinear_interpolate` and `bilinear_interpolate_gradient` yield
`w1 = (1-ly)(1-lx)`, `w2 = (1-ly)lx`, `w3 = ly(1-lx)`, `w4 = ly*lx`; each weight
lies in `[0, 1]` and `w1 + w2 + w3 + w4 = 1`.  It holds for every `height` and
`width`, in particular for those that are at least 1. -/
theorem weights_partition_of_unity (height width : Int) (y x : ℚ)
    (hne : ¬ (y < -1 ∨ y > (height : ℚ) ∨ x < -1 ∨ x > (width : ℚ))) :
    ∃ ly lx : ℚ, 0 ≤ ly ∧ ly < 1 ∧ 0 ≤ lx ∧ lx < 1 ∧
      (pre_calc_sample height width y x).w1 = (1 - ly) * (1 - lx) ∧
      (pre_calc_sample height width y x).w2 = (1 - ly) * lx ∧
      (pre_calc_sample height width y x).w3 = ly * (1 - lx) ∧
      (pre_calc_sample height width y x).w4 = ly * lx ∧
      (bilinear_interpolate_gradient height width y x).w1 = (1 - ly) * (1 - lx) ∧
      (bilinear_interpolate_gradient height width y x).w2 = (1 - ly) * lx ∧
      (bilinear_interpolate_gradient height width y x).w3 = ly * (1 - lx) ∧
      (bilinear_interpolate_gradient height width y x).w4 = ly * lx ∧
      0 ≤ (1 - ly) * (1 - lx) ∧ (1 - ly) * (1 - lx) ≤ 1 ∧
      0 ≤ (1 - ly) * lx ∧ (1 - ly) * lx ≤ 1 ∧
      0 ≤ ly * (1 - lx) ∧ ly * (1 - lx) ≤ 1 ∧
      0 ≤ ly * lx ∧ ly * lx ≤ 1 ∧
      (1 - ly) * (1 - lx) + (1 - ly) * lx + ly * (1 - lx) + ly * lx = 1 := by
  have hyc : (0 : ℚ) ≤ (if y ≤ 0 then 0 else y) := by
    split_ifs with h
    · exact le_refl 0
    · exact le_of_lt (not_le.mp h)
  have hxc : (0 : ℚ) ≤ (if x ≤ 0 then 0 else x) := by
    split_ifs with h
    · exact le_refl 0
    · exact le_of_lt (not_le.mp h)
  obtain ⟨hy0, hy1⟩ := clamped_fraction_bounds height _ hyc
  obtain ⟨hx0, hx1⟩ := clamped_fraction_bounds width _ hxc
  refine ⟨_, _, hy0, hy1, hx0, hx1, ?_, ?_, ?_, ?_, ?_, ?_, ?_, ?_, ?_⟩
  · simp only [pre_calc_sample, if_neg hne]
  · simp only [pre_calc_sample, if_neg hne]
  · simp only [pre_calc_sample, if_neg hne]
  · simp only [pre_calc_sample, if_neg hne]
  · simp only [bilinear_interpolate_gradient, if_neg hne]
  · simp only [bilinear_interpolate_gradient, if_neg hne]
  · simp only [bilinear_interpolate_gradient, if_neg hne]
  · simp only [bilinear_interpolate_gradient, if_neg hne]
  · generalize (if toInt (if y ≤ 0 then 0 else y) ≥ height - 1 then ((height - 1 : Int) : ℚ)
        else if y ≤ 0 then 0 else y)
        - (((if toInt (if y ≤ 0 then 0 else y) ≥ height - 1 then height - 1
          else toInt (if y ≤ 0 then 0 else y) : Int)) : ℚ) = ly at hy0 hy1
    generalize (if toInt (if x ≤ 0 then 0 else x) ≥ width - 1 then ((width - 1 : Int) : ℚ)
        else if x ≤ 0 then 0 else x)
        - (((if toInt (if x ≤ 0 then 0 else x) ≥ width - 1 then width - 1
          else toInt (if x ≤ 0 then 0 else x) : Int)) : ℚ) = lx at hx0 hx1
    have a1 : 0 ≤ 1 - ly := by linarith
    have a2 : 0 ≤ 1 - lx := by linarith
    refine ⟨mul_nonneg a1 a2, ?_, mul_nonneg a1 hx0, ?_, mul_nonneg hy0 a2, ?_,
      mul_nonneg hy0 hx0, ?_, by ring⟩
    · nlinarith [mul_nonneg hy0 hx0]
    · nlinarith [mul_nonneg hy0 hx0, mul_nonneg a1 a2]
    · nlinarith [mul_nonneg hy0 hx0, mul_nonneg a1 a2]
    · nlinarith [mul_nonneg a1 a2, mul_nonneg a1 hx0, mul_nonneg hy0 a2]

theorem weights_partition_of_unity_witness :
    ∃ ly lx : ℚ, 0 ≤ ly ∧ ly < 1 ∧ 0 ≤ lx ∧ lx < 1 ∧
      (pre_calc_sample 4 4 (5 / 2) (7 / 2)).w1 = (1 - ly) * (1 - lx) ∧
      (pre_calc_sample 4 4 (5 / 2) (7 / 2)).w2 = (1 - ly) * lx ∧
      (pre_calc_sample 4 4 (5 / 2) (7 / 2)).w3 = ly * (1 - lx) ∧
      (pre_calc_sample 4 4 (5 / 2) (7 / 2)).w4 = ly * lx ∧
      (bilinear_interpolate_gradient 4 4 (5 / 2) (7 / 2)).w1 = (1 - ly) * (1 - lx) ∧
      (bilinear_interpolate_gradient 4 4 (5 / 2) (7 / 2)).w2 = (1 - ly) * lx ∧
      (bilinear_interpolate_gradient 4 4 (5 / 2) (7 / 2)).w3 = ly * (1 - lx) ∧
      (bilinear_interpolate_gradient 4 4 (5 / 2) (7 / 2)).w4 = ly * lx ∧
      0 ≤ (1 - ly) * (1 - lx) ∧ (1 - ly) * (1 - lx) ≤ 1 ∧
      0 ≤ (1 - ly) * lx ∧ (1 - ly) * lx ≤ 1 ∧
      0 ≤ ly * (1 - lx) ∧ ly * (1 - lx) ≤ 1 ∧
      0 ≤ ly * lx ∧ ly * lx ≤ 1 ∧
      (1 - ly) * (1 - lx) + (1 - ly) * lx + ly * (1 - lx) + ly * lx = 1 :=
  weights_partition_of_unity 4 4 (5 / 2) (7 / 2) (by norm_num)

/-! ## Averaging over empty and non-empty samples -/

theorem PSROIAlignBackward_eq_elements (nthreads : Int) (grad_output : Int → ℚ)
    (scale_h scale_w : ℚ)
    (channels height width out_channels pooled_height pooled_width sampling_ratio : Int)
    (grad_input rois : Int → ℚ) (n_stride c_stride h_stride w_stride : Int) :
    PSROIAlignBackward nthreads grad_output scale_h scale_w channels height width out_channels
        pooled_height pooled_width sampling_ratio grad_input rois n_stride c_stride h_stride
        w_stride
      = forLoop nthreads
          (backward_element grad_output scale_h scale_w channels height width out_channels
            pooled_height pooled_width sampling_ratio rois n_stride c_stride h_stride w_stride)
          grad_input := rfl

theorem encode_lt (N C PH PW n c ph pw : ℕ) (hn : n < N) (hc : c < C) (hph : ph < PH)
    (hpw : pw < PW) : ((n * C + c) * PH + ph) * PW + pw < N * C * PH * PW :=
  digit_lt _ _ _ _ (digit_lt _ _ _ _ (digit_lt n N c C hn hc) hph) hpw

theorem channel_lt (C PH PW c ph pw : ℕ) (hc : c < C) (hph : ph < PH) (hpw : pw < PW) :
    (c : Int) * PH * PW + (ph : Int) * PW + pw < (C : Int) * PH * PW := by
  have := digit_lt _ _ _ _ (digit_lt c C ph PH hc hph) hpw
  have h' : (((c * PH + ph) * PW + pw : ℕ) : Int) < ((C * PH * PW : ℕ) : Int) := by
    exact_mod_cast this
  push_cast at h'
  linarith

theorem IsShift_id : IsShift (fun G => G) := ⟨fun _ => 0, fun G => by funext a; simp⟩

theorem IsShift_add (address : Int) (val : ℚ) : IsShift (fun G => add G address val) := by
  refine ⟨fun a => if a = address then val else 0, fun G => ?_⟩
  funext a
  unfold add
  by_cases h : a = address
  · subst h
    simp
  · simp [Function.update_noteq h, h]

theorem IsShift_comp (f1 f2 : (Int → ℚ) → (Int → ℚ)) (h1 : IsShift f1) (h2 : IsShift f2) :
    IsShift (fun G => f2 (f1 G)) := by
  obtain ⟨d1, e1⟩ := h1
  obtain ⟨d2, e2⟩ := h2
  refine ⟨fun a => d1 a + d2 a, fun G => ?_⟩
  show f2 (f1 G) = _
  rw [e1 G, e2]
  funext a
  ring

theorem IsShift_forLoop (n : ℕ) (body : Int → (Int → ℚ) → (Int → ℚ))
    (h : ∀ i : ℕ, i < n → IsShift (body (i : Int))) : IsShift (forLoop (n : Int) body) := by
  induction n with
  | zero =>
    refine ⟨fun _ => 0, fun G => ?_⟩
    funext a
    simp [forLoop]
  | succ m ih =>
    have h1 := ih (fun i hi => h i (Nat.lt_succ_of_lt hi))
    have h2 := h m (Nat.lt_succ_self m)
    obtain ⟨d, e⟩ := IsShift_comp _ _ h1 h2
    exact ⟨d, fun G => by rw [forLoop_succ]; exact e G⟩

theorem IsShift_comm (f1 f2 : (Int → ℚ) → (Int → ℚ)) (h1 : IsShift f1) (h2 : IsShift f2)
    (G : Int → ℚ) : f1 (f2 G) = f2 (f1 G) := by
  obtain ⟨d1, e1⟩ := h1
  obtain ⟨d2, e2⟩ := h2
  rw [e2 G, e1, e1 G, e2]
  funext a
  ring

/-- The processing of one output element adds a fixed increment to the
gradient buffer. -/
theorem backward_element_IsShift (g : Int → ℚ) (scale_h scale_w : ℚ)
    (channels height width out_channels pooled_height pooled_width sampling_ratio : Int)
    (rois : Int → ℚ) (n_stride c_stride h_stride w_stride index : Int) :
    IsShift (backward_element g scale_h scale_w channels height width out_channels
      pooled_height pooled_width sampling_ratio rois n_stride c_stride h_stride w_stride
      index) := by
  unfold backward_element
  dsimp only
  have e : ∀ (n : Int) (body : Int → (Int → ℚ) → (Int → ℚ)),
      (∀ i : ℕ, IsShift (body (i : Int))) → IsShift (fun G => forLoop n body G) := by
    intro n body hb
    have := IsShift_forLoop n.toNat body (fun i _ => hb i)
    obtain ⟨d, hd⟩ := this
    exact ⟨d, fun G => by
      show forLoop n body G = _
      rw [forLoop_toNat]
      exact hd G⟩
  apply e
  intro iy
  apply e
  intro ix
  split_ifs
  · exact IsShift_comp _ _ (IsShift_comp _ _ (IsShift_comp _ _ (IsShift_add _ _)
      (IsShift_add _ _)) (IsShift_add _ _)) (IsShift_add _ _)
  · exact IsShift_id

/-- C16. Order-independent accumulation: over exact arithmetic, running the
per-element scatter-add body of `PSROIAlignBackward` over any permutation `l` of
the flat output indices `0 .. nthreads-1` yields the buffer produced by the
sequential loop (from the zero buffer, and from any other initial buffer). -/
theorem backward_order_independent (nthreads : ℕ) (g : Int → ℚ) (scale_h scale_w : ℚ)
    (channels height width out_channels pooled_height pooled_width sampling_ratio : Int)
    (rois : Int → ℚ) (n_stride c_stride h_stride w_stride : Int) (G0 : Int → ℚ)
    (l : List ℕ) (hl : l.Perm (List.range nthreads)) :
    l.foldl (fun G (i : ℕ) => backward_element g scale_h scale_w channels height width
        out_channels pooled_height pooled_width sampling_ratio rois n_stride c_stride
        h_stride w_stride (i : Int) G) G0
      = PSROIAlignBackward (nthreads : Int) g scale_h scale_w channels height width
        out_channels pooled_height pooled_width sampling_ratio G0 rois n_stride c_stride
        h_stride w_stride ∧
    l.foldl (fun G (i : ℕ) => backward_element g scale_h scale_w channels height width
        out_channels pooled_height pooled_width sampling_ratio rois n_stride c_stride
        h_stride w_stride (i : Int) G) (fun _ => 0)
      = PSROIAlignBackward (nthreads : Int) g scale_h scale_w channels height width
        out_channels pooled_height pooled_width sampling_ratio (fun _ => 0) rois n_stride
        c_stride h_stride w_stride := by
  have key : ∀ G : Int → ℚ,
      l.foldl (fun G (i : ℕ) => backward_element g scale_h scale_w channels height width
        out_channels pooled_height pooled_width sampling_ratio rois n_stride c_stride
        h_stride w_stride (i : Int) G) G
      = PSROIAlignBackward (nthreads : Int) g scale_h scale_w channels height width
        out_channels pooled_height pooled_width sampling_ratio G rois n_stride c_stride
        h_stride w_stride := by
    intro G
    rw [PSROIAlignBackward_eq_elements]
    unfold forLoop
    rw [Int.toNat_ofNat]
    exact List.Perm.foldl_eq' hl
      (fun i _ j _ z => IsShift_comm _ _
        (backward_element_IsShift g scale_h scale_w channels height width out_channels
          pooled_height pooled_width sampling_ratio rois n_stride c_stride h_stride w_stride j)
        (backward_element_IsShift g scale_h scale_w channels height width out_channels
          pooled_height pooled_width sampling_ratio rois n_stride c_stride h_stride w_stride i)
        z) G
  exact ⟨key G0, key _⟩

theorem backward_order_independent_witness :
    [2, 0, 3, 1].foldl (fun G (i : ℕ) => backward_element (fun j => (j : ℚ)) 1 1 4 1 1 1 2 2 1
        (fun j => if j = 3 ∨ j = 4 then 1 else 0) 4 4 2 1 (i : Int) G) (fun _ => 0)
      = PSROIAlignBackward ((4 : ℕ) : Int) (fun j => (j : ℚ)) 1 1 4 1 1 1 2 2 1 (fun _ => 0)
        (fun j => if j = 3 ∨ j = 4 then 1 else 0) 4 4 2 1 :=
  (backward_order_independent 4 (fun j => (j : ℚ)) 1 1 4 1 1 1 2 2 1
    (fun j => if j = 3 ∨ j = 4 then 1 else 0) 4 4 2 1 (fun _ => 0) [2, 0, 3, 1]
    (by decide)).2

/-! ## The recorded accesses -/

/-- Dropping the extra component of an instrumented loop gives the loop. -/
theorem forLoop_fst {σ τ : Type} (n : Int) (body : Int → σ → σ)
    (body' : Int → σ × τ → σ × τ)
    (h : ∀ (i : ℕ) (st : σ × τ), (body' (i : Int) st).1 = body (i : Int) st.1) (st : σ × τ) :
    (forLoop n body' st).1 = forLoop n body st.1 := by
  rw [forLoop_toNat n body', forLoop_toNat n body]
  induction n.toNat with
  | zero => simp [forLoop]
  | succ m ih => rw [forLoop_succ, forLoop_succ, h, ih]

/-- The instrumented precomputation builds the table of the precomputation. -/
theorem pre_calc_traced_fst (height width pooled_height pooled_width iy_upper ix_upper : Int)
    (start_h start_w bsh bsw : ℚ) (g1 g2 : Int) (tbl : Int → PreCalc) :
    (pre_calc_for_bilinear_interpolate_traced height width pooled_height pooled_width
        iy_upper ix_upper start_h start_w bsh bsw g1 g2 tbl).1
      = pre_calc_for_bilinear_interpolate height width pooled_height pooled_width
        iy_upper ix_upper start_h start_w bsh bsw g1 g2 tbl := by
  unfold pre_calc_for_bilinear_interpolate_traced pre_calc_for_bilinear_interpolate
  dsimp only
  refine congrArg Prod.fst (forLoop_fst _ _ _ ?_ _)
  intro ph st
  refine forLoop_fst _ _ _ ?_ _
  intro pw st
  refine forLoop_fst _ _ _ ?_ _
  intro iy st
  refine forLoop_fst _ _ _ ?_ _
  intro ix st
  rfl

/-- The instrumented forward kernel computes the output of the forward kernel. -/
theorem PSROIAlignForward_traced_fst (nthreads : Int) (input : Int → ℚ) (scale_h scale_w : ℚ)
    (channels height width out_channels pooled_height pooled_width sampling_ratio : Int)
    (rois : Int → ℚ) (output : Int → ℚ) :
    (PSROIAlignForward_traced nthreads input scale_h scale_w channels height width out_channels
        pooled_height pooled_width sampling_ratio rois output).1
      = PSROIAlignForward nthreads input scale_h scale_w channels height width out_channels
        pooled_height pooled_width sampling_ratio rois output := by
  unfold PSROIAlignForward_traced PSROIAlignForward
  dsimp only
  refine forLoop_fst _ _ _ ?_ _
  intro n st
  rw [pre_calc_traced_fst]
  refine forLoop_fst _ _ _ ?_ _
  intro c st
  dsimp only
  refine congrArg Prod.fst (forLoop_fst _ _ _ ?_ _)
  intro ph st
  refine forLoop_fst _ _ _ ?_ _
  intro pw st
  dsimp only
  have hin : ∀ (off : Int) (a : (ℚ × Int) × List Access),
      (forLoop (roi_bin_grid_h rois scale_h pooled_height sampling_ratio n) (fun _ acc =>
        forLoop (roi_bin_grid_w rois scale_w pooled_width sampling_ratio n) (fun _ acc =>
          ((acc.1.1 + pc_value off input
              ((pre_calc_for_bilinear_interpolate height width pooled_height pooled_width
                (roi_bin_grid_h rois scale_h pooled_height sampling_ratio n)
                (roi_bin_grid_w rois scale_w pooled_width sampling_ratio n)
                (roi_start_h rois scale_h n) (roi_start_w rois scale_w n)
                (bin_size_h rois scale_h pooled_height n) (bin_size_w rois scale_w pooled_width n)
                (roi_bin_grid_h rois scale_h pooled_height sampling_ratio n)
                (roi_bin_grid_w rois scale_w pooled_width sampling_ratio n)
                (fun _ => PreCalc.zero)) acc.1.2), acc.1.2 + 1),
            acc.2 ++ [Access.pre_calc_read acc.1.2
                (roi_bin_grid_h rois scale_h pooled_height sampling_ratio n
                  * roi_bin_grid_w rois scale_w pooled_width sampling_ratio n
                  * pooled_height * pooled_width),
              Access.input_read n (off + ((pre_calc_for_bilinear_interpolate height width
                pooled_height pooled_width
                (roi_bin_grid_h rois scale_h pooled_height sampling_ratio n)
                (roi_bin_grid_w rois scale_w pooled_width sampling_ratio n)
                (roi_start_h rois scale_h n) (roi_start_w rois scale_w n)
                (bin_size_h rois scale_h pooled_height n) (bin_size_w rois scale_w pooled_width n)
                (roi_bin_grid_h rois scale_h pooled_height sampling_ratio n)
                (roi_bin_grid_w rois scale_w pooled_width sampling_ratio n)
                (fun _ => PreCalc.zero)) acc.1.2).pos1),
              Access.input_read n (off + ((pre_calc_for_bilinear_interpolate height width
                pooled_height pooled_width
                (roi_bin_grid_h rois scale_h pooled_height sampling_ratio n)
                (roi_bin_grid_w rois scale_w pooled_width sampling_ratio n)
                (roi_start_h rois scale_h n) (roi_start_w rois scale_w n)
                (bin_size_h rois scale_h pooled_height n) (bin_size_w rois scale_w pooled_width n)
                (roi_bin_grid_h rois scale_h pooled_height sampling_ratio n)
                (roi_bin_grid_w rois scale_w pooled_width sampling_ratio n)
                (fun _ => PreCalc.zero)) acc.1.2).pos2),
              Access.input_read n (off + ((pre_calc_for_bilinear_interpolate height width
                pooled_height pooled_width
                (roi_bin_grid_h rois scale_h pooled_height sampling_ratio n)
                (roi_bin_grid_w rois scale_w pooled_width sampling_ratio n)
                (roi_start_h rois scale_h n) (roi_start_w rois scale_w n)
                (bin_size_h rois scale_h pooled_height n) (bin_size_w rois scale_w pooled_width n)
                (roi_bin_grid_h rois scale_h pooled_height sampling_ratio n)
                (roi_bin_grid_w rois scale_w pooled_width sampling_ratio n)
                (fun _ => PreCalc.zero)) acc.1.2).pos3),
              Access.input_read n (off + ((pre_calc_for_bilinear_interpolate height width
                pooled_height pooled_width
                (roi_bin_grid_h rois scale_h pooled_height sampling_ratio n)
                (roi_bin_grid_w rois scale_w pooled_width sampling_ratio n)
                (roi_start_h rois scale_h n) (roi_start_w rois scale_w n)
                (bin_size_h rois scale_h pooled_height n) (bin_size_w rois scale_w pooled_width n)
                (roi_bin_grid_h rois scale_h pooled_height sampling_ratio n)
                (roi_bin_grid_w rois scale_w pooled_width sampling_ratio n)
                (fun _ => PreCalc.zero)) acc.1.2).pos4)])) acc) a).1
      = forLoop (roi_bin_grid_h rois scale_h pooled_height sampling_ratio n) (fun _ acc =>
        forLoop (roi_bin_grid_w rois scale_w pooled_width sampling_ratio n) (fun _ acc =>
          (acc.1 + pc_value off input
              ((pre_calc_for_bilinear_interpolate height width pooled_height pooled_width
                (roi_bin_grid_h rois scale_h pooled_height sampling_ratio n)
                (roi_bin_grid_w rois scale_w pooled_width sampling_ratio n)
                (roi_start_h rois scale_h n) (roi_start_w rois scale_w n)
                (bin_size_h rois scale_h pooled_height n) (bin_size_w rois scale_w pooled_width n)
                (roi_bin_grid_h rois scale_h pooled_height sampling_ratio n)
                (roi_bin_grid_w rois scale_w pooled_width sampling_ratio n)
                (fun _ => PreCalc.zero)) acc.2), acc.2 + 1)) acc) a.1 := by
    intro off a
    refine forLoop_fst _ _ _ ?_ _
    intro iy a1
    refine forLoop_fst _ _ _ ?_ _
    intro ix a2
    rfl
  rw [hin]

/-- The instrumented backward kernel computes the buffer of the backward kernel. -/
theorem PSROIAlignBackward_traced_fst (nthreads : Int) (grad_output : Int → ℚ)
    (scale_h scale_w : ℚ)
    (channels height width out_channels pooled_height pooled_width sampling_ratio : Int)
    (grad_input rois : Int → ℚ) (n_stride c_stride h_stride w_stride : Int) :
    (PSROIAlignBackward_traced nthreads grad_output scale_h scale_w channels height width
        out_channels pooled_height pooled_width sampling_ratio grad_input rois n_stride
        c_stride h_stride w_stride).1
      = PSROIAlignBackward nthreads grad_output scale_h scale_w channels height width
        out_channels pooled_height pooled_width sampling_ratio grad_input rois n_stride
        c_stride h_stride w_stride := by
  unfold PSROIAlignBackward_traced PSROIAlignBackward
  dsimp only
  refine forLoop_fst _ _ _ ?_ _
  intro index st
  refine forLoop_fst _ _ _ ?_ _
  intro iy st
  refine forLoop_fst _ _ _ ?_ _
  intro ix st
  dsimp only
  split_ifs <;> rfl

theorem Keeps_forLoop {σ τ : Type} (Q : τ → Prop) (n : Int)
    (body : Int → σ × List τ → σ × List τ)
    (h : ∀ i : ℕ, (i : Int) < n → Keeps Q (body (i : Int))) : Keeps Q (forLoop n body) := by
  have key : ∀ m : ℕ, (m : Int) ≤ max n 0 → Keeps Q (forLoop (m : Int) body) := by
    intro m
    induction m with
    | zero =>
      intro _ st hst
      rw [Nat.cast_zero, forLoop_zero]
      exact hst
    | succ m ih =>
      intro hm st hst
      rw [forLoop_succ]
      have hm' : (m : Int) < n := by
        push_cast at hm
        rcases le_max_iff.mp hm with h1 | h1 <;> omega
      exact h m hm' _ (ih (by push_cast at hm ⊢; omega) st hst)
  intro st hst
  rw [forLoop_toNat]
  exact key n.toNat (by rw [Int.toNat_eq_max]) st hst

theorem Steps_forLoop {α τ : Type} (Q : τ → Prop) (c k : Int) (n : ℕ)
    (body : Int → (α × Int) × List τ → (α × Int) × List τ)
    (h : ∀ i : ℕ, i < n → Steps Q (c + (i : Int) * k) k (body (i : Int))) :
    Steps Q c ((n : Int) * k) (forLoop (n : Int) body) := by
  induction n with
  | zero =>
    intro st hc hst
    rw [Nat.cast_zero, forLoop_zero]
    exact ⟨by rw [hc]; ring, hst⟩
  | succ m ih =>
    intro st hc hst
    rw [forLoop_succ]
    have h1 := ih (fun i hi => h i (Nat.lt_succ_of_lt hi)) st hc hst
    have h2 := h m (Nat.lt_succ_self m) _ h1.1 h1.2
    refine ⟨?_, h2.2⟩
    rw [h2.1]
    push_cast
    ring

/-- A step that runs a loop from the current index and then records one more
event. -/
theorem Steps_snoc {β τ : Type} (Q : τ → Prop) (c k : Int) (X : (β × Int) × List τ) (ev : τ)
    (hX : X.1.2 = c + k ∧ ∀ e ∈ X.2, Q e) (hev : Q ev) :
    X.1.2 = c + k ∧ ∀ e ∈ X.2 ++ [ev], Q e := by
  refine ⟨hX.1, ?_⟩
  intro e he
  rw [List.mem_append, List.mem_singleton] at he
  rcases he with he | rfl
  · exact hX.2 e he
  · exact hev

/-- A cell `(a, b)` of a plane has its row-major index inside the plane. -/
theorem cell_in_plane (height width a b : Int) (ha0 : 0 ≤ a) (ha1 : a ≤ height - 1)
    (hb0 : 0 ≤ b) (hb1 : b ≤ width - 1) :
    0 ≤ a * width + b ∧ a * width + b < height * width := by
  have h1 : a * width ≤ (height - 1) * width := mul_le_mul_of_nonneg_right ha1 (by omega)
  have h2 : 0 ≤ a * width := mul_nonneg ha0 (by omega)
  have h3 : (height - 1) * width = height * width - width := by ring
  omega

/-- The four positions stored for a sample lie inside one plane of the feature
map. -/
theorem pre_calc_sample_pos_bounds (height width : Int) (hH : 1 ≤ height) (hW : 1 ≤ width)
    (y x : ℚ) :
    (0 ≤ (pre_calc_sample height width y x).pos1 ∧
      (pre_calc_sample height width y x).pos1 < height * width) ∧
    (0 ≤ (pre_calc_sample height width y x).pos2 ∧
      (pre_calc_sample height width y x).pos2 < height * width) ∧
    (0 ≤ (pre_calc_sample height width y x).pos3 ∧
      (pre_calc_sample height width y x).pos3 < height * width) ∧
    (0 ≤ (pre_calc_sample height width y x).pos4 ∧
      (pre_calc_sample height width y x).pos4 < height * width) := by
  have hpos : 0 < height * width := by positivity
  have cell : ∀ a b : Int, 0 ≤ a → a ≤ height - 1 → 0 ≤ b → b ≤ width - 1 →
      0 ≤ a * width + b ∧ a * width + b < height * width :=
    fun a b ha0 ha1 hb0 hb1 => cell_in_plane height width a b ha0 ha1 hb0 hb1
  by_cases h : y < -1 ∨ y > (height : ℚ) ∨ x < -1 ∨ x > (width : ℚ)
  · rw [pre_calc_sample_of_empty height width y x h]
    simp only [PreCalc.zero]
    exact ⟨⟨le_refl _, hpos⟩, ⟨le_refl _, hpos⟩, ⟨le_refl _, hpos⟩, ⟨le_refl _, hpos⟩⟩
  · obtain ⟨-, -, -, -, e1, e2, e3, e4⟩ := pre_calc_sample_eq_gradient height width y x h
    obtain ⟨b1, b2, b3, b4, b5, b6, b7, b8⟩ :=
      bilinear_interpolate_gradient_bounds height width hH hW y x h
    rw [e1, e2, e3, e4]
    exact ⟨cell _ _ b1 b2 b5 b6, cell _ _ b1 b2 b7 b8, cell _ _ b3 b4 b5 b6,
      cell _ _ b3 b4 b7 b8⟩

/-- An access at position `pos` of the plane of region `n` and channel
`c*PH*PW + ph*PW + pw` is located in that plane. -/
theorem located_of_plane (rois : Int → ℚ) (N C PH PW H W n c ph pw : ℕ) (hn : n < N)
    (hc : c < C) (hph : ph < PH) (hpw : pw < PW) (pos nt : Int) (h0 : 0 ≤ pos)
    (h1 : pos < (H : Int) * W) :
    Access.located rois N ((C : Int) * PH * PW) ((H : Int) * W) nt
      (Access.input_read n ((roi_batch_ind rois n * ((C : Int) * PH * PW)
        + ((c : Int) * PH * PW + (ph : Int) * PW + pw)) * H * W + pos)) ∧
    Access.located rois N ((C : Int) * PH * PW) ((H : Int) * W) nt
      (Access.grad_input_write n ((roi_batch_ind rois n * ((C : Int) * PH * PW)
        + ((c : Int) * PH * PW + (ph : Int) * PW + pw)) * H * W + pos)) := by
  have hch := channel_lt C PH PW c ph pw hc hph hpw
  have hch0 : (0 : Int) ≤ (c : Int) * PH * PW + (ph : Int) * PW + pw := by positivity
  have e : (roi_batch_ind rois n * ((C : Int) * PH * PW)
        + ((c : Int) * PH * PW + (ph : Int) * PW + pw)) * H * W
      = (roi_batch_ind rois n * ((C : Int) * PH * PW)
        + ((c : Int) * PH * PW + (ph : Int) * PW + pw)) * ((H : Int) * W) := by ring
  have hn' : ((n : ℕ) : Int) < (N : Int) := by exact_mod_cast hn
  constructor
  · exact ⟨by positivity, hn', _, hch0, hch, by rw [e]; omega, by rw [e]; omega⟩
  · exact ⟨by positivity, hn', _, hch0, hch, by rw [e]; omega, by rw [e]; omega⟩

/-- Every index written by the precomputation is below the size of the table. -/
theorem pre_calc_traced_bounds (height width : Int) (PH PW gh gw : ℕ)
    (start_h start_w bsh bsw : ℚ) (g1 g2 : Int) (tbl : Int → PreCalc) :
    ∀ i ∈ (pre_calc_for_bilinear_interpolate_traced height width PH PW gh gw start_h start_w
        bsh bsw g1 g2 tbl).2, 0 ≤ i ∧ i < (gh : Int) * gw * PH * PW := by
  unfold pre_calc_for_bilinear_interpolate_traced
  dsimp only
  refine (Steps_forLoop (fun i : Int => 0 ≤ i ∧ i < (gh : Int) * gw * PH * PW) 0
    ((PW : Int) * ((gh : Int) * ((gw : Int) * 1))) PH _ ?_ _ rfl ?_).2
  · intro ph hph
    refine Steps_forLoop _ _ ((gh : Int) * ((gw : Int) * 1)) PW _ ?_
    intro pw hpw
    refine Steps_forLoop _ _ ((gw : Int) * 1) gh _ ?_
    intro iy hiy
    refine Steps_forLoop _ _ 1 gw _ ?_
    intro ix hix st hc hst
    dsimp only
    refine ⟨by rw [hc], ?_⟩
    intro e he
    rw [List.mem_append, List.mem_singleton] at he
    rcases he with he | rfl
    · exact hst e he
    · rw [hc]
      have h := encode_lt PH PW gh gw ph pw iy ix hph hpw hiy hix
      have h' : ((((ph * PW + pw) * gh + iy) * gw + ix : ℕ) : Int)
          < ((PH * PW * gh * gw : ℕ) : Int) := by exact_mod_cast h
      push_cast at h'
      constructor
      · positivity
      · calc (0 : Int) + ph * ((PW : Int) * ((gh : Int) * ((gw : Int) * 1)))
              + pw * ((gh : Int) * ((gw : Int) * 1)) + iy * ((gw : Int) * 1) + ix * 1
            = (((ph : Int) * PW + pw) * gh + iy) * gw + ix := by ring
          _ < (PH : Int) * PW * gh * gw := h'
          _ = (gh : Int) * gw * PH * PW := by ring
  · intro e he
    simp at he

/-- Every access recorded by the forward kernel is located: table accesses
inside the table, output writes inside the output, and every read of the
feature map inside one plane of the image that the region names. -/
theorem forward_trace_located (N C PH PW H W : ℕ) (hC : 1 ≤ C) (hPH : 1 ≤ PH) (hPW : 1 ≤ PW)
    (hH : 1 ≤ H) (hW : 1 ≤ W) (input : Int → ℚ) (scale_h scale_w : ℚ) (sampling_ratio : Int)
    (rois : Int → ℚ) (out0 : Int → ℚ) :
    ∀ e ∈ (PSROIAlignForward_traced ((N : Int) * C * PH * PW) input scale_h scale_w
        ((C : Int) * PH * PW) H W C PH PW sampling_ratio rois out0).2,
      Access.located rois N ((C : Int) * PH * PW) ((H : Int) * W) ((N : Int) * C * PH * PW) e := by
  unfold PSROIAlignForward_traced
  dsimp only
  rw [n_rois_eq N C PH PW hC hPH hPW]
  refine Keeps_forLoop _ N _ ?_ _ (by intro e he; simp at he)
  intro n hn st hst
  have hn' : n < N := by exact_mod_cast hn
  have hgh := roi_bin_grid_h_pos rois scale_h PH sampling_ratio n (by exact_mod_cast hPH)
  have hgw := roi_bin_grid_w_pos rois scale_w PW sampling_ratio n (by exact_mod_cast hPW)
  generalize roi_bin_grid_h rois scale_h PH sampling_ratio n = gh at hgh ⊢
  generalize roi_bin_grid_w rois scale_w PW sampling_ratio n = gw at hgw ⊢
  lift gh to ℕ using (by omega)
  lift gw to ℕ using (by omega)
  refine Keeps_forLoop _ C _ ?_ _ ?_
  · intro c hc st hst
    have hc' : c < C := by exact_mod_cast hc
    dsimp only
    refine (Steps_forLoop _ 0 ((PW : Int) * ((gh : Int) * ((gw : Int) * 1))) PH _ ?_ _ rfl hst).2
    intro ph hph
    refine Steps_forLoop _ _ ((gh : Int) * ((gw : Int) * 1)) PW _ ?_
    intro pw hpw st hc hst
    dsimp only
    refine Steps_snoc _ _ _ _ _ (Steps_forLoop _ _ ((gw : Int) * 1) gh _ ?_ _ hc hst) ?_
    · intro iy hiy
      refine Steps_forLoop _ _ 1 gw _ ?_
      intro ix hix acc hc hacc
      dsimp only
      refine ⟨by rw [hc], ?_⟩
      have hidx : acc.1.2 = ((((ph : Int) * PW + pw) * gh + iy) * gw + ix) := by
        rw [hc]
        ring
      have hpc := pre_calc_table_entry H W PH PW gh gw (roi_start_h rois scale_h n)
        (roi_start_w rois scale_w n) (bin_size_h rois scale_h PH n)
        (bin_size_w rois scale_w PW n) gh gw (fun _ => PreCalc.zero) ph pw iy ix hph hpw hiy hix
        acc.1.2 hidx
      rw [pre_calc_traced_fst, hpc]
      obtain ⟨p1, p2, p3, p4⟩ := pre_calc_sample_pos_bounds H W (by exact_mod_cast hH)
        (by exact_mod_cast hW)
        (roi_start_h rois scale_h n + ((ph : Int) : ℚ) * bin_size_h rois scale_h PH n
          + (((iy : Int) : ℚ) + 1 / 2) * bin_size_h rois scale_h PH n / ((gh : Int) : ℚ))
        (roi_start_w rois scale_w n + ((pw : Int) : ℚ) * bin_size_w rois scale_w PW n
          + (((ix : Int) : ℚ) + 1 / 2) * bin_size_w rois scale_w PW n / ((gw : Int) : ℚ))
      intro e he
      rw [List.mem_append] at he
      rcases he with he | he
      · exact hacc e he
      · simp only [List.mem_cons, List.mem_singleton, List.not_mem_nil, or_false] at he
        rcases he with rfl | rfl | rfl | rfl | rfl
        · have h := encode_lt PH PW gh gw ph pw iy ix hph hpw hiy hix
          have h' : ((((ph * PW + pw) * gh + iy) * gw + ix : ℕ) : Int)
              < ((PH * PW * gh * gw : ℕ) : Int) := by exact_mod_cast h
          push_cast at h'
          show 0 ≤ acc.1.2 ∧ acc.1.2 < (gh : Int) * gw * PH * PW
          rw [hidx]
          exact ⟨by positivity, lt_of_lt_of_eq h' (by ring)⟩
        · exact (located_of_plane rois N C PH PW H W n c ph pw hn' hc' hph hpw _ _ p1.1 p1.2).1
        · exact (located_of_plane rois N C PH PW H W n c ph pw hn' hc' hph hpw _ _ p2.1 p2.2).1
        · exact (located_of_plane rois N C PH PW H W n c ph pw hn' hc' hph hpw _ _ p3.1 p3.2).1
        · exact (located_of_plane rois N C PH PW H W n c ph pw hn' hc' hph hpw _ _ p4.1 p4.2).1
    · have h := encode_lt N C PH PW n c ph pw hn' hc' hph hpw
      have h' : ((((n * C + c) * PH + ph) * PW + pw : ℕ) : Int)
          < ((N * C * PH * PW : ℕ) : Int) := by exact_mod_cast h
      push_cast at h'
      show 0 ≤ (n : Int) * C * PW * PH + ((c : Int) * PH * PW + ph * PW + pw) ∧
        (n : Int) * C * PW * PH + ((c : Int) * PH * PW + ph * PW + pw) < (N : Int) * C * PH * PW
      exact ⟨by positivity, lt_of_eq_of_lt (by ring) h'⟩
  · intro e he
    rw [List.mem_append, List.mem_map] at he
    rcases he with he | ⟨i, hi, rfl⟩
    · exact hst e he
    · exact pre_calc_traced_bounds H W PH PW gh gw _ _ _ _ _ _ _ i hi

/-- The scatter-add of one sample records only accesses located in the plane
of its region and channel. -/
theorem backward_sample_located (rois : Int → ℚ) (N C PH PW H W n c ph pw : ℕ) (hn : n < N)
    (hc : c < C) (hph : ph < PH) (hpw : pw < PW) (hH : 1 ≤ H) (hW : 1 ≤ W) (nt : Int) (y x : ℚ)
    (G : Int → ℚ) (st : (Int → ℚ) × List Access)
    (hst : ∀ e ∈ st.2, Access.located rois N ((C : Int) * PH * PW) ((H : Int) * W) nt e) :
    ∀ e ∈ (if (bilinear_interpolate_gradient H W y x).x_low ≥ 0 ∧
          (bilinear_interpolate_gradient H W y x).x_high ≥ 0 ∧
          (bilinear_interpolate_gradient H W y x).y_low ≥ 0 ∧
          (bilinear_interpolate_gradient H W y x).y_high ≥ 0 then
        (G, st.2 ++ [Access.grad_input_write n
            ((roi_batch_ind rois n * ((C : Int) * PH * PW)
                + ((c : Int) * PH * PW + (ph : Int) * PW + pw)) * H * W
              + (bilinear_interpolate_gradient H W y x).y_low * W
              + (bilinear_interpolate_gradient H W y x).x_low),
          Access.grad_input_write n
            ((roi_batch_ind rois n * ((C : Int) * PH * PW)
                + ((c : Int) * PH * PW + (ph : Int) * PW + pw)) * H * W
              + (bilinear_interpolate_gradient H W y x).y_low * W
              + (bilinear_interpolate_gradient H W y x).x_high),
          Access.grad_input_write n
            ((roi_batch_ind rois n * ((C : Int) * PH * PW)
                + ((c : Int) * PH * PW + (ph : Int) * PW + pw)) * H * W
              + (bilinear_interpolate_gradient H W y x).y_high * W
              + (bilinear_interpolate_gradient H W y x).x_low),
          Access.grad_input_write n
            ((roi_batch_ind rois n * ((C : Int) * PH * PW)
                + ((c : Int) * PH * PW + (ph : Int) * PW + pw)) * H * W
              + (bilinear_interpolate_gradient H W y x).y_high * W
              + (bilinear_interpolate_gradient H W y x).x_high)])
        else st).2,
      Access.located rois N ((C : Int) * PH * PW) ((H : Int) * W) nt e := by
  have mv : ∀ off a b : Int,
      Access.located rois N ((C : Int) * PH * PW) ((H : Int) * W) nt
        (Access.grad_input_write n (off + (a + b))) →
      Access.located rois N ((C : Int) * PH * PW) ((H : Int) * W) nt
        (Access.grad_input_write n (off + a + b)) := by
    intro off a b h
    rwa [add_assoc]
  by_cases h : y < -1 ∨ y > ((H : Int) : ℚ) ∨ x < -1 ∨ x > ((W : Int) : ℚ)
  · have hg : ¬ ((bilinear_interpolate_gradient H W y x).x_low ≥ 0 ∧
          (bilinear_interpolate_gradient H W y x).x_high ≥ 0 ∧
          (bilinear_interpolate_gradient H W y x).y_low ≥ 0 ∧
          (bilinear_interpolate_gradient H W y x).y_high ≥ 0) := by
      rw [bilinear_interpolate_gradient_of_empty H W y x h]
      norm_num
    rw [if_neg hg]
    exact hst
  · obtain ⟨b1, b2, b3, b4, b5, b6, b7, b8⟩ :=
      bilinear_interpolate_gradient_bounds H W (by exact_mod_cast hH) (by exact_mod_cast hW)
        y x h
    have c1 := cell_in_plane H W _ _ b1 b2 b5 b6
    have c2 := cell_in_plane H W _ _ b1 b2 b7 b8
    have c3 := cell_in_plane H W _ _ b3 b4 b5 b6
    have c4 := cell_in_plane H W _ _ b3 b4 b7 b8
    split_ifs
    · intro e he
      rw [List.mem_append] at he
      rcases he with he | he
      · exact hst e he
      · simp only [List.mem_cons, List.mem_singleton, List.not_mem_nil, or_false] at he
        rcases he with rfl | rfl | rfl | rfl
        · exact mv _ _ _
            (located_of_plane rois N C PH PW H W n c ph pw hn hc hph hpw _ _ c1.1 c1.2).2
        · exact mv _ _ _
            (located_of_plane rois N C PH PW H W n c ph pw hn hc hph hpw _ _ c2.1 c2.2).2
        · exact mv _ _ _
            (located_of_plane rois N C PH PW H W n c ph pw hn hc hph hpw _ _ c3.1 c3.2).2
        · exact mv _ _ _
            (located_of_plane rois N C PH PW H W n c ph pw hn hc hph hpw _ _ c4.1 c4.2).2
    · exact hst

/-- Every access recorded by the backward kernel is located in the plane of
the image that its region names. -/
theorem backward_trace_located (N C PH PW H W : ℕ) (hC : 1 ≤ C) (hPH : 1 ≤ PH) (hPW : 1 ≤ PW)
    (hH : 1 ≤ H) (hW : 1 ≤ W) (grad_output : Int → ℚ) (scale_h scale_w : ℚ)
    (sampling_ratio : Int) (grad_input rois : Int → ℚ)
    (n_stride c_stride h_stride w_stride : Int) :
    ∀ e ∈ (PSROIAlignBackward_traced ((N : Int) * C * PH * PW) grad_output scale_h scale_w
        ((C : Int) * PH * PW) H W C PH PW sampling_ratio grad_input rois n_stride c_stride
        h_stride w_stride).2,
      Access.located rois N ((C : Int) * PH * PW) ((H : Int) * W) ((N : Int) * C * PH * PW) e := by
  unfold PSROIAlignBackward_traced
  dsimp only
  refine Keeps_forLoop _ _ _ ?_ _ (by intro e he; simp at he)
  intro index hidx st hst
  have hidx' : index < N * C * PH * PW := by exact_mod_cast hidx
  obtain ⟨d1, d2, d3, d4, l1, l2, l3, l4, -⟩ := decode_index N C PH PW hC hPH hPW index hidx'
  simp only [d1, d2, d3, d4]
  refine Keeps_forLoop _ _ _ ?_ _ hst
  intro iy _ st hst
  refine Keeps_forLoop _ _ _ ?_ _ hst
  intro ix _ st hst
  exact backward_sample_located rois N C PH PW H W _ _ _ _ l4 l3 l2 l1 hH hW _ _ _ _ st hst

/-- A located access is inside its buffer when every region names an image of
the batch. -/
theorem located_in_bounds (rois : Int → ℚ) (N B CH HW nt : Int) (hCH : 0 ≤ CH) (hHW : 0 ≤ HW)
    (hb : ∀ n : Int, 0 ≤ n → n < N → 0 ≤ roi_batch_ind rois n ∧ roi_batch_ind rois n < B)
    (e : Access) (h : Access.located rois N CH HW nt e) :
    Access.in_bounds nt (B * CH * HW) e := by
  have key : ∀ n idx : Int, 0 ≤ n → n < N → ∀ ch : Int, 0 ≤ ch → ch < CH →
      (roi_batch_ind rois n * CH + ch) * HW ≤ idx →
      idx < (roi_batch_ind rois n * CH + ch) * HW + HW → 0 ≤ idx ∧ idx < B * CH * HW := by
    intro n idx h0 h1 ch c0 c1 lo hi
    obtain ⟨b0, b1⟩ := hb n h0 h1
    have p1 : 0 ≤ (roi_batch_ind rois n * CH + ch) * HW :=
      mul_nonneg (add_nonneg (mul_nonneg b0 hCH) c0) hHW
    have p2 : (roi_batch_ind rois n + 1) * CH ≤ B * CH :=
      mul_le_mul_of_nonneg_right (by omega) hCH
    have p3 : (roi_batch_ind rois n * CH + ch + 1) * HW ≤ (B * CH) * HW :=
      mul_le_mul_of_nonneg_right (by linarith) hHW
    constructor
    · omega
    · linarith
  cases e with
  | pre_calc_write idx size => exact h
  | pre_calc_read idx size => exact h
  | input_read n idx =>
    obtain ⟨h0, h1, ch, c0, c1, lo, hi⟩ := h
    exact key n idx h0 h1 ch c0 c1 lo hi
  | output_write idx => exact h
  | grad_input_write n idx =>
    obtain ⟨h0, h1, ch, c0, c1, lo, hi⟩ := h
    exact key n idx h0 h1 ch c0 c1 lo hi

/-- An index inside one plane of an image that is not in the batch is outside
the buffer. -/
theorem plane_out_of_range (b B CH HW ch idx : Int) (hHW : 0 ≤ HW) (c0 : 0 ≤ ch)
    (c1 : ch < CH) (hout : b < 0 ∨ B ≤ b) (lo : (b * CH + ch) * HW ≤ idx)
    (hi : idx < (b * CH + ch) * HW + HW) : idx < 0 ∨ B * CH * HW ≤ idx := by
  rcases hout with hneg | hge
  · left
    have p2 : (b + 1) * CH ≤ 0 * CH := mul_le_mul_of_nonneg_right (by omega) (by omega)
    have p3 : (b * CH + ch + 1) * HW ≤ 0 * HW :=
      mul_le_mul_of_nonneg_right (by linarith) hHW
    linarith
  · right
    have p2 : B * CH ≤ b * CH := mul_le_mul_of_nonneg_right hge (by omega)
    have p3 : (B * CH) * HW ≤ (b * CH + ch) * HW :=
      mul_le_mul_of_nonneg_right (by linarith) hHW
    linarith

theorem forLoop_preserves {σ : Type} (P : σ → Prop) (n : Int) (body : Int → σ → σ)
    (h : ∀ (i : ℕ) (s : σ), P s → P (body (i : Int) s)) (s : σ) (hs : P s) :
    P (forLoop n body s) := by
  rw [forLoop_toNat]
  induction n.toNat with
  | zero =>
    rw [Nat.cast_zero, forLoop_zero]
    exact hs
  | succ m ih =>
    rw [forLoop_succ]
    exact h m _ ih

/-- Every entry of the table built from the zero table has its positions inside
one plane. -/
theorem pre_calc_table_in_plane (height width : Int) (hH : 1 ≤ height) (hW : 1 ≤ width)
    (pooled_height pooled_width iy_upper ix_upper : Int) (start_h start_w bsh bsw : ℚ)
    (g1 g2 : Int) (a : Int) :
    PreCalc.in_plane height width
      (pre_calc_for_bilinear_interpolate height width pooled_height pooled_width iy_upper
        ix_upper start_h start_w bsh bsw g1 g2 (fun _ => PreCalc.zero) a) := by
  have hpos : 0 < height * width := by positivity
  unfold pre_calc_for_bilinear_interpolate
  dsimp only
  refine forLoop_preserves (fun st : (Int → PreCalc) × Int =>
    ∀ a, PreCalc.in_plane height width (st.1 a)) _ _ ?_ _ ?_ a
  · intro ph st hst
    refine forLoop_preserves (fun st : (Int → PreCalc) × Int =>
      ∀ a, PreCalc.in_plane height width (st.1 a)) _ _ ?_ _ hst
    intro pw st hst
    refine forLoop_preserves (fun st : (Int → PreCalc) × Int =>
      ∀ a, PreCalc.in_plane height width (st.1 a)) _ _ ?_ _ hst
    intro iy st hst
    refine forLoop_preserves (fun st : (Int → PreCalc) × Int =>
      ∀ a, PreCalc.in_plane height width (st.1 a)) _ _ ?_ _ hst
    intro ix st hst a
    dsimp only
    by_cases e : a = st.2
    · rw [e, Function.update_same]
      exact pre_calc_sample_pos_bounds height width hH hW _ _
    · rw [Function.update_noteq e]
      exact hst a
  · intro a
    exact ⟨⟨le_refl _, hpos⟩, ⟨le_refl _, hpos⟩, ⟨le_refl _, hpos⟩, ⟨le_refl _, hpos⟩⟩

theorem Emits_forLoop {σ τ : Type} (p : τ → Prop) (n : ℕ) (hn : 1 ≤ n)
    (body : Int → σ × List τ → σ × List τ)
    (h : ∀ i : ℕ, i < n → Emits p (body (i : Int))) : Emits p (forLoop (n : Int) body) := by
  obtain ⟨m, rfl⟩ : ∃ m, n = m + 1 := ⟨n - 1, by omega⟩
  clear hn
  induction m with
  | zero =>
    intro st
    have e : forLoop (((0 + 1 : ℕ)) : Int) body st = body ((0 : ℕ) : Int) st := by
      rw [forLoop_succ, Nat.cast_zero, forLoop_zero]
    rw [e]
    exact h 0 (by omega) st
  | succ m ih =>
    intro st
    rw [forLoop_succ]
    obtain ⟨h1, -⟩ := ih (fun i hi => h i (by omega)) st
    obtain ⟨h2, h3⟩ := h (m + 1) (by omega) (forLoop ((m + 1 : ℕ) : Int) body st)
    exact ⟨fun e he => h2 e (h1 e he), h3⟩

theorem Emits_forLoop_each {σ τ : Type} (p : ℕ → τ → Prop) (n : ℕ)
    (body : Int → σ × List τ → σ × List τ)
    (h : ∀ i : ℕ, i < n → Emits (p i) (body (i : Int))) (st : σ × List τ) :
    (∀ e ∈ st.2, e ∈ (forLoop (n : Int) body st).2) ∧
      ∀ j : ℕ, j < n → ∃ e ∈ (forLoop (n : Int) body st).2, p j e := by
  induction n with
  | zero =>
    rw [Nat.cast_zero, forLoop_zero]
    exact ⟨fun e he => he, fun j hj => absurd hj (by omega)⟩
  | succ m ih =>
    rw [forLoop_succ]
    obtain ⟨h1, h1'⟩ := ih (fun i hi => h i (by omega))
    obtain ⟨h2, h3⟩ := h m (by omega) (forLoop (m : Int) body st)
    refine ⟨fun e he => h2 e (h1 e he), fun j hj => ?_⟩
    by_cases hjm : j = m
    · subst hjm
      exact h3
    · obtain ⟨e, he, hp⟩ := h1' j (by omega)
      exact ⟨e, h2 e he, hp⟩

theorem Emits_snoc {τ : Type} (p : τ → Prop) (l0 l : List τ) (ev : τ)
    (h : (∀ e ∈ l0, e ∈ l) ∧ ∃ e ∈ l, p e) :
    (∀ e ∈ l0, e ∈ l ++ [ev]) ∧ ∃ e ∈ l ++ [ev], p e := by
  obtain ⟨h1, e, he, hp⟩ := h
  exact ⟨fun e he => List.mem_append_left _ (h1 e he), e, List.mem_append_left _ he, hp⟩

theorem Emits_prepend {τ : Type} (p : τ → Prop) (l0 m l : List τ)
    (h : (∀ e ∈ l0 ++ m, e ∈ l) ∧ ∃ e ∈ l, p e) :
    (∀ e ∈ l0, e ∈ l) ∧ ∃ e ∈ l, p e :=
  ⟨fun e he => h.1 e (List.mem_append_left _ he), h.2⟩

/-- The forward kernel reads the feature map at least once for every region. -/
theorem forward_trace_reads_each_region (N C PH PW : ℕ) (hC : 1 ≤ C) (hPH : 1 ≤ PH)
    (hPW : 1 ≤ PW) (input : Int → ℚ) (scale_h scale_w : ℚ)
    (channels height width sampling_ratio : Int) (rois : Int → ℚ) (out0 : Int → ℚ)
    (n : ℕ) (hn : n < N) :
    ∃ e ∈ (PSROIAlignForward_traced ((N : Int) * C * PH * PW) input scale_h scale_w
        channels height width C PH PW sampling_ratio rois out0).2,
      ∃ idx, e = Access.input_read n idx := by
  unfold PSROIAlignForward_traced
  dsimp only
  rw [n_rois_eq N C PH PW hC hPH hPW]
  refine (Emits_forLoop_each (fun (i : ℕ) e => ∃ idx, e = Access.input_read (i : Int) idx)
    N _ ?_ _).2 n hn
  intro i hi st
  dsimp only
  have hgh := roi_bin_grid_h_pos rois scale_h PH sampling_ratio i (by exact_mod_cast hPH)
  have hgw := roi_bin_grid_w_pos rois scale_w PW sampling_ratio i (by exact_mod_cast hPW)
  generalize roi_bin_grid_h rois scale_h PH sampling_ratio i = gh at hgh ⊢
  generalize roi_bin_grid_w rois scale_w PW sampling_ratio i = gw at hgw ⊢
  lift gh to ℕ using (by omega)
  lift gw to ℕ using (by omega)
  have hgh' : 1 ≤ gh := by exact_mod_cast hgh
  have hgw' : 1 ≤ gw := by exact_mod_cast hgw
  refine Emits_prepend _ _ _ _ (Emits_forLoop _ C hC _ ?_ (st.1, st.2 ++ _))
  intro c hc st
  dsimp only
  refine Emits_forLoop _ PH hPH _ ?_ ((st.1, 0), st.2)
  intro ph hph
  refine Emits_forLoop _ PW hPW _ ?_
  intro pw hpw st
  dsimp only
  refine Emits_snoc _ _ _ _ (Emits_forLoop _ gh hgh' _ ?_ ((0, st.1.2), st.2))
  intro iy hiy
  refine Emits_forLoop _ gw hgw' _ ?_
  intro ix hix acc
  dsimp only
  exact ⟨fun e he => List.mem_append_left _ he, _,
    List.mem_append_right _ (List.mem_cons_of_mem _ (List.mem_cons_self _ _)), _, rfl⟩

/-! ## Samples inside their bin, pooled values inside the range of the plane -/

theorem plane_min_le (input : Int → ℚ) (offset : Int) (count j : ℕ) (hj : j < count) :
    plane_min input offset count ≤ input (offset + (j : Int)) := by
  unfold plane_min
  induction count with
  | zero => omega
  | succ m ih =>
    rw [List.range_succ, List.foldl_append, List.foldl_cons, List.foldl_nil]
    by_cases h : j = m
    · subst h
      exact min_le_right _ _
    · exact le_trans (min_le_left _ _) (ih (by omega))

theorem le_plane_max (input : Int → ℚ) (offset : Int) (count j : ℕ) (hj : j < count) :
    input (offset + (j : Int)) ≤ plane_max input offset count := by
  unfold plane_max
  induction count with
  | zero => omega
  | succ m ih =>
    rw [List.range_succ, List.foldl_append, List.foldl_cons, List.foldl_nil]
    by_cases h : j = m
    · subst h
      exact le_max_right _ _
    · exact le_trans (ih (by omega)) (le_max_left _ _)

/-- The weights stored for a sample that is not out of bounds are not negative. -/
theorem pre_calc_sample_weights_nonneg (height width : Int) (y x : ℚ)
    (hne : ¬ (y < -1 ∨ y > (height : ℚ) ∨ x < -1 ∨ x > (width : ℚ))) :
    0 ≤ (pre_calc_sample height width y x).w1 ∧ 0 ≤ (pre_calc_sample height width y x).w2 ∧
    0 ≤ (pre_calc_sample height width y x).w3 ∧ 0 ≤ (pre_calc_sample height width y x).w4 := by
  have hyc : (0 : ℚ) ≤ (if y ≤ 0 then 0 else y) := by
    split_ifs with h
    · exact le_refl 0
    · exact le_of_lt (not_le.mp h)
  have hxc : (0 : ℚ) ≤ (if x ≤ 0 then 0 else x) := by
    split_ifs with h
    · exact le_refl 0
    · exact le_of_lt (not_le.mp h)
  obtain ⟨hy0, hy1⟩ := clamped_fraction_bounds height _ hyc
  obtain ⟨hx0, hx1⟩ := clamped_fraction_bounds width _ hxc
  simp only [pre_calc_sample, if_neg hne]
  generalize (if toInt (if y ≤ 0 then 0 else y) ≥ height - 1 then ((height - 1 : Int) : ℚ)
      else if y ≤ 0 then 0 else y)
      - (((if toInt (if y ≤ 0 then 0 else y) ≥ height - 1 then height - 1
        else toInt (if y ≤ 0 then 0 else y) : Int)) : ℚ) = ly at hy0 hy1 ⊢
  generalize (if toInt (if x ≤ 0 then 0 else x) ≥ width - 1 then ((width - 1 : Int) : ℚ)
      else if x ≤ 0 then 0 else x)
      - (((if toInt (if x ≤ 0 then 0 else x) ≥ width - 1 then width - 1
        else toInt (if x ≤ 0 then 0 else x) : Int)) : ℚ) = lx at hx0 hx1 ⊢
  have a1 : 0 ≤ 1 - ly := by linarith
  have a2 : 0 ≤ 1 - lx := by linarith
  exact ⟨mul_nonneg a1 a2, mul_nonneg a1 hx0, mul_nonneg hy0 a2, mul_nonneg hy0 hx0⟩

/-- The value interpolated at a sample that is not out of bounds lies between
any two bounds of the pixels of the plane. -/
theorem pc_value_between (height width : Int) (hH : 1 ≤ height) (hW : 1 ≤ width) (off : Int)
    (input : Int → ℚ) (lo hi : ℚ)
    (hb : ∀ j : Int, 0 ≤ j → j < height * width →
      lo ≤ input (off + j) ∧ input (off + j) ≤ hi) (y x : ℚ)
    (hne : ¬ (y < -1 ∨ y > (height : ℚ) ∨ x < -1 ∨ x > (width : ℚ))) :
    lo ≤ pc_value off input (pre_calc_sample height width y x) ∧
    pc_value off input (pre_calc_sample height width y x) ≤ hi := by
  obtain ⟨p1, p2, p3, p4⟩ := pre_calc_sample_pos_bounds height width hH hW y x
  obtain ⟨n1, n2, n3, n4⟩ := pre_calc_sample_weights_nonneg height width y x hne
  have hs := pre_calc_sample_weight_sum height width y x hne
  obtain ⟨l1, u1⟩ := hb _ p1.1 p1.2
  obtain ⟨l2, u2⟩ := hb _ p2.1 p2.2
  obtain ⟨l3, u3⟩ := hb _ p3.1 p3.2
  obtain ⟨l4, u4⟩ := hb _ p4.1 p4.2
  unfold pc_value
  generalize (pre_calc_sample height width y x).w1 = w1 at n1 hs ⊢
  generalize (pre_calc_sample height width y x).w2 = w2 at n2 hs ⊢
  generalize (pre_calc_sample height width y x).w3 = w3 at n3 hs ⊢
  generalize (pre_calc_sample height width y x).w4 = w4 at n4 hs ⊢
  generalize input (off + (pre_calc_sample height width y x).pos1) = v1 at l1 u1 ⊢
  generalize input (off + (pre_calc_sample height width y x).pos2) = v2 at l2 u2 ⊢
  generalize input (off + (pre_calc_sample height width y x).pos3) = v3 at l3 u3 ⊢
  generalize input (off + (pre_calc_sample height width y x).pos4) = v4 at l4 u4 ⊢
  have e1 := mul_le_mul_of_nonneg_left l1 n1
  have e2 := mul_le_mul_of_nonneg_left l2 n2
  have e3 := mul_le_mul_of_nonneg_left l3 n3
  have e4 := mul_le_mul_of_nonneg_left l4 n4
  have f1 := mul_le_mul_of_nonneg_left u1 n1
  have f2 := mul_le_mul_of_nonneg_left u2 n2
  have f3 := mul_le_mul_of_nonneg_left u3 n3
  have f4 := mul_le_mul_of_nonneg_left u4 n4
  have el : lo = w1 * lo + w2 * lo + w3 * lo + w4 * lo := by
    rw [← add_mul, ← add_mul, ← add_mul, hs, one_mul]
  have eh : hi = w1 * hi + w2 * hi + w3 * hi + w4 * hi := by
    rw [← add_mul, ← add_mul, ← add_mul, hs, one_mul]
  constructor
  · rw [el]
    linarith
  · rw [eh]
    linarith

/-- A sample coordinate along one axis lies strictly inside its bin. -/
theorem sample_in_bin (start bin : ℚ) (g p i : Int) (hbin : 0 < bin) (hi0 : 0 ≤ i)
    (hi : i < g) :
    start + (p : ℚ) * bin < start + (p : ℚ) * bin + ((i : ℚ) + 1 / 2) * bin / (g : ℚ) ∧
    start + (p : ℚ) * bin + ((i : ℚ) + 1 / 2) * bin / (g : ℚ)
      < start + ((p : ℚ) + 1) * bin := by
  have hg : (0 : ℚ) < (g : ℚ) := by exact_mod_cast (by omega : 0 < g)
  have hi0' : (0 : ℚ) ≤ (i : ℚ) := by exact_mod_cast hi0
  have hi' : (i : ℚ) + 1 ≤ (g : ℚ) := by exact_mod_cast (by omega : i + 1 ≤ g)
  have h1 : 0 < ((i : ℚ) + 1 / 2) * bin / (g : ℚ) :=
    div_pos (mul_pos (by linarith) hbin) hg
  have h2 : ((i : ℚ) + 1 / 2) * bin / (g : ℚ) < bin := by
    rw [div_lt_iff₀ hg]
    have : ((i : ℚ) + 1 / 2) * bin < (g : ℚ) * bin :=
      mul_lt_mul_of_pos_right (by linarith) hbin
    linarith
  constructor
  · linarith
  · linarith

theorem bin_size_h_pos (rois : Int → ℚ) (scale_h : ℚ) (pooled_height n : Int)
    (hPH : 1 ≤ pooled_height) : 0 < bin_size_h rois scale_h pooled_height n := by
  unfold bin_size_h
  have h1 := roi_height_ge_one rois scale_h n
  have h2 : (0 : ℚ) < (pooled_height : ℚ) := by exact_mod_cast (by omega : 0 < pooled_height)
  exact div_pos (by linarith) h2

theorem bin_size_w_pos (rois : Int → ℚ) (scale_w : ℚ) (pooled_width n : Int)
    (hPW : 1 ≤ pooled_width) : 0 < bin_size_w rois scale_w pooled_width n := by
  unfold bin_size_w
  have h1 := roi_width_ge_one rois scale_w n
  have h2 : (0 : ℚ) < (pooled_width : ℚ) := by exact_mod_cast (by omega : 0 < pooled_width)
  exact div_pos (by linarith) h2

/-- The bins `0 .. p` of an axis divided in `P` bins end inside the region. -/
theorem bins_inside_region (extent : ℚ) (P p : Int) (hext : 0 ≤ extent) (hp0 : 0 ≤ p)
    (hp : p < P) :
    0 ≤ (p : ℚ) * (extent / (P : ℚ)) ∧ ((p : ℚ) + 1) * (extent / (P : ℚ)) ≤ extent := by
  have hP : (0 : ℚ) < (P : ℚ) := by exact_mod_cast (by omega : 0 < P)
  have hp0' : (0 : ℚ) ≤ (p : ℚ) := by exact_mod_cast hp0
  have hp' : (p : ℚ) + 1 ≤ (P : ℚ) := by exact_mod_cast (by omega : p + 1 ≤ P)
  have hq : 0 ≤ extent / (P : ℚ) := div_nonneg hext (le_of_lt hP)
  constructor
  · exact mul_nonneg hp0' hq
  · calc ((p : ℚ) + 1) * (extent / (P : ℚ)) ≤ (P : ℚ) * (extent / (P : ℚ)) :=
        mul_le_mul_of_nonneg_right hp' hq
      _ = extent := by field_simp

/-- The samples of a region that lies inside the feature map (with the margin
of one pixel that the out-of-bounds test allows) are not out of bounds. -/
theorem sample_not_empty_of_region_inside (rois : Int → ℚ) (scale_h scale_w : ℚ)
    (sampling_ratio n height width : Int) (PH PW ph pw iy ix : ℕ) (hph : ph < PH)
    (hpw : pw < PW)
    (hiy : (iy : Int) < roi_bin_grid_h rois scale_h PH sampling_ratio n)
    (hix : (ix : Int) < roi_bin_grid_w rois scale_w PW sampling_ratio n)
    (h1 : -1 ≤ roi_start_h rois scale_h n)
    (h2 : roi_start_h rois scale_h n + roi_height rois scale_h n ≤ (height : ℚ))
    (h3 : -1 ≤ roi_start_w rois scale_w n)
    (h4 : roi_start_w rois scale_w n + roi_width rois scale_w n ≤ (width : ℚ)) :
    ¬ sample_is_empty height width (sample_y rois scale_h PH sampling_ratio n ph iy)
      (sample_x rois scale_w PW sampling_ratio n pw ix) := by
  have hPH : (1 : Int) ≤ (PH : Int) := by exact_mod_cast (by omega : 1 ≤ PH)
  have hPW : (1 : Int) ≤ (PW : Int) := by exact_mod_cast (by omega : 1 ≤ PW)
  obtain ⟨y1, y2⟩ := sample_in_bin (roi_start_h rois scale_h n) (bin_size_h rois scale_h PH n)
    (roi_bin_grid_h rois scale_h PH sampling_ratio n) ph iy
    (bin_size_h_pos rois scale_h PH n hPH) (by positivity) hiy
  obtain ⟨x1, x2⟩ := sample_in_bin (roi_start_w rois scale_w n) (bin_size_w rois scale_w PW n)
    (roi_bin_grid_w rois scale_w PW sampling_ratio n) pw ix
    (bin_size_w_pos rois scale_w PW n hPW) (by positivity) hix
  obtain ⟨by1, by2⟩ := bins_inside_region (roi_height rois scale_h n) PH ph
    (by linarith [roi_height_ge_one rois scale_h n]) (by positivity) (by exact_mod_cast hph)
  obtain ⟨bx1, bx2⟩ := bins_inside_region (roi_width rois scale_w n) PW pw
    (by linarith [roi_width_ge_one rois scale_w n]) (by positivity) (by exact_mod_cast hpw)
  unfold sample_is_empty sample_y sample_x
  unfold bin_size_h at y1 y2 ⊢
  unfold bin_size_w at x1 x2 ⊢
  intro h
  rcases h with h | h | h | h <;> linarith

/-- C21. Pooled values are convex combinations: for dimensions at least 1 and an
output bin `(n, c, ph, pw)` none of whose `gh * gw` samples is out of bounds, the
value written by `PSROIAlignForward` lies between the minimum and the maximum of
the `height * width` pixels of the source plane, which starts at
`(batch_index(n) * channels + c*PH*PW + ph*PW + pw) * height * width`. -/
theorem forward_convex_combination (N C PH PW H W : ℕ) (hC : 1 ≤ C) (hPH : 1 ≤ PH)
    (hPW : 1 ≤ PW) (hH : 1 ≤ H) (hW : 1 ≤ W) (input : Int → ℚ) (scale_h scale_w : ℚ)
    (channels sampling_ratio : Int) (rois out0 : Int → ℚ) (n c ph pw : ℕ)
    (hn : n < N) (hc : c < C) (hph : ph < PH) (hpw : pw < PW)
    (hne : ∀ iy ix : ℕ, (iy : Int) < roi_bin_grid_h rois scale_h PH sampling_ratio n →
      (ix : Int) < roi_bin_grid_w rois scale_w PW sampling_ratio n →
      ¬ sample_is_empty H W (sample_y rois scale_h PH sampling_ratio n ph iy)
        (sample_x rois scale_w PW sampling_ratio n pw ix)) :
    plane_min input
        ((roi_batch_ind rois n * channels + ((c : Int) * PH * PW + (ph : Int) * PW + pw)) * H * W)
        (H * W)
      ≤ PSROIAlignForward ((N : Int) * C * PH * PW) input scale_h scale_w channels H W C PH PW
        sampling_ratio rois out0 ((((n : Int) * C + c) * PH + ph) * PW + pw) ∧
    PSROIAlignForward ((N : Int) * C * PH * PW) input scale_h scale_w channels H W C PH PW
        sampling_ratio rois out0 ((((n : Int) * C + c) * PH + ph) * PW + pw)
      ≤ plane_max input
        ((roi_batch_ind rois n * channels + ((c : Int) * PH * PW + (ph : Int) * PW + pw)) * H * W)
        (H * W) := by
  have hgh1 := roi_bin_grid_h_pos rois scale_h PH sampling_ratio n (by exact_mod_cast hPH)
  have hgw1 := roi_bin_grid_w_pos rois scale_w PW sampling_ratio n (by exact_mod_cast hPW)
  have hb : ∀ j : Int, 0 ≤ j → j < (H : Int) * W →
      plane_min input
          ((roi_batch_ind rois n * channels + ((c : Int) * PH * PW + (ph : Int) * PW + pw))
            * H * W) (H * W)
        ≤ input ((roi_batch_ind rois n * channels
            + ((c : Int) * PH * PW + (ph : Int) * PW + pw)) * H * W + j) ∧
      input ((roi_batch_ind rois n * channels
            + ((c : Int) * PH * PW + (ph : Int) * PW + pw)) * H * W + j)
        ≤ plane_max input
          ((roi_batch_ind rois n * channels + ((c : Int) * PH * PW + (ph : Int) * PW + pw))
            * H * W) (H * W) := by
    intro j hj0 hj1
    lift j to ℕ using hj0
    have hj : j < H * W := by exact_mod_cast hj1
    exact ⟨plane_min_le _ _ _ j hj, le_plane_max _ _ _ j hj⟩
  have e1 : (((roi_bin_grid_h rois scale_h PH sampling_ratio n).toNat : ℕ) : ℚ)
      = ((roi_bin_grid_h rois scale_h PH sampling_ratio n : Int) : ℚ) := by
    have : (((roi_bin_grid_h rois scale_h PH sampling_ratio n).toNat : ℕ) : Int)
        = roi_bin_grid_h rois scale_h PH sampling_ratio n := Int.toNat_of_nonneg (by omega)
    exact_mod_cast this
  have e2 : (((roi_bin_grid_w rois scale_w PW sampling_ratio n).toNat : ℕ) : ℚ)
      = ((roi_bin_grid_w rois scale_w PW sampling_ratio n : Int) : ℚ) := by
    have : (((roi_bin_grid_w rois scale_w PW sampling_ratio n).toNat : ℕ) : Int)
        = roi_bin_grid_w rois scale_w PW sampling_ratio n := Int.toNat_of_nonneg (by omega)
    exact_mod_cast this
  have hD : (0 : ℚ) < (((roi_bin_grid_h rois scale_h PH sampling_ratio n
      * roi_bin_grid_w rois scale_w PW sampling_ratio n : Int)) : ℚ) := by
    have : 0 < roi_bin_grid_h rois scale_h PH sampling_ratio n
        * roi_bin_grid_w rois scale_w PW sampling_ratio n := mul_pos (by omega) (by omega)
    exact_mod_cast this
  have hconst : ∀ v : ℚ,
      (∑ _iy ∈ Finset.range (roi_bin_grid_h rois scale_h PH sampling_ratio n).toNat,
        ∑ _ix ∈ Finset.range (roi_bin_grid_w rois scale_w PW sampling_ratio n).toNat, v)
      = v * (((roi_bin_grid_h rois scale_h PH sampling_ratio n
          * roi_bin_grid_w rois scale_w PW sampling_ratio n : Int)) : ℚ) := by
    intro v
    simp only [Finset.sum_const, Finset.card_range, nsmul_eq_mul]
    rw [e1, e2]
    push_cast
    ring
  have hin : ∀ iy ∈ Finset.range (roi_bin_grid_h rois scale_h PH sampling_ratio n).toNat,
      (iy : Int) < roi_bin_grid_h rois scale_h PH sampling_ratio n := by
    intro iy hiy
    have := Finset.mem_range.mp hiy
    omega
  have hinw : ∀ ix ∈ Finset.range (roi_bin_grid_w rois scale_w PW sampling_ratio n).toNat,
      (ix : Int) < roi_bin_grid_w rois scale_w PW sampling_ratio n := by
    intro ix hix
    have := Finset.mem_range.mp hix
    omega
  rw [forward_output_eq N C PH PW hC hPH hPW input scale_h scale_w channels H W
    sampling_ratio rois out0 n c ph pw hn hc hph hpw]
  unfold forward_bin_value
  rw [le_div_iff₀ hD, div_le_iff₀ hD, ← hconst, ← hconst]
  constructor
  · apply Finset.sum_le_sum
    intro iy hiy
    apply Finset.sum_le_sum
    intro ix hix
    exact (pc_value_between H W (by exact_mod_cast hH) (by exact_mod_cast hW) _ input _ _ hb _ _
      (hne iy ix (hin iy hiy) (hinw ix hix))).1
  · apply Finset.sum_le_sum
    intro iy hiy
    apply Finset.sum_le_sum
    intro ix hix
    exact (pc_value_between H W (by exact_mod_cast hH) (by exact_mod_cast hW) _ input _ _ hb _ _
      (hne iy ix (hin iy hiy) (hinw ix hix))).2

theorem forward_convex_combination_witness :
    plane_min ramp_plane
        ((roi_batch_ind corner_roi ((0 : ℕ) : Int) * 1
          + ((((0 : ℕ) : Int)) * (1 : ℕ) * (1 : ℕ) + ((0 : ℕ) : Int) * (1 : ℕ) + (0 : ℕ)))
          * (2 : ℕ) * (2 : ℕ)) (2 * 2)
      ≤ PSROIAlignForward (((1 : ℕ) : Int) * (1 : ℕ) * (1 : ℕ) * (1 : ℕ)) ramp_plane 1 1 1
        (2 : ℕ) (2 : ℕ) (1 : ℕ) (1 : ℕ) (1 : ℕ) 1 corner_roi (fun _ => 0)
        ((((((0 : ℕ) : Int)) * (1 : ℕ) + (0 : ℕ)) * (1 : ℕ) + (0 : ℕ)) * (1 : ℕ) + (0 : ℕ)) ∧
    PSROIAlignForward (((1 : ℕ) : Int) * (1 : ℕ) * (1 : ℕ) * (1 : ℕ)) ramp_plane 1 1 1
        (2 : ℕ) (2 : ℕ) (1 : ℕ) (1 : ℕ) (1 : ℕ) 1 corner_roi (fun _ => 0)
        ((((((0 : ℕ) : Int)) * (1 : ℕ) + (0 : ℕ)) * (1 : ℕ) + (0 : ℕ)) * (1 : ℕ) + (0 : ℕ))
      ≤ plane_max ramp_plane
        ((roi_batch_ind corner_roi ((0 : ℕ) : Int) * 1
          + ((((0 : ℕ) : Int)) * (1 : ℕ) * (1 : ℕ) + ((0 : ℕ) : Int) * (1 : ℕ) + (0 : ℕ)))
          * (2 : ℕ) * (2 : ℕ)) (2 * 2) :=
  forward_convex_combination 1 1 1 1 2 2 (by norm_num) (by norm_num) (by norm_num)
    (by norm_num) (by norm_num) ramp_plane 1 1 1 1 corner_roi (fun _ => 0) 0 0 0 0
    (by norm_num) (by norm_num) (by norm_num) (by norm_num)
    (fun iy ix hiy hix => sample_not_empty_of_region_inside corner_roi 1 1 1 _ _ _ 1 1 0 0 iy ix
      (by norm_num) (by norm_num) hiy hix
      (by norm_num [roi_start_h, corner_roi])
      (by norm_num [roi_start_h, roi_height, roi_end_h, corner_roi])
      (by norm_num [roi_start_w, corner_roi])
      (by norm_num [roi_start_w, roi_width, roi_end_w, corner_roi]))

/-- C22. Samples lie strictly inside their bin: for every region `n`, every
`ph < PH`, `pw < PW`, `iy < gh`, `ix < gw`, the sample coordinates computed by
both kernels satisfy `roi_start_h + ph*bin_h < y < roi_start_h + (ph+1)*bin_h`
and `roi_start_w + pw*bin_w < x < roi_start_w + (pw+1)*bin_w`; the forward table
holds at the running index of `(ph, pw, iy, ix)` the record of exactly this
sample; and when `-1 ≤ roi_start_h`, `roi_start_h + roi_height ≤ height`,
`-1 ≤ roi_start_w` and `roi_start_w + roi_width ≤ width`, the sample is not out
of bounds (its weights sum to 1, and for `height, width ≥ 1` the backward helper
returns corner indices that pass its guard). -/
theorem samples_strictly_inside_bin (rois : Int → ℚ) (scale_h scale_w : ℚ)
    (sampling_ratio n : Int) (PH PW ph pw iy ix : ℕ) (hph : ph < PH) (hpw : pw < PW)
    (hiy : (iy : Int) < roi_bin_grid_h rois scale_h PH sampling_ratio n)
    (hix : (ix : Int) < roi_bin_grid_w rois scale_w PW sampling_ratio n) :
    (roi_start_h rois scale_h n + (ph : ℚ) * bin_size_h rois scale_h PH n
        < sample_y rois scale_h PH sampling_ratio n ph iy ∧
      sample_y rois scale_h PH sampling_ratio n ph iy
        < roi_start_h rois scale_h n + ((ph : ℚ) + 1) * bin_size_h rois scale_h PH n) ∧
    (roi_start_w rois scale_w n + (pw : ℚ) * bin_size_w rois scale_w PW n
        < sample_x rois scale_w PW sampling_ratio n pw ix ∧
      sample_x rois scale_w PW sampling_ratio n pw ix
        < roi_start_w rois scale_w n + ((pw : ℚ) + 1) * bin_size_w rois scale_w PW n) ∧
    (∀ height width : Int,
      pre_calc_for_bilinear_interpolate height width PH PW
          (roi_bin_grid_h rois scale_h PH sampling_ratio n)
          (roi_bin_grid_w rois scale_w PW sampling_ratio n)
          (roi_start_h rois scale_h n) (roi_start_w rois scale_w n)
          (bin_size_h rois scale_h PH n) (bin_size_w rois scale_w PW n)
          (roi_bin_grid_h rois scale_h PH sampling_ratio n)
          (roi_bin_grid_w rois scale_w PW sampling_ratio n) (fun _ => PreCalc.zero)
          ((((ph : Int) * PW + pw) * roi_bin_grid_h rois scale_h PH sampling_ratio n + iy)
            * roi_bin_grid_w rois scale_w PW sampling_ratio n + ix)
        = pre_calc_sample height width (sample_y rois scale_h PH sampling_ratio n ph iy)
            (sample_x rois scale_w PW sampling_ratio n pw ix)) ∧
    (∀ height width : Int, -1 ≤ roi_start_h rois scale_h n →
      roi_start_h rois scale_h n + roi_height rois scale_h n ≤ (height : ℚ) →
      -1 ≤ roi_start_w rois scale_w n →
      roi_start_w rois scale_w n + roi_width rois scale_w n ≤ (width : ℚ) →
      ¬ sample_is_empty height width (sample_y rois scale_h PH sampling_ratio n ph iy)
          (sample_x rois scale_w PW sampling_ratio n pw ix) ∧
      (pre_calc_sample height width (sample_y rois scale_h PH sampling_ratio n ph iy)
          (sample_x rois scale_w PW sampling_ratio n pw ix)).w1
        + (pre_calc_sample height width (sample_y rois scale_h PH sampling_ratio n ph iy)
          (sample_x rois scale_w PW sampling_ratio n pw ix)).w2
        + (pre_calc_sample height width (sample_y rois scale_h PH sampling_ratio n ph iy)
          (sample_x rois scale_w PW sampling_ratio n pw ix)).w3
        + (pre_calc_sample height width (sample_y rois scale_h PH sampling_ratio n ph iy)
          (sample_x rois scale_w PW sampling_ratio n pw ix)).w4 = 1 ∧
      (1 ≤ height → 1 ≤ width →
        0 ≤ (bilinear_interpolate_gradient height width
            (sample_y rois scale_h PH sampling_ratio n ph iy)
            (sample_x rois scale_w PW sampling_ratio n pw ix)).y_low ∧
        0 ≤ (bilinear_interpolate_gradient height width
            (sample_y rois scale_h PH sampling_ratio n ph iy)
            (sample_x rois scale_w PW sampling_ratio n pw ix)).y_high ∧
        0 ≤ (bilinear_interpolate_gradient height width
            (sample_y rois scale_h PH sampling_ratio n ph iy)
            (sample_x rois scale_w PW sampling_ratio n pw ix)).x_low ∧
        0 ≤ (bilinear_interpolate_gradient height width
            (sample_y rois scale_h PH sampling_ratio n ph iy)
            (sample_x rois scale_w PW sampling_ratio n pw ix)).x_high)) := by
  have hPH : (1 : Int) ≤ (PH : Int) := by exact_mod_cast (by omega : 1 ≤ PH)
  have hPW : (1 : Int) ≤ (PW : Int) := by exact_mod_cast (by omega : 1 ≤ PW)
  refine ⟨?_, ?_, ?_, ?_⟩
  · have h := sample_in_bin (roi_start_h rois scale_h n) (bin_size_h rois scale_h PH n)
      (roi_bin_grid_h rois scale_h PH sampling_ratio n) ph iy
      (bin_size_h_pos rois scale_h PH n hPH) (by positivity) hiy
    unfold sample_y
    push_cast at h ⊢
    exact h
  · have h := sample_in_bin (roi_start_w rois scale_w n) (bin_size_w rois scale_w PW n)
      (roi_bin_grid_w rois scale_w PW sampling_ratio n) pw ix
      (bin_size_w_pos rois scale_w PW n hPW) (by positivity) hix
    unfold sample_x
    push_cast at h ⊢
    exact h
  · intro height width
    unfold sample_y sample_x
    generalize roi_bin_grid_h rois scale_h PH sampling_ratio n = gh at hiy ⊢
    generalize roi_bin_grid_w rois scale_w PW sampling_ratio n = gw at hix ⊢
    lift gh to ℕ using (by omega)
    lift gw to ℕ using (by omega)
    exact pre_calc_table_entry height width PH PW gh gw _ _ _ _ _ _ _ ph pw iy ix hph hpw
      (by exact_mod_cast hiy) (by exact_mod_cast hix) _ rfl
  · intro height width h1 h2 h3 h4
    have hne := sample_not_empty_of_region_inside rois scale_h scale_w sampling_ratio n height
      width PH PW ph pw iy ix hph hpw hiy hix h1 h2 h3 h4
    refine ⟨hne, pre_calc_sample_weight_sum height width _ _ hne, fun hH hW => ?_⟩
    obtain ⟨b1, -, b3, -, b5, -, b7, -⟩ := bilinear_interpolate_gradient_bounds height width hH hW
      _ _ hne
    exact ⟨b1, b3, b5, b7⟩

theorem samples_strictly_inside_bin_witness :
    (roi_start_h corner_roi 1 0 + ((0 : ℕ) : ℚ) * bin_size_h corner_roi 1 (2 : ℕ) 0
        < sample_y corner_roi 1 (2 : ℕ) 2 0 (0 : ℕ) (1 : ℕ) ∧
      sample_y corner_roi 1 (2 : ℕ) 2 0 (0 : ℕ) (1 : ℕ)
        < roi_start_h corner_roi 1 0 + (((0 : ℕ) : ℚ) + 1) * bin_size_h corner_roi 1 (2 : ℕ) 0) ∧
    (roi_start_w corner_roi 1 0 + ((1 : ℕ) : ℚ) * bin_size_w corner_roi 1 (2 : ℕ) 0
        < sample_x corner_roi 1 (2 : ℕ) 2 0 (1 : ℕ) (0 : ℕ) ∧
      sample_x corner_roi 1 (2 : ℕ) 2 0 (1 : ℕ) (0 : ℕ)
        < roi_start_w corner_roi 1 0 + (((1 : ℕ) : ℚ) + 1) * bin_size_w corner_roi 1 (2 : ℕ) 0) :=
  ⟨(samples_strictly_inside_bin corner_roi 1 1 2 0 2 2 0 1 1 0 (by norm_num) (by norm_num)
      (by norm_num [roi_bin_grid_h]) (by norm_num [roi_bin_grid_w])).1,
    (samples_strictly_inside_bin corner_roi 1 1 2 0 2 2 0 1 1 0 (by norm_num) (by norm_num)
      (by norm_num [roi_bin_grid_h]) (by norm_num [roi_bin_grid_w])).2.1⟩

/-! ## Index arithmetic in 32-bit `int` -/

theorem wrap32_of_range (x : Int) (h0 : -2147483648 ≤ x) (h1 : x ≤ 2147483647) :
    wrap32 x = x := by
  unfold wrap32
  rw [Int.emod_eq_of_lt (by omega) (by omega)]
  omega

theorem wrap32_of_nonneg (x : Int) (h0 : 0 ≤ x) (h1 : x ≤ 2147483647) : wrap32 x = x :=
  wrap32_of_range x (by omega) h1

theorem mul32_of_nonneg (a b : Int) (h0 : 0 ≤ a * b) (h1 : a * b ≤ 2147483647) :
    mul32 a b = a * b := wrap32_of_nonneg _ h0 h1

theorem add32_of_nonneg (a b : Int) (h0 : 0 ≤ a + b) (h1 : a + b ≤ 2147483647) :
    add32 a b = a + b := wrap32_of_nonneg _ h0 h1

theorem roi_bin_grid_h32_eq (rois : Int → ℚ) (scale_h : ℚ) (pooled_height sampling_ratio n : Int)
    (hPH : 1 ≤ pooled_height)
    (h : roi_bin_grid_h rois scale_h pooled_height sampling_ratio n ≤ 2147483647) :
    roi_bin_grid_h32 rois scale_h pooled_height sampling_ratio n
      = roi_bin_grid_h rois scale_h pooled_height sampling_ratio n := by
  have h1 := roi_bin_grid_h_pos rois scale_h pooled_height sampling_ratio n hPH
  unfold roi_bin_grid_h32
  unfold roi_bin_grid_h at h h1 ⊢
  split_ifs with hs
  · rfl
  · rw [if_neg hs] at h h1
    exact wrap32_of_nonneg _ (by omega) h

theorem roi_bin_grid_w32_eq (rois : Int → ℚ) (scale_w : ℚ) (pooled_width sampling_ratio n : Int)
    (hPW : 1 ≤ pooled_width)
    (h : roi_bin_grid_w rois scale_w pooled_width sampling_ratio n ≤ 2147483647) :
    roi_bin_grid_w32 rois scale_w pooled_width sampling_ratio n
      = roi_bin_grid_w rois scale_w pooled_width sampling_ratio n := by
  have h1 := roi_bin_grid_w_pos rois scale_w pooled_width sampling_ratio n hPW
  unfold roi_bin_grid_w32
  unfold roi_bin_grid_w at h h1 ⊢
  split_ifs with hs
  · rfl
  · rw [if_neg hs] at h h1
    exact wrap32_of_nonneg _ (by omega) h

/-- C9, counterexample. With `pooled_height = pooled_width = 1` and
`sampling_ratio = 65536` both grid sizes are `65536 ≥ 1`, but the averaging
denominator `count = roi_bin_grid_h * roi_bin_grid_w`, a product of two `int`,
is `2^32` reduced to 32 bits: it is zero. -/
theorem count_overflows_to_zero :
    (1 : Int) ≤ 1 ∧
    roi_bin_grid_h32 (fun _ => 0) 1 1 65536 0 = 65536 ∧
    roi_bin_grid_w32 (fun _ => 0) 1 1 65536 0 = 65536 ∧
    ((mul32 (roi_bin_grid_h32 (fun _ => 0) 1 1 65536 0)
      (roi_bin_grid_w32 (fun _ => 0) 1 1 65536 0) : Int) : ℚ) = 0 := by
  refine ⟨le_refl _, ?_, ?_, ?_⟩
  · norm_num [roi_bin_grid_h32]
  · norm_num [roi_bin_grid_w32]
  · norm_num [roi_bin_grid_h32, roi_bin_grid_w32, mul32, wrap32]

/-- C9, amended. Sampling-grid size in `int` arithmetic: for
`pooled_height, pooled_width ≥ 1` and a region for which the product of the
exact grid sizes fits in a 32-bit `int`, the `int` `roi_bin_grid_h` of both
kernels is `sampling_ratio` when `sampling_ratio > 0` and
`ceil(roi_height / pooled_height)` otherwise (likewise for the width), both are
at least 1, and `count = roi_bin_grid_h * roi_bin_grid_w` is their exact
product, at least 1 and so not zero. -/
theorem sampling_grid_size (rois : Int → ℚ) (scale_h scale_w : ℚ)
    (pooled_height pooled_width sampling_ratio n : Int)
    (hPH : 1 ≤ pooled_height) (hPW : 1 ≤ pooled_width)
    (hfit : (if sampling_ratio > 0 then sampling_ratio
          else ⌈roi_height rois scale_h n / (pooled_height : ℚ)⌉)
        * (if sampling_ratio > 0 then sampling_ratio
          else ⌈roi_width rois scale_w n / (pooled_width : ℚ)⌉) ≤ 2147483647) :
    roi_bin_grid_h32 rois scale_h pooled_height sampling_ratio n =
      (if sampling_ratio > 0 then sampling_ratio
        else ⌈roi_height rois scale_h n / (pooled_height : ℚ)⌉) ∧
    roi_bin_grid_w32 rois scale_w pooled_width sampling_ratio n =
      (if sampling_ratio > 0 then sampling_ratio
        else ⌈roi_width rois scale_w n / (pooled_width : ℚ)⌉) ∧
    1 ≤ roi_bin_grid_h32 rois scale_h pooled_height sampling_ratio n ∧
    1 ≤ roi_bin_grid_w32 rois scale_w pooled_width sampling_ratio n ∧
    mul32 (roi_bin_grid_h32 rois scale_h pooled_height sampling_ratio n)
        (roi_bin_grid_w32 rois scale_w pooled_width sampling_ratio n)
      = (if sampling_ratio > 0 then sampling_ratio
          else ⌈roi_height rois scale_h n / (pooled_height : ℚ)⌉)
        * (if sampling_ratio > 0 then sampling_ratio
          else ⌈roi_width rois scale_w n / (pooled_width : ℚ)⌉) ∧
    1 ≤ mul32 (roi_bin_grid_h32 rois scale_h pooled_height sampling_ratio n)
        (roi_bin_grid_w32 rois scale_w pooled_width sampling_ratio n) ∧
    ((mul32 (roi_bin_grid_h32 rois scale_h pooled_height sampling_ratio n)
        (roi_bin_grid_w32 rois scale_w pooled_width sampling_ratio n) : Int) : ℚ) ≠ 0 := by
  have h1 := roi_bin_grid_h_pos rois scale_h pooled_height sampling_ratio n hPH
  have h2 := roi_bin_grid_w_pos rois scale_w pooled_width sampling_ratio n hPW
  have e1 : roi_bin_grid_h rois scale_h pooled_height sampling_ratio n =
      (if sampling_ratio > 0 then sampling_ratio
        else ⌈roi_height rois scale_h n / (pooled_height : ℚ)⌉) := by
    simp only [roi_bin_grid_h, toInt_cCeil]
  have e2 : roi_bin_grid_w rois scale_w pooled_width sampling_ratio n =
      (if sampling_ratio > 0 then sampling_ratio
        else ⌈roi_width rois scale_w n / (pooled_width : ℚ)⌉) := by
    simp only [roi_bin_grid_w, toInt_cCeil]
  rw [← e1, ← e2] at hfit ⊢
  have hp : 1 ≤ roi_bin_grid_h rois scale_h pooled_height sampling_ratio n
      * roi_bin_grid_w rois scale_w pooled_width sampling_ratio n := by nlinarith
  have b1 : roi_bin_grid_h rois scale_h pooled_height sampling_ratio n ≤ 2147483647 := by
    nlinarith
  have b2 : roi_bin_grid_w rois scale_w pooled_width sampling_ratio n ≤ 2147483647 := by
    nlinarith
  rw [roi_bin_grid_h32_eq rois scale_h pooled_height sampling_ratio n hPH b1,
    roi_bin_grid_w32_eq rois scale_w pooled_width sampling_ratio n hPW b2,
    mul32_of_nonneg _ _ (by omega) hfit]
  refine ⟨rfl, rfl, h1, h2, rfl, hp, ?_⟩
  have : (0 : Int) < roi_bin_grid_h rois scale_h pooled_height sampling_ratio n
      * roi_bin_grid_w rois scale_w pooled_width sampling_ratio n := by omega
  exact_mod_cast this.ne'

theorem sampling_grid_size_witness :
    1 ≤ roi_bin_grid_h32 (fun _ => 0) 1 7 0 0 ∧ 1 ≤ roi_bin_grid_w32 (fun _ => 0) 1 7 0 0 ∧
    ((mul32 (roi_bin_grid_h32 (fun _ => 0) 1 7 0 0)
      (roi_bin_grid_w32 (fun _ => 0) 1 7 0 0) : Int) : ℚ) ≠ 0 :=
  have h := sampling_grid_size (fun _ => 0) 1 1 7 7 0 0 (by norm_num) (by norm_num)
    (by
      have e : ⌈(1 : ℚ) / 7⌉ = 1 := by
        rw [Int.ceil_eq_iff]
        norm_num
      norm_num [roi_height, roi_width, roi_end_h, roi_start_h, roi_end_w, roi_start_w, e])
  ⟨h.2.2.1, h.2.2.2.1, h.2.2.2.2.2.2⟩

/-- A position `y_low * width + x_low` inside a plane of at most `2^31 - 1`
pixels is computed without overflow. -/
theorem pos_no_wrap (height width a b : Int) (ha0 : 0 ≤ a) (ha1 : a ≤ height - 1)
    (hb0 : 0 ≤ b) (hb1 : b ≤ width - 1) (hfit : height * width ≤ 2147483647) :
    add32 (mul32 a width) b = a * width + b ∧ mul32 a width = a * width := by
  obtain ⟨c0, c1⟩ := cell_in_plane height width a b ha0 ha1 hb0 hb1
  have h2 : 0 ≤ a * width := mul_nonneg ha0 (by omega)
  have e : mul32 a width = a * width := mul32_of_nonneg _ _ h2 (by omega)
  rw [e]
  exact ⟨add32_of_nonneg _ _ c0 (by omega), rfl⟩

/-- The record of a sample computed in `int` is the exact record when the plane
has at most `2^31 - 1` pixels. -/
theorem pre_calc_sample32_eq (height width : Int) (hH : 1 ≤ height) (hW : 1 ≤ width)
    (hfit : height * width ≤ 2147483647) (y x : ℚ) :
    pre_calc_sample32 height width y x = pre_calc_sample height width y x := by
  by_cases h : y < -1 ∨ y > (height : ℚ) ∨ x < -1 ∨ x > (width : ℚ)
  · simp only [pre_calc_sample32, pre_calc_sample, if_pos h]
  · obtain ⟨b1, b2, b3, b4, b5, b6, b7, b8⟩ :=
      bilinear_interpolate_gradient_bounds height width hH hW y x h
    simp only [bilinear_interpolate_gradient, if_neg h] at b1 b2 b3 b4 b5 b6 b7 b8
    simp only [pre_calc_sample32, pre_calc_sample, if_neg h]
    rw [(pos_no_wrap height width _ _ b1 b2 b5 b6 hfit).1,
      (pos_no_wrap height width _ _ b1 b2 b7 b8 hfit).1,
      (pos_no_wrap height width _ _ b3 b4 b5 b6 hfit).1,
      (pos_no_wrap height width _ _ b3 b4 b7 b8 hfit).1]

theorem Agrees_forLoop {α τ : Type} (c k : Int) (n : ℕ)
    (body body' : Int → (α × Int) × τ → (α × Int) × τ)
    (h : ∀ i : ℕ, i < n → Agrees (c + (i : Int) * k) k (body (i : Int)) (body' (i : Int))) :
    Agrees c ((n : Int) * k) (forLoop (n : Int) body) (forLoop (n : Int) body') := by
  induction n with
  | zero =>
    intro st hc
    rw [Nat.cast_zero, forLoop_zero, forLoop_zero]
    exact ⟨rfl, by rw [hc]; ring⟩
  | succ m ih =>
    intro st hc
    rw [forLoop_succ, forLoop_succ]
    obtain ⟨h1, h2⟩ := ih (fun i hi => h i (Nat.lt_succ_of_lt hi)) st hc
    obtain ⟨h3, h4⟩ := h m (Nat.lt_succ_self m) _ h2
    rw [h1]
    refine ⟨h3, ?_⟩
    rw [h4]
    push_cast
    ring

/-- The running index of a table of at most `2^31 - 1` entries is incremented
without overflow. -/
theorem table_index_no_wrap (PH PW gh gw ph pw iy ix : ℕ) (hph : ph < PH) (hpw : pw < PW)
    (hiy : iy < gh) (hix : ix < gw)
    (hfit : (gh : Int) * gw * PH * PW ≤ 2147483647) (idx : Int)
    (hidx : idx = 0 + (ph : Int) * ((PW : Int) * ((gh : Int) * ((gw : Int) * 1)))
      + (pw : Int) * ((gh : Int) * ((gw : Int) * 1)) + (iy : Int) * ((gw : Int) * 1)
      + (ix : Int) * 1) :
    add32 idx 1 = idx + 1 := by
  have h := encode_lt PH PW gh gw ph pw iy ix hph hpw hiy hix
  have h' : ((((ph * PW + pw) * gh + iy) * gw + ix : ℕ) : Int)
      < ((PH * PW * gh * gw : ℕ) : Int) := by exact_mod_cast h
  push_cast at h'
  have e : idx = (((ph : Int) * PW + pw) * gh + iy) * gw + ix := by
    rw [hidx]
    ring
  have e2 : (PH : Int) * PW * gh * gw = (gh : Int) * gw * PH * PW := by ring
  have h0 : (0 : Int) ≤ (((ph : Int) * PW + pw) * gh + iy) * gw + ix := by positivity
  exact add32_of_nonneg _ _ (by omega) (by omega)

/-- The precomputation in `int` arithmetic builds the exact table and writes the
same indices when neither the positions nor the running index overflow. -/
theorem pre_calc_traced32_eq (H W PH PW gh gw : ℕ) (hH : 1 ≤ H) (hW : 1 ≤ W)
    (hplane : (H : Int) * W ≤ 2147483647)
    (hfit : (gh : Int) * gw * PH * PW ≤ 2147483647)
    (start_h start_w bsh bsw : ℚ) (g1 g2 : Int) (tbl : Int → PreCalc) :
    pre_calc_for_bilinear_interpolate_traced32 H W PH PW gh gw start_h start_w bsh bsw g1 g2 tbl
      = pre_calc_for_bilinear_interpolate_traced H W PH PW gh gw start_h start_w bsh bsw g1 g2
          tbl := by
  unfold pre_calc_for_bilinear_interpolate_traced32 pre_calc_for_bilinear_interpolate_traced
  dsimp only
  refine congrArg (fun r : ((Int → PreCalc) × Int) × List Int => (r.1.1, r.2))
    (Agrees_forLoop 0 ((PW : Int) * ((gh : Int) * ((gw : Int) * 1))) PH _ _ ?_ _ rfl).1
  intro ph hph
  refine Agrees_forLoop _ ((gh : Int) * ((gw : Int) * 1)) PW _ _ ?_
  intro pw hpw
  refine Agrees_forLoop _ ((gw : Int) * 1) gh _ _ ?_
  intro iy hiy
  refine Agrees_forLoop _ 1 gw _ _ ?_
  intro ix hix st hc
  dsimp only
  rw [pre_calc_sample32_eq H W (by exact_mod_cast hH) (by exact_mod_cast hW) hplane,
    table_index_no_wrap PH PW gh gw ph pw iy ix hph hpw hiy hix hfit st.1.2 hc]
  exact ⟨rfl, by rw [hc]⟩

theorem roi_batch_ind_shift (rois : Int → ℚ) (n : Int) :
    roi_batch_ind (fun i => rois (n * 5 + i)) 0 = roi_batch_ind rois n := by
  simp [roi_batch_ind]

theorem roi_start_w_shift (rois : Int → ℚ) (s : ℚ) (n : Int) :
    roi_start_w (fun i => rois (n * 5 + i)) s 0 = roi_start_w rois s n := by
  simp [roi_start_w]

theorem roi_start_h_shift (rois : Int → ℚ) (s : ℚ) (n : Int) :
    roi_start_h (fun i => rois (n * 5 + i)) s 0 = roi_start_h rois s n := by
  simp [roi_start_h]

theorem roi_width_shift (rois : Int → ℚ) (s : ℚ) (n : Int) :
    roi_width (fun i => rois (n * 5 + i)) s 0 = roi_width rois s n := by
  simp [roi_width, roi_end_w, roi_start_w]

theorem roi_height_shift (rois : Int → ℚ) (s : ℚ) (n : Int) :
    roi_height (fun i => rois (n * 5 + i)) s 0 = roi_height rois s n := by
  simp [roi_height, roi_end_h, roi_start_h]

theorem bin_size_h_shift (rois : Int → ℚ) (s : ℚ) (P n : Int) :
    bin_size_h (fun i => rois (n * 5 + i)) s P 0 = bin_size_h rois s P n := by
  simp only [bin_size_h, roi_height_shift]

theorem bin_size_w_shift (rois : Int → ℚ) (s : ℚ) (P n : Int) :
    bin_size_w (fun i => rois (n * 5 + i)) s P 0 = bin_size_w rois s P n := by
  simp only [bin_size_w, roi_width_shift]

theorem roi_bin_grid_h32_shift (rois : Int → ℚ) (s : ℚ) (P r n : Int) :
    roi_bin_grid_h32 (fun i => rois (n * 5 + i)) s P r 0 = roi_bin_grid_h32 rois s P r n := by
  simp only [roi_bin_grid_h32, roi_height_shift]

theorem roi_bin_grid_w32_shift (rois : Int → ℚ) (s : ℚ) (P r n : Int) :
    roi_bin_grid_w32 (fun i => rois (n * 5 + i)) s P r 0 = roi_bin_grid_w32 rois s P r n := by
  simp only [roi_bin_grid_w32, roi_width_shift]

/-- The offset `n * 5` of a region in `rois` does not overflow. -/
theorem region_offset_no_wrap (N n : ℕ) (hn : n < N) (h5 : 5 * (N : Int) ≤ 2147483647) :
    mul32 (n : Int) 5 = (n : Int) * 5 := by
  have : (n : Int) < N := by exact_mod_cast hn
  exact mul32_of_nonneg _ _ (by positivity) (by omega)

/-- The offset `index_n` of a region in the output does not overflow. -/
theorem index_n_no_wrap (N C PH PW n : ℕ) (hPH : 1 ≤ PH) (hPW : 1 ≤ PW) (hn : n < N)
    (hnt : (N : Int) * C * PH * PW ≤ 2147483647) :
    mul32 (mul32 (mul32 (n : Int) C) PW) PH = (n : Int) * C * PW * PH := by
  have hn' : (n : Int) + 1 ≤ N := by exact_mod_cast hn
  have hPH' : (1 : Int) ≤ PH := by exact_mod_cast hPH
  have hPW' : (1 : Int) ≤ PW := by exact_mod_cast hPW
  have h0 : (0 : Int) ≤ (n : Int) * C := by positivity
  have h1 : (0 : Int) ≤ (n : Int) * C * PW := by positivity
  have h2 : (0 : Int) ≤ (n : Int) * C * PW * PH := by positivity
  have l1 : (n : Int) * C ≤ (n : Int) * C * PW := le_mul_of_one_le_right h0 hPW'
  have l2 : (n : Int) * C * PW ≤ (n : Int) * C * PW * PH := le_mul_of_one_le_right h1 hPH'
  have l3 : (n : Int) * C * PW * PH ≤ (N : Int) * C * PH * PW := by
    have : (n : Int) * ((C : Int) * PW * PH) ≤ (N : Int) * ((C : Int) * PW * PH) :=
      mul_le_mul_of_nonneg_right (by omega) (by positivity)
    calc (n : Int) * C * PW * PH = (n : Int) * ((C : Int) * PW * PH) := by ring
      _ ≤ (N : Int) * ((C : Int) * PW * PH) := this
      _ = (N : Int) * C * PH * PW := by ring
  rw [mul32_of_nonneg _ _ h0 (by omega), mul32_of_nonneg _ _ h1 (by omega),
    mul32_of_nonneg _ _ h2 (by omega)]

/-- The channel offset of a bin does not overflow. -/
theorem channel_offset_no_wrap (C PH PW c ph pw : ℕ) (hc : c < C) (hph : ph < PH)
    (hpw : pw < PW) (hfit : (C : Int) * PH * PW ≤ 2147483647) :
    mul32 (mul32 (c : Int) PH) PW = (c : Int) * PH * PW ∧
    add32 (add32 ((c : Int) * PH * PW) (mul32 (ph : Int) PW)) pw
      = (c : Int) * PH * PW + (ph : Int) * PW + pw := by
  have hch := channel_lt C PH PW c ph pw hc hph hpw
  have h0 : (0 : Int) ≤ (c : Int) * PH := by positivity
  have h1 : (0 : Int) ≤ (c : Int) * PH * PW := by positivity
  have h2 : (0 : Int) ≤ (ph : Int) * PW := by positivity
  have h3 : (0 : Int) ≤ (pw : Int) := by positivity
  have hPW' : (1 : Int) ≤ PW := by
    have : 1 ≤ PW := by omega
    exact_mod_cast this
  have l1 : (c : Int) * PH ≤ (c : Int) * PH * PW := le_mul_of_one_le_right h0 hPW'
  rw [mul32_of_nonneg _ _ h0 (by omega), mul32_of_nonneg _ _ h1 (by omega),
    mul32_of_nonneg _ _ h2 (by omega),
    add32_of_nonneg ((c : Int) * PH * PW) ((ph : Int) * PW) (by omega) (by omega),
    add32_of_nonneg _ _ (by omega) (by omega)]
  exact ⟨rfl, rfl⟩

theorem channel_nonneg (PH PW c ph pw : ℕ) :
    (0 : Int) ≤ (c : Int) * PH * PW + (ph : Int) * PW + pw := by positivity

/-- The index of an output element does not overflow. -/
theorem output_index_no_wrap (N C PH PW n c ph pw : ℕ) (hn : n < N) (hc : c < C)
    (hph : ph < PH) (hpw : pw < PW) (hnt : (N : Int) * C * PH * PW ≤ 2147483647) :
    add32 ((n : Int) * C * PW * PH) ((c : Int) * PH * PW + (ph : Int) * PW + pw)
      = (n : Int) * C * PW * PH + ((c : Int) * PH * PW + (ph : Int) * PW + pw) := by
  have h := encode_lt N C PH PW n c ph pw hn hc hph hpw
  have h' : ((((n * C + c) * PH + ph) * PW + pw : ℕ) : Int)
      < ((N * C * PH * PW : ℕ) : Int) := by exact_mod_cast h
  push_cast at h'
  have e : (n : Int) * C * PW * PH + ((c : Int) * PH * PW + (ph : Int) * PW + pw)
      = (((n : Int) * C + c) * PH + ph) * PW + pw := by ring
  have h0 : (0 : Int) ≤ (n : Int) * C * PW * PH + ((c : Int) * PH * PW + (ph : Int) * PW + pw) := by
    positivity
  exact add32_of_nonneg _ _ h0 (by omega)

/-- The offset of a plane does not overflow when the plane after the one of the
batch index, in absolute value, ends below `2^31`. -/
theorem plane_offset_no_wrap (b CH off H W : Int) (hoff0 : 0 ≤ off) (hoff1 : off < CH)
    (hH : 1 ≤ H) (hW : 1 ≤ W) (hfit : (|b| + 1) * CH * (H * W) ≤ 2147483647) :
    wrap32 b = b ∧
    mul32 (mul32 (add32 (mul32 b CH) off) H) W = (b * CH + off) * H * W := by
  have hA0 : 0 ≤ |b| := abs_nonneg b
  have hA1 : b ≤ |b| := le_abs_self b
  have hA2 : -|b| ≤ b := neg_abs_le b
  generalize |b| = A at hA0 hA1 hA2 hfit
  have hCH : 1 ≤ CH := by omega
  have hHW : 1 ≤ H * W := by nlinarith
  have hK0 : 0 ≤ (A + 1) * CH := by positivity
  have k1 : (A + 1) * CH ≤ (A + 1) * CH * (H * W) := le_mul_of_one_le_right hK0 hHW
  have k2 : (A + 1) * CH * H ≤ (A + 1) * CH * (H * W) := by
    have : (A + 1) * CH * H ≤ (A + 1) * CH * H * W :=
      le_mul_of_one_le_right (by positivity) hW
    calc (A + 1) * CH * H ≤ (A + 1) * CH * H * W := this
      _ = (A + 1) * CH * (H * W) := by ring
  have hA3 : A + 1 ≤ (A + 1) * CH := le_mul_of_one_le_right (by omega) hCH
  -- b * CH
  have u1 : b * CH ≤ A * CH := mul_le_mul_of_nonneg_right hA1 (by omega)
  have l1 : -(A * CH) ≤ b * CH := by
    have := mul_le_mul_of_nonneg_right hA2 (by omega : (0 : Int) ≤ CH)
    linarith
  have eK : (A + 1) * CH = A * CH + CH := by ring
  -- (b * CH + off) * H
  have u2 : (b * CH + off) * H ≤ ((A + 1) * CH) * H :=
    mul_le_mul_of_nonneg_right (by omega) (by omega)
  have l2 : -(((A + 1) * CH) * H) ≤ (b * CH + off) * H := by
    have := mul_le_mul_of_nonneg_right (by omega : -((A + 1) * CH) ≤ b * CH + off)
      (by omega : (0 : Int) ≤ H)
    linarith
  -- ((b * CH + off) * H) * W
  have u3 : (b * CH + off) * H * W ≤ ((A + 1) * CH * H) * W :=
    mul_le_mul_of_nonneg_right u2 (by omega)
  have l3 : -(((A + 1) * CH * H) * W) ≤ (b * CH + off) * H * W := by
    have := mul_le_mul_of_nonneg_right l2 (by omega : (0 : Int) ≤ W)
    linarith
  have e3 : (A + 1) * CH * H * W = (A + 1) * CH * (H * W) := by ring
  constructor
  · exact wrap32_of_range _ (by omega) (by omega)
  · unfold mul32 add32
    rw [wrap32_of_range (b * CH) (by omega) (by omega),
      wrap32_of_range (b * CH + off) (by omega) (by omega),
      wrap32_of_range ((b * CH + off) * H) (by omega) (by omega),
      wrap32_of_range ((b * CH + off) * H * W) (by omega) (by omega)]

/-- The size of the table does not overflow. -/
theorem table_size_no_wrap (PH PW gh gw : ℕ) (hPH : 1 ≤ PH) (hPW : 1 ≤ PW)
    (hfit : (gh : Int) * gw * PH * PW ≤ 2147483647) :
    mul32 (gh : Int) gw = (gh : Int) * gw ∧
    mul32 (mul32 ((gh : Int) * gw) PH) PW = (gh : Int) * gw * PH * PW := by
  have hPH' : (1 : Int) ≤ PH := by exact_mod_cast hPH
  have hPW' : (1 : Int) ≤ PW := by exact_mod_cast hPW
  have h0 : (0 : Int) ≤ (gh : Int) * gw := by positivity
  have h1 : (0 : Int) ≤ (gh : Int) * gw * PH := by positivity
  have h2 : (0 : Int) ≤ (gh : Int) * gw * PH * PW := by positivity
  have l1 : (gh : Int) * gw ≤ (gh : Int) * gw * PH := le_mul_of_one_le_right h0 hPH'
  have l2 : (gh : Int) * gw * PH ≤ (gh : Int) * gw * PH * PW := le_mul_of_one_le_right h1 hPW'
  rw [mul32_of_nonneg _ _ h0 (by omega), mul32_of_nonneg _ _ h1 (by omega),
    mul32_of_nonneg _ _ h2 (by omega)]
  exact ⟨rfl, rfl⟩

/-- Two states of the bin loop that agree after the sample loops agree after
the write of the output element. -/
theorem Agrees_write (c k : Int) (X X' : (ℚ × Int) × List Access) (o : Int → ℚ) (i : Int)
    (cnt : ℚ) (hX : X = X' ∧ X'.1.2 = c + k) :
    ((Function.update o i (X.1.1 / cnt), X.1.2), X.2 ++ [Access.output_write i])
        = ((Function.update o i (X'.1.1 / cnt), X'.1.2), X'.2 ++ [Access.output_write i]) ∧
      X'.1.2 = c + k := by
  obtain ⟨h1, h2⟩ := hX
  subst h1
  exact ⟨rfl, h2⟩

/-- The factors of a table size that fits in an `int` fit in an `int`. -/
theorem grid_fits (gh gw PH PW : Int) (h1 : 1 ≤ gh) (h2 : 1 ≤ gw) (h3 : 1 ≤ PH) (h4 : 1 ≤ PW)
    (hfit : gh * gw * PH * PW ≤ 2147483647) : gh ≤ 2147483647 ∧ gw ≤ 2147483647 := by
  have a1 : 0 ≤ gh * gw := by positivity
  have a2 : 0 ≤ gh * gw * PH := by positivity
  have l1 : gh * gw ≤ gh * gw * PH := le_mul_of_one_le_right a1 h3
  have l2 : gh * gw * PH ≤ gh * gw * PH * PW := le_mul_of_one_le_right a2 h4
  have l3 : gh ≤ gh * gw := le_mul_of_one_le_right (by omega) h2
  have l4 : gw ≤ gh * gw := le_mul_of_one_le_left (by omega) h1
  constructor <;> omega

/-- The sizes of one image plane and of one image fit in an `int` when the
planes addressed through a batch index do. -/
theorem plane_fits (N C PH PW H W : ℕ) (hN : 1 ≤ N) (hC : 1 ≤ C) (hPH : 1 ≤ PH) (hPW : 1 ≤ PW)
    (b : Int) (hnt : (N : Int) * C * PH * PW ≤ 2147483647)
    (hfit : (|b| + 1) * ((C : Int) * PH * PW) * ((H : Int) * W) ≤ 2147483647) :
    (C : Int) * PH * PW ≤ 2147483647 ∧ (H : Int) * W ≤ 2147483647 ∧
      (1 : Int) ≤ (C : Int) * PH * PW := by
  have hN1 : (1 : Int) ≤ N := by exact_mod_cast hN
  have hCH1 : (1 : Int) ≤ (C : Int) * PH * PW := by
    have : 1 ≤ C * PH * PW := Nat.one_le_iff_ne_zero.mpr (by positivity)
    exact_mod_cast this
  have h0 := abs_nonneg b
  refine ⟨?_, ?_, hCH1⟩
  · have : (1 : Int) * ((C : Int) * PH * PW) ≤ (N : Int) * ((C : Int) * PH * PW) :=
      mul_le_mul_of_nonneg_right hN1 (by positivity)
    have e : (N : Int) * ((C : Int) * PH * PW) = (N : Int) * C * PH * PW := by ring
    omega
  · have h1 : (1 : Int) ≤ (|b| + 1) * ((C : Int) * PH * PW) := by
      have := le_mul_of_one_le_right (by omega : (0 : Int) ≤ |b| + 1) hCH1
      omega
    have : (1 : Int) * ((H : Int) * W)
        ≤ (|b| + 1) * ((C : Int) * PH * PW) * ((H : Int) * W) :=
      mul_le_mul_of_nonneg_right h1 (by positivity)
    omega

/-- The forward kernel in `int` arithmetic makes the accesses and computes the
buffer of the kernel with exact indices when no index computation overflows:
the offsets into `rois` and into the output, the offsets of the planes of the
feature map and the sizes of the tables are at most `2^31 - 1`. -/
theorem PSROIAlignForward_traced32_eq (N C PH PW H W : ℕ) (hC : 1 ≤ C) (hPH : 1 ≤ PH)
    (hPW : 1 ≤ PW) (hH : 1 ≤ H) (hW : 1 ≤ W) (input : Int → ℚ) (scale_h scale_w : ℚ)
    (sampling_ratio : Int) (rois : Int → ℚ) (out0 : Int → ℚ)
    (h5 : 5 * (N : Int) ≤ 2147483647)
    (hnt : (N : Int) * C * PH * PW ≤ 2147483647)
    (hplane : ∀ n : ℕ, n < N →
      (|roi_batch_ind rois n| + 1) * ((C : Int) * PH * PW) * ((H : Int) * W) ≤ 2147483647)
    (hgrid : ∀ n : ℕ, n < N →
      roi_bin_grid_h rois scale_h PH sampling_ratio n
        * roi_bin_grid_w rois scale_w PW sampling_ratio n * PH * PW ≤ 2147483647) :
    PSROIAlignForward_traced32 ((N : Int) * C * PH * PW) input scale_h scale_w
        ((C : Int) * PH * PW) H W C PH PW sampling_ratio rois out0
      = PSROIAlignForward_traced ((N : Int) * C * PH * PW) input scale_h scale_w
        ((C : Int) * PH * PW) H W C PH PW sampling_ratio rois out0 := by
  unfold PSROIAlignForward_traced32 PSROIAlignForward_traced
  dsimp only
  rw [n_rois_eq N C PH PW hC hPH hPW]
  refine forLoop_congr N _ _ ?_ _
  intro n hn st
  dsimp only
  have hC' : (1 : Int) ≤ C := by exact_mod_cast hC
  have hPH' : (1 : Int) ≤ PH := by exact_mod_cast hPH
  have hPW' : (1 : Int) ≤ PW := by exact_mod_cast hPW
  have hH' : (1 : Int) ≤ H := by exact_mod_cast hH
  have hW' : (1 : Int) ≤ W := by exact_mod_cast hW
  obtain ⟨hCHfit, hHWfit, hCH1⟩ := plane_fits N C PH PW H W (by omega) hC hPH hPW
    (roi_batch_ind rois n) hnt (hplane n hn)
  have hgh1 := roi_bin_grid_h_pos rois scale_h PH sampling_ratio n hPH'
  have hgw1 := roi_bin_grid_w_pos rois scale_w PW sampling_ratio n hPW'
  have hg := hgrid n hn
  obtain ⟨hghfit, hgwfit⟩ := grid_fits _ _ _ _ hgh1 hgw1 hPH' hPW' hg
  rw [region_offset_no_wrap N n hn h5]
  simp only [roi_batch_ind_shift, roi_start_w_shift, roi_start_h_shift, bin_size_h_shift,
    bin_size_w_shift, roi_bin_grid_h32_shift, roi_bin_grid_w32_shift]
  rw [roi_bin_grid_h32_eq rois scale_h PH sampling_ratio n hPH' hghfit,
    roi_bin_grid_w32_eq rois scale_w PW sampling_ratio n hPW' hgwfit,
    index_n_no_wrap N C PH PW n hPH hPW hn hnt]
  have hrbi : wrap32 (roi_batch_ind rois n) = roi_batch_ind rois n :=
    (plane_offset_no_wrap (roi_batch_ind rois n) ((C : Int) * PH * PW) 0 H W (le_refl _)
      (by omega : (0 : Int) < (C : Int) * PH * PW) hH' hW' (hplane n hn)).1
  rw [hrbi]
  have hp := hplane n hn
  generalize roi_batch_ind rois n = rbi at hp ⊢
  generalize roi_bin_grid_h rois scale_h PH sampling_ratio n = gh at hgh1 hg ⊢
  generalize roi_bin_grid_w rois scale_w PW sampling_ratio n = gw at hgw1 hg ⊢
  lift gh to ℕ using (by omega)
  lift gw to ℕ using (by omega)
  obtain ⟨ecount, esize⟩ := table_size_no_wrap PH PW gh gw hPH hPW hg
  rw [ecount, esize, pre_calc_traced32_eq H W PH PW gh gw hH hW hHWfit hg]
  refine forLoop_congr C _ _ ?_ _
  intro c hc st
  dsimp only
  refine congrArg (fun r : ((Int → ℚ) × Int) × List Access => (r.1.1, r.2))
    (Agrees_forLoop 0 ((PW : Int) * ((gh : Int) * ((gw : Int) * 1))) PH _ _ ?_ _ rfl).1
  intro ph hph
  refine Agrees_forLoop _ ((gh : Int) * ((gw : Int) * 1)) PW _ _ ?_
  intro pw hpw st hcnt
  dsimp only
  obtain ⟨eco, eoff⟩ := channel_offset_no_wrap C PH PW c ph pw hc hph hpw hCHfit
  have hch := channel_lt C PH PW c ph pw hc hph hpw
  have hch0 := channel_nonneg PH PW c ph pw
  rw [eco, eoff, output_index_no_wrap N C PH PW n c ph pw hn hc hph hpw hnt,
    (plane_offset_no_wrap rbi ((C : Int) * PH * PW) _ H W hch0 hch hH' hW' hp).2]
  refine Agrees_write _ _ _ _ _ _ _ (Agrees_forLoop _ ((gw : Int) * 1) gh _ _ ?_ _ hcnt)
  intro iy hiy
  refine Agrees_forLoop _ 1 gw _ _ ?_
  intro ix hix acc hacc
  dsimp only
  rw [table_index_no_wrap PH PW gh gw ph pw iy ix hph hpw hiy hix hg acc.1.2 hacc]
  exact ⟨rfl, by rw [hacc]⟩

/-- The offset of an element of the upstream gradient does not overflow when
the strides are not negative and the largest offset is below `2^31`. -/
theorem stride_offset_no_wrap (N C PH PW n c ph pw : ℕ) (hn : n < N) (hc : c < C)
    (hph : ph < PH) (hpw : pw < PW) (n_stride c_stride h_stride w_stride : Int)
    (s1 : 0 ≤ n_stride) (s2 : 0 ≤ c_stride) (s3 : 0 ≤ h_stride) (s4 : 0 ≤ w_stride)
    (hfit : (N : Int) * n_stride + (C : Int) * c_stride + (PH : Int) * h_stride
      + (PW : Int) * w_stride ≤ 2147483647) (grad_output : Int → ℚ) :
    grad_output_this_bin32 grad_output n_stride c_stride h_stride w_stride n c ph pw
      = grad_output_this_bin grad_output n_stride c_stride h_stride w_stride n c ph pw := by
  have hn' : (n : Int) ≤ N := by exact_mod_cast hn.le
  have hc' : (c : Int) ≤ C := by exact_mod_cast hc.le
  have hph' : (ph : Int) ≤ PH := by exact_mod_cast hph.le
  have hpw' : (pw : Int) ≤ PW := by exact_mod_cast hpw.le
  have a1 : (0 : Int) ≤ (n : Int) * n_stride := mul_nonneg (by positivity) s1
  have a2 : (0 : Int) ≤ (c : Int) * c_stride := mul_nonneg (by positivity) s2
  have a3 : (0 : Int) ≤ (ph : Int) * h_stride := mul_nonneg (by positivity) s3
  have a4 : (0 : Int) ≤ (pw : Int) * w_stride := mul_nonneg (by positivity) s4
  have b1 : (n : Int) * n_stride ≤ (N : Int) * n_stride := mul_le_mul_of_nonneg_right hn' s1
  have b2 : (c : Int) * c_stride ≤ (C : Int) * c_stride := mul_le_mul_of_nonneg_right hc' s2
  have b3 : (ph : Int) * h_stride ≤ (PH : Int) * h_stride :=
    mul_le_mul_of_nonneg_right hph' s3
  have b4 : (pw : Int) * w_stride ≤ (PW : Int) * w_stride :=
    mul_le_mul_of_nonneg_right hpw' s4
  have t1 : (0 : Int) ≤ (N : Int) * n_stride := mul_nonneg (by positivity) s1
  have t2 : (0 : Int) ≤ (C : Int) * c_stride := mul_nonneg (by positivity) s2
  have t3 : (0 : Int) ≤ (PH : Int) * h_stride := mul_nonneg (by positivity) s3
  have t4 : (0 : Int) ≤ (PW : Int) * w_stride := mul_nonneg (by positivity) s4
  unfold grad_output_this_bin32 grad_output_this_bin
  rw [mul32_of_nonneg _ _ a1 (by omega), mul32_of_nonneg _ _ a2 (by omega),
    mul32_of_nonneg _ _ a3 (by omega), mul32_of_nonneg _ _ a4 (by omega),
    add32_of_nonneg ((n : Int) * n_stride) ((c : Int) * c_stride) (by omega) (by omega),
    add32_of_nonneg ((n : Int) * n_stride + (c : Int) * c_stride) ((ph : Int) * h_stride)
      (by omega) (by omega),
    add32_of_nonneg _ _ (by omega) (by omega)]

/-- The scatter-add of one sample with the products `y_low * width` computed in
`int` is the exact one when the plane has at most `2^31 - 1` pixels. -/
theorem backward_sample32_eq (H W : Int) (hH : 1 ≤ H) (hW : 1 ≤ W)
    (hfit : H * W ≤ 2147483647) (off n : Int) (y x g1 g2 g3 g4 : ℚ)
    (st : (Int → ℚ) × List Access) :
    (if (bilinear_interpolate_gradient H W y x).x_low ≥ 0 ∧
          (bilinear_interpolate_gradient H W y x).x_high ≥ 0 ∧
          (bilinear_interpolate_gradient H W y x).y_low ≥ 0 ∧
          (bilinear_interpolate_gradient H W y x).y_high ≥ 0 then
        (add (add (add (add st.1
          (off + mul32 (bilinear_interpolate_gradient H W y x).y_low W
            + (bilinear_interpolate_gradient H W y x).x_low) g1)
          (off + mul32 (bilinear_interpolate_gradient H W y x).y_low W
            + (bilinear_interpolate_gradient H W y x).x_high) g2)
          (off + mul32 (bilinear_interpolate_gradient H W y x).y_high W
            + (bilinear_interpolate_gradient H W y x).x_low) g3)
          (off + mul32 (bilinear_interpolate_gradient H W y x).y_high W
            + (bilinear_interpolate_gradient H W y x).x_high) g4,
          st.2 ++ [Access.grad_input_write n
              (off + mul32 (bilinear_interpolate_gradient H W y x).y_low W
                + (bilinear_interpolate_gradient H W y x).x_low),
            Access.grad_input_write n
              (off + mul32 (bilinear_interpolate_gradient H W y x).y_low W
                + (bilinear_interpolate_gradient H W y x).x_high),
            Access.grad_input_write n
              (off + mul32 (bilinear_interpolate_gradient H W y x).y_high W
                + (bilinear_interpolate_gradient H W y x).x_low),
            Access.grad_input_write n
              (off + mul32 (bilinear_interpolate_gradient H W y x).y_high W
                + (bilinear_interpolate_gradient H W y x).x_high)])
      else st)
    = (if (bilinear_interpolate_gradient H W y x).x_low ≥ 0 ∧
          (bilinear_interpolate_gradient H W y x).x_high ≥ 0 ∧
          (bilinear_interpolate_gradient H W y x).y_low ≥ 0 ∧
          (bilinear_interpolate_gradient H W y x).y_high ≥ 0 then
        (add (add (add (add st.1
          (off + (bilinear_interpolate_gradient H W y x).y_low * W
            + (bilinear_interpolate_gradient H W y x).x_low) g1)
          (off + (bilinear_interpolate_gradient H W y x).y_low * W
            + (bilinear_interpolate_gradient H W y x).x_high) g2)
          (off + (bilinear_interpolate_gradient H W y x).y_high * W
            + (bilinear_interpolate_gradient H W y x).x_low) g3)
          (off + (bilinear_interpolate_gradient H W y x).y_high * W
            + (bilinear_interpolate_gradient H W y x).x_high) g4,
          st.2 ++ [Access.grad_input_write n
              (off + (bilinear_interpolate_gradient H W y x).y_low * W
                + (bilinear_interpolate_gradient H W y x).x_low),
            Access.grad_input_write n
              (off + (bilinear_interpolate_gradient H W y x).y_low * W
                + (bilinear_interpolate_gradient H W y x).x_high),
            Access.grad_input_write n
              (off + (bilinear_interpolate_gradient H W y x).y_high * W
                + (bilinear_interpolate_gradient H W y x).x_low),
            Access.grad_input_write n
              (off + (bilinear_interpolate_gradient H W y x).y_high * W
                + (bilinear_interpolate_gradient H W y x).x_high)])
      else st) := by
  by_cases h : y < -1 ∨ y > (H : ℚ) ∨ x < -1 ∨ x > (W : ℚ)
  · have hg : ¬ ((bilinear_interpolate_gradient H W y x).x_low ≥ 0 ∧
          (bilinear_interpolate_gradient H W y x).x_high ≥ 0 ∧
          (bilinear_interpolate_gradient H W y x).y_low ≥ 0 ∧
          (bilinear_interpolate_gradient H W y x).y_high ≥ 0) := by
      rw [bilinear_interpolate_gradient_of_empty H W y x h]
      norm_num
    rw [if_neg hg, if_neg hg]
  · obtain ⟨b1, b2, b3, b4, b5, b6, -, -⟩ := bilinear_interpolate_gradient_bounds H W hH hW y x h
    rw [(pos_no_wrap H W _ _ b1 b2 b5 b6 hfit).2, (pos_no_wrap H W _ _ b3 b4 b5 b6 hfit).2]

/-- The backward kernel in `int` arithmetic makes the accesses and computes the
buffer of the kernel with exact indices when no index computation overflows. -/
theorem PSROIAlignBackward_traced32_eq (N C PH PW H W : ℕ) (hC : 1 ≤ C) (hPH : 1 ≤ PH)
    (hPW : 1 ≤ PW) (hH : 1 ≤ H) (hW : 1 ≤ W) (grad_output : Int → ℚ) (scale_h scale_w : ℚ)
    (sampling_ratio : Int) (grad_input rois : Int → ℚ)
    (n_stride c_stride h_stride w_stride : Int)
    (h5 : 5 * (N : Int) ≤ 2147483647)
    (hnt : (N : Int) * C * PH * PW ≤ 2147483647)
    (hplane : ∀ n : ℕ, n < N →
      (|roi_batch_ind rois n| + 1) * ((C : Int) * PH * PW) * ((H : Int) * W) ≤ 2147483647)
    (hgrid : ∀ n : ℕ, n < N →
      roi_bin_grid_h rois scale_h PH sampling_ratio n
        * roi_bin_grid_w rois scale_w PW sampling_ratio n * PH * PW ≤ 2147483647)
    (s1 : 0 ≤ n_stride) (s2 : 0 ≤ c_stride) (s3 : 0 ≤ h_stride) (s4 : 0 ≤ w_stride)
    (hstr : (N : Int) * n_stride + (C : Int) * c_stride + (PH : Int) * h_stride
      + (PW : Int) * w_stride ≤ 2147483647) :
    PSROIAlignBackward_traced32 ((N : Int) * C * PH * PW) grad_output scale_h scale_w
        ((C : Int) * PH * PW) H W C PH PW sampling_ratio grad_input rois n_stride c_stride
        h_stride w_stride
      = PSROIAlignBackward_traced ((N : Int) * C * PH * PW) grad_output scale_h scale_w
        ((C : Int) * PH * PW) H W C PH PW sampling_ratio grad_input rois n_stride c_stride
        h_stride w_stride := by
  unfold PSROIAlignBackward_traced32 PSROIAlignBackward_traced
  dsimp only
  have ent : (N : Int) * C * PH * PW = ((N * C * PH * PW : ℕ) : Int) := by
    push_cast
    ring
  rw [ent]
  refine forLoop_congr (N * C * PH * PW) _ _ ?_ _
  intro index hidx st
  dsimp only
  obtain ⟨d1, d2, d3, d4, l1, l2, l3, l4, -⟩ := decode_index N C PH PW hC hPH hPW index hidx
  simp only [d1, d2, d3, d4]
  generalize index / PW / PH / C = n at l4 ⊢
  generalize index / PW / PH % C = c at l3 ⊢
  generalize index / PW % PH = ph at l2 ⊢
  generalize index % PW = pw at l1 ⊢
  have hPH' : (1 : Int) ≤ PH := by exact_mod_cast hPH
  have hPW' : (1 : Int) ≤ PW := by exact_mod_cast hPW
  have hH' : (1 : Int) ≤ H := by exact_mod_cast hH
  have hW' : (1 : Int) ≤ W := by exact_mod_cast hW
  obtain ⟨hCHfit, hHWfit, hCH1⟩ := plane_fits N C PH PW H W (by omega) hC hPH hPW
    (roi_batch_ind rois n) hnt (hplane n l4)
  have hgh1 := roi_bin_grid_h_pos rois scale_h PH sampling_ratio n hPH'
  have hgw1 := roi_bin_grid_w_pos rois scale_w PW sampling_ratio n hPW'
  have hg := hgrid n l4
  obtain ⟨hghfit, hgwfit⟩ := grid_fits _ _ _ _ hgh1 hgw1 hPH' hPW' hg
  obtain ⟨eco, eoff⟩ := channel_offset_no_wrap C PH PW c ph pw l3 l2 l1 hCHfit
  have hch := channel_lt C PH PW c ph pw l3 l2 l1
  have hch0 := channel_nonneg PH PW c ph pw
  rw [region_offset_no_wrap N n l4 h5]
  simp only [roi_batch_ind_shift, roi_start_w_shift, roi_start_h_shift, bin_size_h_shift,
    bin_size_w_shift, roi_bin_grid_h32_shift, roi_bin_grid_w32_shift]
  rw [roi_bin_grid_h32_eq rois scale_h PH sampling_ratio n hPH' hghfit]
  rw [roi_bin_grid_w32_eq rois scale_w PW sampling_ratio n hPW' hgwfit]
  rw [eco]
  rw [eoff]
  have hrbi : wrap32 (roi_batch_ind rois n) = roi_batch_ind rois n :=
    (plane_offset_no_wrap (roi_batch_ind rois n) ((C : Int) * PH * PW) 0 H W (le_refl _)
      (by omega : (0 : Int) < (C : Int) * PH * PW) hH' hW' (hplane n l4)).1
  rw [hrbi]
  have hoff := (plane_offset_no_wrap (roi_batch_ind rois n) ((C : Int) * PH * PW)
    ((c : Int) * PH * PW + (ph : Int) * PW + pw) H W hch0 hch hH' hW' (hplane n l4)).2
  rw [hoff]
  have hstride := stride_offset_no_wrap N C PH PW n c ph pw l4 l3 l2 l1 n_stride c_stride
    h_stride w_stride s1 s2 s3 s4 hstr grad_output
  rw [hstride]
  generalize roi_bin_grid_h rois scale_h PH sampling_ratio n = gh at hgh1 hg ⊢
  generalize roi_bin_grid_w rois scale_w PW sampling_ratio n = gw at hgw1 hg ⊢
  lift gh to ℕ using (by omega)
  lift gw to ℕ using (by omega)
  rw [(table_size_no_wrap PH PW gh gw hPH hPW hg).1]
  refine forLoop_congr gh _ _ ?_ _
  intro iy _ st
  refine forLoop_congr gw _ _ ?_ _
  intro ix _ st
  exact backward_sample32_eq H W hH' hW' hHWfit _ _ _ _ _ _ _ _ st

theorem forLoop_snd_congr {σ σ' τ : Type} (n : Int) (body : Int → σ × τ → σ × τ)
    (body' : Int → σ' × τ → σ' × τ)
    (h : ∀ (i : ℕ) (s : σ × τ) (s' : σ' × τ), s.2 = s'.2 →
      (body (i : Int) s).2 = (body' (i : Int) s').2)
    (s : σ × τ) (s' : σ' × τ) (hs : s.2 = s'.2) :
    (forLoop n body s).2 = (forLoop n body' s').2 := by
  rw [forLoop_toNat n body, forLoop_toNat n body']
  induction n.toNat with
  | zero =>
    rw [Nat.cast_zero, forLoop_zero, forLoop_zero]
    exact hs
  | succ m ih =>
    rw [forLoop_succ, forLoop_succ]
    exact h m _ _ ih

/-- The accesses recorded by the backward kernel do not depend on the upstream
gradient, on its strides or on the contents of the gradient buffer. -/
theorem PSROIAlignBackward_traced32_accesses (nthreads : Int) (g g' : Int → ℚ)
    (scale_h scale_w : ℚ)
    (channels height width out_channels pooled_height pooled_width sampling_ratio : Int)
    (G G' rois : Int → ℚ) (n_stride c_stride h_stride w_stride : Int)
    (n_stride' c_stride' h_stride' w_stride' : Int) :
    (PSROIAlignBackward_traced32 nthreads g scale_h scale_w channels height width out_channels
        pooled_height pooled_width sampling_ratio G rois n_stride c_stride h_stride w_stride).2
      = (PSROIAlignBackward_traced32 nthreads g' scale_h scale_w channels height width
        out_channels pooled_height pooled_width sampling_ratio G' rois n_stride' c_stride'
        h_stride' w_stride').2 := by
  unfold PSROIAlignBackward_traced32
  dsimp only
  refine forLoop_snd_congr _ _ _ ?_ _ _ rfl
  intro index s s' hs
  refine forLoop_snd_congr _ _ _ ?_ _ _ hs
  intro iy s s' hs
  refine forLoop_snd_congr _ _ _ ?_ _ _ hs
  intro ix s s' hs
  dsimp only
  split_ifs
  · rw [hs]
  · exact hs

/-- The planes addressed through batch indices inside `[0, B)` end below `2^31`
when the array of `B` images does. -/
theorem plane_fits_of_batch (B CH HW b : Int) (hCH : 0 ≤ CH) (hHW : 0 ≤ HW) (hb0 : 0 ≤ b)
    (hb1 : b < B) (hM : B * CH * HW ≤ 2147483647) : (|b| + 1) * CH * HW ≤ 2147483647 := by
  rw [abs_of_nonneg hb0]
  have h1 : (b + 1) * CH ≤ B * CH := mul_le_mul_of_nonneg_right (by omega) hCH
  have h2 : (b + 1) * CH * HW ≤ B * CH * HW := mul_le_mul_of_nonneg_right h1 hHW
  omega

/-- C19, counterexample. One region `(0, 65535, 65535, 65536, 65536)` on a
feature map `[1, 1, 65536, 65536]` with `out_channels = pooled_height =
pooled_width = sampling_ratio = 1`: all dimensions are at least 1,
`channels = out_channels * pooled_height * pooled_width` and the batch index 0
is in `[0, 1)`.  The only sample is `(65535.5, 65535.5)`, the position
`65535 * 65536 + 65535 = 2^32 - 1` is stored in an `int` as `-1`, outside
`[0, height * width)`, so that `PSROIAlignForward` reads and
`PSROIAlignBackward` writes at linear index `-1`, outside the array. -/
theorem position_overflow_leaves_array :
    roi_batch_ind last_pixel_roi 0 = 0 ∧
    ((1 : Int) = 1 * 1 * 1) ∧
    (pre_calc_sample32 65536 65536 (65535 + 1 / 2) (65535 + 1 / 2)).pos1 = -1 ∧
    ¬ PreCalc.in_plane 65536 65536
      (pre_calc_sample32 65536 65536 (65535 + 1 / 2) (65535 + 1 / 2)) ∧
    Access.input_read 0 (-1) ∈ (PSROIAlignForward_traced32 1 (fun _ => 0) 1 1 1 65536 65536
        1 1 1 1 last_pixel_roi (fun _ => 0)).2 ∧
    Access.grad_input_write 0 (-1) ∈ (PSROIAlignBackward_traced32 1 (fun _ => 1) 1 1 1 65536
        65536 1 1 1 1 (fun _ => 0) last_pixel_roi 1 1 1 1).2 ∧
    ¬ Access.in_bounds 1 (1 * 1 * 65536 * 65536) (Access.input_read 0 (-1)) ∧
    ¬ Access.in_bounds 1 (1 * 1 * 65536 * 65536) (Access.grad_input_write 0 (-1)) := by
  have f1 : ⌊(65535 : ℚ) + 1 / 2⌋ = 65535 := by
    rw [Int.floor_eq_iff]
    norm_num
  have f2 : ⌊(131071 : ℚ) / 2⌋ = 65535 := by
    rw [Int.floor_eq_iff]
    norm_num
  have hpos : (pre_calc_sample32 65536 65536 (65535 + 1 / 2) (65535 + 1 / 2)).pos1 = -1 := by
    norm_num [pre_calc_sample32, toInt, f1, f2, add32, mul32, wrap32]
  refine ⟨?_, ?_, hpos, ?_, ?_, ?_, ?_, ?_⟩
  · norm_num [roi_batch_ind, last_pixel_roi, toInt]
  · norm_num
  · intro h
    have := h.1.1
    rw [hpos] at this
    omega
  · simp only [PSROIAlignForward_traced32, pre_calc_for_bilinear_interpolate_traced32, forLoop,
      List.range, List.range.loop, roi_bin_grid_h32, roi_bin_grid_w32, Int.tdiv, List.foldl]
    norm_num [last_pixel_roi, roi_batch_ind, roi_start_w, roi_start_h, roi_end_w, roi_end_h,
      roi_width, roi_height, bin_size_h, bin_size_w, toInt, add32, mul32, wrap32,
      pre_calc_sample32, f1, f2]
  · simp only [PSROIAlignBackward_traced32, forLoop, List.range, List.range.loop,
      roi_bin_grid_h32, roi_bin_grid_w32, Int.tdiv, Int.tmod, List.foldl]
    norm_num [grad_output_this_bin32, last_pixel_roi, roi_batch_ind, roi_start_w, roi_start_h,
      roi_end_w, roi_end_h, roi_width, roi_height, bin_size_h, bin_size_w, toInt, add32, mul32,
      wrap32, bilinear_interpolate_gradient, f1, f2]
  · norm_num [Access.in_bounds]
  · norm_num [Access.in_bounds]

/-- C19, amended. All array accesses are in bounds under the preconditions and
without `int` overflow: for dimensions at least 1,
`channels = out_channels * pooled_height * pooled_width`, every region naming
an image `0 ≤ batch_index < batch_size`, and the quantities `5 * n_rois`,
`nthreads = n_rois * out_channels * pooled_height * pooled_width`,
`batch_size * channels * height * width` and, for every region,
`gh * gw * PH * PW` all at most `2^31 - 1`, every access recorded by the kernels
in `int` arithmetic is inside its buffer: table writes and reads below the table size,
reads of the feature map and writes of the gradient buffer inside
`[0, batch_size * channels * height * width)`, output writes inside
`[0, nthreads)`; every record that the precomputation stores, and every entry
of the table built for a region, has its four positions in
`[0, height * width)`; and the buffers computed are those of `PSROIAlignForward`
and, when the strides are not negative and the largest offset into the upstream
gradient is at most `2^31 - 1`, of `PSROIAlignBackward`. -/
theorem accesses_in_bounds (B N C PH PW H W : ℕ) (hC : 1 ≤ C) (hPH : 1 ≤ PH) (hPW : 1 ≤ PW)
    (hH : 1 ≤ H) (hW : 1 ≤ W) (input grad_output out0 grad_input : Int → ℚ)
    (scale_h scale_w : ℚ) (sampling_ratio : Int) (rois : Int → ℚ)
    (n_stride c_stride h_stride w_stride : Int)
    (hb : ∀ n : ℕ, n < N → 0 ≤ roi_batch_ind rois n ∧ roi_batch_ind rois n < B)
    (h5 : 5 * (N : Int) ≤ 2147483647)
    (hnt : (N : Int) * C * PH * PW ≤ 2147483647)
    (hM : (B : Int) * ((C : Int) * PH * PW) * H * W ≤ 2147483647)
    (hgrid : ∀ n : ℕ, n < N →
      roi_bin_grid_h rois scale_h PH sampling_ratio n
        * roi_bin_grid_w rois scale_w PW sampling_ratio n * PH * PW ≤ 2147483647) :
    (∀ e ∈ (PSROIAlignForward_traced32 ((N : Int) * C * PH * PW) input scale_h scale_w
        ((C : Int) * PH * PW) H W C PH PW sampling_ratio rois out0).2,
      Access.in_bounds ((N : Int) * C * PH * PW) ((B : Int) * ((C : Int) * PH * PW) * H * W) e) ∧
    (∀ e ∈ (PSROIAlignBackward_traced32 ((N : Int) * C * PH * PW) grad_output scale_h scale_w
        ((C : Int) * PH * PW) H W C PH PW sampling_ratio grad_input rois n_stride c_stride
        h_stride w_stride).2,
      Access.in_bounds ((N : Int) * C * PH * PW) ((B : Int) * ((C : Int) * PH * PW) * H * W) e) ∧
    (1 ≤ B → ∀ y x : ℚ, PreCalc.in_plane H W (pre_calc_sample32 H W y x)) ∧
    (∀ n : ℕ, n < N → ∀ a : Int, PreCalc.in_plane H W
      ((pre_calc_for_bilinear_interpolate_traced32 H W PH PW
        (roi_bin_grid_h32 (fun i => rois (mul32 n 5 + i)) scale_h PH sampling_ratio 0)
        (roi_bin_grid_w32 (fun i => rois (mul32 n 5 + i)) scale_w PW sampling_ratio 0)
        (roi_start_h (fun i => rois (mul32 n 5 + i)) scale_h 0)
        (roi_start_w (fun i => rois (mul32 n 5 + i)) scale_w 0)
        (bin_size_h (fun i => rois (mul32 n 5 + i)) scale_h PH 0)
        (bin_size_w (fun i => rois (mul32 n 5 + i)) scale_w PW 0)
        (roi_bin_grid_h32 (fun i => rois (mul32 n 5 + i)) scale_h PH sampling_ratio 0)
        (roi_bin_grid_w32 (fun i => rois (mul32 n 5 + i)) scale_w PW sampling_ratio 0)
        (fun _ => PreCalc.zero)).1 a)) ∧
    (PSROIAlignForward_traced32 ((N : Int) * C * PH * PW) input scale_h scale_w
        ((C : Int) * PH * PW) H W C PH PW sampling_ratio rois out0).1
      = PSROIAlignForward ((N : Int) * C * PH * PW) input scale_h scale_w
        ((C : Int) * PH * PW) H W C PH PW sampling_ratio rois out0 ∧
    (0 ≤ n_stride → 0 ≤ c_stride → 0 ≤ h_stride → 0 ≤ w_stride →
      (N : Int) * n_stride + (C : Int) * c_stride + (PH : Int) * h_stride
        + (PW : Int) * w_stride ≤ 2147483647 →
      (PSROIAlignBackward_traced32 ((N : Int) * C * PH * PW) grad_output scale_h scale_w
          ((C : Int) * PH * PW) H W C PH PW sampling_ratio grad_input rois n_stride c_stride
          h_stride w_stride).1
        = PSROIAlignBackward ((N : Int) * C * PH * PW) grad_output scale_h scale_w
          ((C : Int) * PH * PW) H W C PH PW sampling_ratio grad_input rois n_stride c_stride
          h_stride w_stride) := by
  have eM : (B : Int) * ((C : Int) * PH * PW) * H * W
      = (B : Int) * ((C : Int) * PH * PW) * ((H : Int) * W) := by ring
  have hb' : ∀ n : Int, 0 ≤ n → n < N →
      0 ≤ roi_batch_ind rois n ∧ roi_batch_ind rois n < B := by
    intro n h0 h1
    lift n to ℕ using h0
    exact hb n (by exact_mod_cast h1)
  rw [eM] at hM ⊢
  have hplane : ∀ n : ℕ, n < N →
      (|roi_batch_ind rois n| + 1) * ((C : Int) * PH * PW) * ((H : Int) * W) ≤ 2147483647 :=
    fun n hn => plane_fits_of_batch B _ _ _ (by positivity) (by positivity) (hb n hn).1
      (hb n hn).2 hM
  have hbw : (PSROIAlignBackward_traced32 ((N : Int) * C * PH * PW) grad_output scale_h scale_w
        ((C : Int) * PH * PW) H W C PH PW sampling_ratio grad_input rois n_stride c_stride
        h_stride w_stride).2
      = (PSROIAlignBackward_traced ((N : Int) * C * PH * PW) grad_output scale_h scale_w
        ((C : Int) * PH * PW) H W C PH PW sampling_ratio grad_input rois 0 0 0 0).2 := by
    rw [PSROIAlignBackward_traced32_accesses _ grad_output grad_output _ _ _ _ _ _ _ _ _
        grad_input grad_input rois n_stride c_stride h_stride w_stride 0 0 0 0,
      PSROIAlignBackward_traced32_eq N C PH PW H W hC hPH hPW hH hW grad_output scale_h scale_w
        sampling_ratio grad_input rois 0 0 0 0 h5 hnt hplane hgrid (le_refl _) (le_refl _)
        (le_refl _) (le_refl _) (by norm_num)]
  rw [PSROIAlignForward_traced32_eq N C PH PW H W hC hPH hPW hH hW input scale_h scale_w
      sampling_ratio rois out0 h5 hnt hplane hgrid, hbw]
  have htable : ∀ n : ℕ, n < N → ∀ a : Int, PreCalc.in_plane H W
      ((pre_calc_for_bilinear_interpolate_traced32 H W PH PW
        (roi_bin_grid_h32 (fun i => rois (mul32 n 5 + i)) scale_h PH sampling_ratio 0)
        (roi_bin_grid_w32 (fun i => rois (mul32 n 5 + i)) scale_w PW sampling_ratio 0)
        (roi_start_h (fun i => rois (mul32 n 5 + i)) scale_h 0)
        (roi_start_w (fun i => rois (mul32 n 5 + i)) scale_w 0)
        (bin_size_h (fun i => rois (mul32 n 5 + i)) scale_h PH 0)
        (bin_size_w (fun i => rois (mul32 n 5 + i)) scale_w PW 0)
        (roi_bin_grid_h32 (fun i => rois (mul32 n 5 + i)) scale_h PH sampling_ratio 0)
        (roi_bin_grid_w32 (fun i => rois (mul32 n 5 + i)) scale_w PW sampling_ratio 0)
        (fun _ => PreCalc.zero)).1 a) := by
    intro n hn a
    have hPH' : (1 : Int) ≤ PH := by exact_mod_cast hPH
    have hPW' : (1 : Int) ≤ PW := by exact_mod_cast hPW
    obtain ⟨-, hHWfit, -⟩ := plane_fits N C PH PW H W (by omega) hC hPH hPW
      (roi_batch_ind rois n) hnt (hplane n hn)
    have hgh1 := roi_bin_grid_h_pos rois scale_h PH sampling_ratio n hPH'
    have hgw1 := roi_bin_grid_w_pos rois scale_w PW sampling_ratio n hPW'
    have hg := hgrid n hn
    obtain ⟨hghfit, hgwfit⟩ := grid_fits _ _ _ _ hgh1 hgw1 hPH' hPW' hg
    rw [region_offset_no_wrap N n hn h5]
    simp only [roi_start_w_shift, roi_start_h_shift, bin_size_h_shift, bin_size_w_shift,
      roi_bin_grid_h32_shift, roi_bin_grid_w32_shift]
    rw [roi_bin_grid_h32_eq rois scale_h PH sampling_ratio n hPH' hghfit,
      roi_bin_grid_w32_eq rois scale_w PW sampling_ratio n hPW' hgwfit]
    generalize roi_bin_grid_h rois scale_h PH sampling_ratio n = gh at hgh1 hg ⊢
    generalize roi_bin_grid_w rois scale_w PW sampling_ratio n = gw at hgw1 hg ⊢
    lift gh to ℕ using (by omega)
    lift gw to ℕ using (by omega)
    rw [pre_calc_traced32_eq H W PH PW gh gw hH hW hHWfit hg, pre_calc_traced_fst]
    exact pre_calc_table_in_plane H W (by exact_mod_cast hH) (by exact_mod_cast hW) _ _ _ _ _ _
      _ _ _ _ a
  refine ⟨fun e he => ?_, fun e he => ?_, fun hB y x => ?_, htable, ?_,
    fun s1 s2 s3 s4 hstr => ?_⟩
  · exact located_in_bounds rois N B _ _ _ (by positivity) (by positivity) hb' e
      (forward_trace_located N C PH PW H W hC hPH hPW hH hW input scale_h scale_w
        sampling_ratio rois out0 e he)
  · exact located_in_bounds rois N B _ _ _ (by positivity) (by positivity) hb' e
      (backward_trace_located N C PH PW H W hC hPH hPW hH hW grad_output scale_h scale_w
        sampling_ratio grad_input rois 0 0 0 0 e he)
  · have hHW : (H : Int) * W ≤ 2147483647 := by
      have hB' : (1 : Int) ≤ B := by exact_mod_cast hB
      have hCH1 : (1 : Int) ≤ (C : Int) * PH * PW := by
        have : 1 ≤ C * PH * PW := Nat.one_le_iff_ne_zero.mpr (by positivity)
        exact_mod_cast this
      have h1 : (1 : Int) ≤ (B : Int) * ((C : Int) * PH * PW) := by
        have := le_mul_of_one_le_right (by omega : (0 : Int) ≤ B) hCH1
        omega
      have : (1 : Int) * ((H : Int) * W)
          ≤ (B : Int) * ((C : Int) * PH * PW) * ((H : Int) * W) :=
        mul_le_mul_of_nonneg_right h1 (by positivity)
      omega
    rw [pre_calc_sample32_eq H W (by exact_mod_cast hH) (by exact_mod_cast hW) hHW]
    exact pre_calc_sample_pos_bounds H W (by exact_mod_cast hH) (by exact_mod_cast hW) y x
  · exact PSROIAlignForward_traced_fst _ _ _ _ _ _ _ _ _ _ _ _ _
  · rw [PSROIAlignBackward_traced32_eq N C PH PW H W hC hPH hPW hH hW grad_output scale_h
      scale_w sampling_ratio grad_input rois n_stride c_stride h_stride w_stride h5 hnt hplane
      hgrid s1 s2 s3 s4 hstr]
    exact PSROIAlignBackward_traced_fst _ _ _ _ _ _ _ _ _ _ _ _ _ _ _ _ _

theorem accesses_in_bounds_witness :
    (∀ e ∈ (PSROIAlignForward_traced32 (((1 : ℕ) : Int) * (1 : ℕ) * (2 : ℕ) * (2 : ℕ))
        (fun j => (j : ℚ)) 1 1 (((1 : ℕ) : Int) * (2 : ℕ) * (2 : ℕ)) (3 : ℕ) (3 : ℕ) (1 : ℕ)
        (2 : ℕ) (2 : ℕ) 2 (fun _ => 0) (fun _ => 0)).2,
      Access.in_bounds (((1 : ℕ) : Int) * (1 : ℕ) * (2 : ℕ) * (2 : ℕ))
        (((1 : ℕ) : Int) * (((1 : ℕ) : Int) * (2 : ℕ) * (2 : ℕ)) * (3 : ℕ) * (3 : ℕ)) e) ∧
    (∀ e ∈ (PSROIAlignBackward_traced32 (((1 : ℕ) : Int) * (1 : ℕ) * (2 : ℕ) * (2 : ℕ))
        (fun _ => 1) 1 1 (((1 : ℕ) : Int) * (2 : ℕ) * (2 : ℕ)) (3 : ℕ) (3 : ℕ) (1 : ℕ)
        (2 : ℕ) (2 : ℕ) 2 (fun _ => 0) (fun _ => 0) 4 4 2 1).2,
      Access.in_bounds (((1 : ℕ) : Int) * (1 : ℕ) * (2 : ℕ) * (2 : ℕ))
        (((1 : ℕ) : Int) * (((1 : ℕ) : Int) * (2 : ℕ) * (2 : ℕ)) * (3 : ℕ) * (3 : ℕ)) e) :=
  ⟨(accesses_in_bounds 1 1 1 2 2 3 3 (by norm_num) (by norm_num) (by norm_num) (by norm_num)
      (by norm_num) (fun j => (j : ℚ)) (fun _ => 1) (fun _ => 0) (fun _ => 0) 1 1 2
      (fun _ => 0) 4 4 2 1 (fun n _ => by norm_num [roi_batch_ind, toInt]) (by norm_num)
      (by norm_num) (by norm_num)
      (fun n _ => by norm_num [roi_bin_grid_h, roi_bin_grid_w])).1,
    (accesses_in_bounds 1 1 1 2 2 3 3 (by norm_num) (by norm_num) (by norm_num) (by norm_num)
      (by norm_num) (fun j => (j : ℚ)) (fun _ => 1) (fun _ => 0) (fun _ => 0) 1 1 2
      (fun _ => 0) 4 4 2 1 (fun n _ => by norm_num [roi_batch_ind, toInt]) (by norm_num)
      (by norm_num) (by norm_num)
      (fun n _ => by norm_num [roi_bin_grid_h, roi_bin_grid_w])).2.1⟩

/-- C11, counterexample. One region `(1, 0, 0, 1, 1)` on a feature map of one
image, one channel and one pixel (`batch_size = 1`, an array of one element):
its batch index 1 is outside `[0, 1)`; `PSROIAlignForward` reads the feature map
at linear index 1, outside `[0, 1)`, and returns the value found there (the
second element `input[1] = 7` and not the only element `input[0] = 5` of the
array), and `PSROIAlignBackward` writes the gradient at linear index 1. -/
theorem out_of_range_region_leaves_array :
    roi_batch_ind second_image_roi 0 = 1 ∧
    Access.input_read 0 1 ∈ (PSROIAlignForward_traced32 1 (fun j => if j = 0 then 5 else 7) 1 1
        1 1 1 1 1 1 1 second_image_roi (fun _ => 0)).2 ∧
    ¬ Access.in_bounds 1 (1 * 1 * 1 * 1) (Access.input_read 0 1) ∧
    (PSROIAlignForward_traced32 1 (fun j => if j = 0 then 5 else 7) 1 1 1 1 1 1 1 1 1
        second_image_roi (fun _ => 0)).1 0 = 7 ∧
    Access.grad_input_write 0 1 ∈ (PSROIAlignBackward_traced32 1 (fun _ => 1) 1 1 1 1 1 1 1 1 1
        (fun _ => 0) second_image_roi 1 1 1 1).2 ∧
    ¬ Access.in_bounds 1 (1 * 1 * 1 * 1) (Access.grad_input_write 0 1) ∧
    (PSROIAlignBackward_traced32 1 (fun _ => 1) 1 1 1 1 1 1 1 1 1 (fun _ => 0) second_image_roi
        1 1 1 1).1 1 = 1 := by
  have f1 : ⌊(1 : ℚ) / 2⌋ = 0 := by
    rw [Int.floor_eq_iff]
    norm_num
  refine ⟨?_, ?_, ?_, ?_, ?_, ?_, ?_⟩
  · norm_num [roi_batch_ind, second_image_roi, toInt]
  · simp only [PSROIAlignForward_traced32, pre_calc_for_bilinear_interpolate_traced32, forLoop,
      List.range, List.range.loop, roi_bin_grid_h32, roi_bin_grid_w32, Int.tdiv, List.foldl]
    norm_num [second_image_roi, roi_batch_ind, roi_start_w, roi_start_h, roi_end_w, roi_end_h,
      roi_width, roi_height, bin_size_h, bin_size_w, toInt, add32, mul32, wrap32,
      pre_calc_sample32, f1]
  · norm_num [Access.in_bounds]
  · simp only [PSROIAlignForward_traced32, pre_calc_for_bilinear_interpolate_traced32, forLoop,
      List.range, List.range.loop, roi_bin_grid_h32, roi_bin_grid_w32, Int.tdiv, List.foldl]
    norm_num [second_image_roi, roi_batch_ind, roi_start_w, roi_start_h, roi_end_w, roi_end_h,
      roi_width, roi_height, bin_size_h, bin_size_w, toInt, add32, mul32, wrap32,
      pre_calc_sample32, pc_value, f1, Function.update]
  · simp only [PSROIAlignBackward_traced32, forLoop, List.range, List.range.loop,
      roi_bin_grid_h32, roi_bin_grid_w32, Int.tdiv, Int.tmod, List.foldl]
    norm_num [grad_output_this_bin32, second_image_roi, roi_batch_ind, roi_start_w, roi_start_h,
      roi_end_w, roi_end_h, roi_width, roi_height, bin_size_h, bin_size_w, toInt, add32, mul32,
      wrap32, bilinear_interpolate_gradient, f1]
  · norm_num [Access.in_bounds]
  · simp only [PSROIAlignBackward_traced32, forLoop, List.range, List.range.loop,
      roi_bin_grid_h32, roi_bin_grid_w32, Int.tdiv, Int.tmod, List.foldl]
    norm_num [grad_output_this_bin32, second_image_roi, roi_batch_ind, roi_start_w, roi_start_h,
      roi_end_w, roi_end_h, roi_width, roi_height, bin_size_h, bin_size_w, toInt, add32, mul32,
      wrap32, bilinear_interpolate_gradient, f1, add, Function.update]

/-- C11, amended. The kernels do not look at the batch index of a region
before using it.  For dimensions at least 1,
`channels = out_channels * pooled_height * pooled_width` and inputs for which
no `int` index computation overflows (`5 * n_rois`, `nthreads` and, for every
region, `gh * gw * PH * PW` and `(|batch_index| + 1) * channels * height * width`
are at most `2^31 - 1`), a region `n` whose batch index is outside
`[0, batch_size)` raises no error:
`PSROIAlignForward` reads the feature map at least once for it, and every
feature-map read and every gradient-buffer write made for that region is at a
linear index outside `[0, batch_size * channels * height * width)`. -/
theorem out_of_range_region_accesses (B N C PH PW H W : ℕ) (hC : 1 ≤ C) (hPH : 1 ≤ PH)
    (hPW : 1 ≤ PW) (hH : 1 ≤ H) (hW : 1 ≤ W) (input grad_output out0 grad_input : Int → ℚ)
    (scale_h scale_w : ℚ) (sampling_ratio : Int) (rois : Int → ℚ)
    (n_stride c_stride h_stride w_stride : Int)
    (h5 : 5 * (N : Int) ≤ 2147483647)
    (hnt : (N : Int) * C * PH * PW ≤ 2147483647)
    (hplane : ∀ n : ℕ, n < N →
      (|roi_batch_ind rois n| + 1) * ((C : Int) * PH * PW) * ((H : Int) * W) ≤ 2147483647)
    (hgrid : ∀ n : ℕ, n < N →
      roi_bin_grid_h rois scale_h PH sampling_ratio n
        * roi_bin_grid_w rois scale_w PW sampling_ratio n * PH * PW ≤ 2147483647)
    (n : ℕ) (hn : n < N)
    (hout : roi_batch_ind rois n < 0 ∨ (B : Int) ≤ roi_batch_ind rois n) :
    (∃ idx, Access.input_read n idx ∈
      (PSROIAlignForward_traced32 ((N : Int) * C * PH * PW) input scale_h scale_w
        ((C : Int) * PH * PW) H W C PH PW sampling_ratio rois out0).2) ∧
    (∀ idx, Access.input_read n idx ∈
      (PSROIAlignForward_traced32 ((N : Int) * C * PH * PW) input scale_h scale_w
        ((C : Int) * PH * PW) H W C PH PW sampling_ratio rois out0).2 →
      idx < 0 ∨ (B : Int) * ((C : Int) * PH * PW) * H * W ≤ idx) ∧
    (∀ idx, Access.grad_input_write n idx ∈
      (PSROIAlignBackward_traced32 ((N : Int) * C * PH * PW) grad_output scale_h scale_w
        ((C : Int) * PH * PW) H W C PH PW sampling_ratio grad_input rois n_stride c_stride
        h_stride w_stride).2 →
      idx < 0 ∨ (B : Int) * ((C : Int) * PH * PW) * H * W ≤ idx) ∧
    (PSROIAlignForward_traced32 ((N : Int) * C * PH * PW) input scale_h scale_w
        ((C : Int) * PH * PW) H W C PH PW sampling_ratio rois out0).1
      = PSROIAlignForward ((N : Int) * C * PH * PW) input scale_h scale_w
        ((C : Int) * PH * PW) H W C PH PW sampling_ratio rois out0 ∧
    (0 ≤ n_stride → 0 ≤ c_stride → 0 ≤ h_stride → 0 ≤ w_stride →
      (N : Int) * n_stride + (C : Int) * c_stride + (PH : Int) * h_stride
        + (PW : Int) * w_stride ≤ 2147483647 →
      (PSROIAlignBackward_traced32 ((N : Int) * C * PH * PW) grad_output scale_h scale_w
          ((C : Int) * PH * PW) H W C PH PW sampling_ratio grad_input rois n_stride c_stride
          h_stride w_stride).1
        = PSROIAlignBackward ((N : Int) * C * PH * PW) grad_output scale_h scale_w
          ((C : Int) * PH * PW) H W C PH PW sampling_ratio grad_input rois n_stride c_stride
          h_stride w_stride) := by
  have eM : (B : Int) * ((C : Int) * PH * PW) * H * W
      = (B : Int) * ((C : Int) * PH * PW) * ((H : Int) * W) := by ring
  have hbw : (PSROIAlignBackward_traced32 ((N : Int) * C * PH * PW) grad_output scale_h scale_w
        ((C : Int) * PH * PW) H W C PH PW sampling_ratio grad_input rois n_stride c_stride
        h_stride w_stride).2
      = (PSROIAlignBackward_traced ((N : Int) * C * PH * PW) grad_output scale_h scale_w
        ((C : Int) * PH * PW) H W C PH PW sampling_ratio grad_input rois 0 0 0 0).2 := by
    rw [PSROIAlignBackward_traced32_accesses _ grad_output grad_output _ _ _ _ _ _ _ _ _
        grad_input grad_input rois n_stride c_stride h_stride w_stride 0 0 0 0,
      PSROIAlignBackward_traced32_eq N C PH PW H W hC hPH hPW hH hW grad_output scale_h scale_w
        sampling_ratio grad_input rois 0 0 0 0 h5 hnt hplane hgrid (le_refl _) (le_refl _)
        (le_refl _) (le_refl _) (by norm_num)]
  rw [eM, PSROIAlignForward_traced32_eq N C PH PW H W hC hPH hPW hH hW input scale_h scale_w
      sampling_ratio rois out0 h5 hnt hplane hgrid, hbw]
  refine ⟨?_, fun idx he => ?_, fun idx he => ?_, ?_, fun s1 s2 s3 s4 hstr => ?_⟩
  · obtain ⟨e, he, idx, rfl⟩ := forward_trace_reads_each_region N C PH PW hC hPH hPW input
      scale_h scale_w ((C : Int) * PH * PW) H W sampling_ratio rois out0 n hn
    exact ⟨idx, he⟩
  · obtain ⟨-, -, ch, c0, c1, lo, hi⟩ := forward_trace_located N C PH PW H W hC hPH hPW hH hW
      input scale_h scale_w sampling_ratio rois out0 _ he
    exact plane_out_of_range _ _ _ _ ch idx (by positivity) c0 c1 hout lo hi
  · obtain ⟨-, -, ch, c0, c1, lo, hi⟩ := backward_trace_located N C PH PW H W hC hPH hPW hH hW
      grad_output scale_h scale_w sampling_ratio grad_input rois 0 0 0 0 _ he
    exact plane_out_of_range _ _ _ _ ch idx (by positivity) c0 c1 hout lo hi
  · exact PSROIAlignForward_traced_fst _ _ _ _ _ _ _ _ _ _ _ _ _
  · rw [PSROIAlignBackward_traced32_eq N C PH PW H W hC hPH hPW hH hW grad_output scale_h
      scale_w sampling_ratio grad_input rois n_stride c_stride h_stride w_stride h5 hnt hplane
      hgrid s1 s2 s3 s4 hstr]
    exact PSROIAlignBackward_traced_fst _ _ _ _ _ _ _ _ _ _ _ _ _ _ _ _ _

theorem out_of_range_region_accesses_witness :
    (∃ idx, Access.input_read ((0 : ℕ) : Int) idx ∈
      (PSROIAlignForward_traced32 (((1 : ℕ) : Int) * (1 : ℕ) * (1 : ℕ) * (1 : ℕ))
        (fun j => if j = 0 then 5 else 7) 1 1 (((1 : ℕ) : Int) * (1 : ℕ) * (1 : ℕ)) (1 : ℕ)
        (1 : ℕ) (1 : ℕ) (1 : ℕ) (1 : ℕ) 1 second_image_roi (fun _ => 0)).2) ∧
    (∀ idx, Access.input_read ((0 : ℕ) : Int) idx ∈
      (PSROIAlignForward_traced32 (((1 : ℕ) : Int) * (1 : ℕ) * (1 : ℕ) * (1 : ℕ))
        (fun j => if j = 0 then 5 else 7) 1 1 (((1 : ℕ) : Int) * (1 : ℕ) * (1 : ℕ)) (1 : ℕ)
        (1 : ℕ) (1 : ℕ) (1 : ℕ) (1 : ℕ) 1 second_image_roi (fun _ => 0)).2 →
      idx < 0 ∨ ((1 : ℕ) : Int) * (((1 : ℕ) : Int) * (1 : ℕ) * (1 : ℕ)) * (1 : ℕ) * (1 : ℕ)
        ≤ idx) :=
  ⟨(out_of_range_region_accesses 1 1 1 1 1 1 1 (by norm_num) (by norm_num) (by norm_num)
      (by norm_num) (by norm_num) (fun j => if j = 0 then 5 else 7) (fun _ => 1) (fun _ => 0)
      (fun _ => 0) 1 1 1 second_image_roi 1 1 1 1 (by norm_num) (by norm_num)
      (fun n hn => by
        have e : n = 0 := by omega
        subst e
        norm_num [roi_batch_ind, second_image_roi, toInt])
      (fun n _ => by norm_num [roi_bin_grid_h, roi_bin_grid_w]) 0 (by norm_num)
      (by norm_num [roi_batch_ind, second_image_roi, toInt])).1,
    (out_of_range_region_accesses 1 1 1 1 1 1 1 (by norm_num) (by norm_num) (by norm_num)
      (by norm_num) (by norm_num) (fun j => if j = 0 then 5 else 7) (fun _ => 1) (fun _ => 0)
      (fun _ => 0) 1 1 1 second_image_roi 1 1 1 1 (by norm_num) (by norm_num)
      (fun n hn => by
        have e : n = 0 := by omega
        subst e
        norm_num [roi_batch_ind, second_image_roi, toInt])
      (fun n _ => by norm_num [roi_bin_grid_h, roi_bin_grid_w]) 0 (by norm_num)
      (by norm_num [roi_batch_ind, second_image_roi, toInt])).2.1⟩

end PSROIAlign
